import Mathlib

/-!
Aggregation window of the candlestick foreign scraper

Shallow embedding of `cmd/foreignscraper/candlestick/candlestick.go`:
`getRecentDataFromChannel`, `getPairData`, `computeMedian`, `discardOutliers`, `vwap`,
`makeVWAP` and their helpers, the `ForeignName` the adapters derive, and the decoding of a
received message in `scrapeBinance` and `scrapeHitbtc`.

Modelling conventions
* `float64` values are exact rationals (`ℚ`) and the constant `float64(0.0001)` is `1/10000`:
  this is the code in exact arithmetic. The namespace `Candlestick.IEEE` further down has the
  same functions with every operation rounded to `float64`.
* A Go slice is a `List`; `xs[i]` is `xs.getD i 0` (every index the code uses is in range).
* A function that mutates a slice argument in place returns the mutated slice next to its
  result: `computeMedian` sorts `samples` in place, so it returns the sorted slice as well.
* A Go `error` is an `Option String` (`none` is `nil`).
* A Go `map[string]T` is an association list with `mapSet` as assignment; `range` over a map
  visits the entries in list order.
* A channel read by `range` is the list of the messages it delivers, in queue order, until it
  is closed.
-/

namespace Candlestick

/-- A Go `error`: `none` is `nil`. -/
abbrev GoError := Option String

/-- A Go `map[string]T` as an association list. -/
abbrev GoMap (α : Type) := List (String × α)

/-- Assignment `m[k] = v`: overwrite the entry of `k` when there is one, add it otherwise. -/
def mapSet {α : Type} : GoMap α → String → α → GoMap α
  | [], k, v => [(k, v)]
  | (k', v') :: rest, k, v =>
    if k' = k then (k, v) :: rest else (k', v') :: mapSet rest k v

/-- Lookup `m[k]` with the `ok` flag folded into the option. -/
def mapGet {α : Type} (m : GoMap α) (k : String) : Option α :=
  (m.find? (fun e => decide (e.1 = k))).map Prod.snd

/-- The key set of a map, in iteration order. -/
def mapKeys {α : Type} (m : GoMap α) : List String := m.map Prod.fst

def tickerDurationSeconds : Int := 60

def outlierBasisPoints : ℚ := 30

/-- One venue's latest one-minute close. A `time.Time` is an instant in nanoseconds since the
Unix epoch. -/
structure candlestickMessage where
  ForeignName : String
  ClosingPrice : ℚ
  Volume : ℚ
  Timestamp : Int
  ScrapeTime : Int
  Source : String
  deriving DecidableEq

/-- The message of the error both `vwap` and `discardOutliers` raise. -/
def errLengthMismatch : String := "number of prices does not equal number of volumes "

/-- The library routine `sort.Float64s`: ascending sort. -/
def sortFloat64s (xs : List ℚ) : List ℚ := xs.insertionSort (fun a b => a ≤ b)

/-- The function `computeMedian`. The second component is `samples` as the call leaves it:
`sort.Float64s(samples)` sorts the caller's slice in place. -/
def computeMedian (samples : List ℚ) : ℚ × List ℚ :=
  let length := samples.length
  if length > 0 then
    let samples := sortFloat64s samples
    if length % 2 = 0 then
      ((samples.getD (length / 2 - 1) 0 + samples.getD (length / 2) 0) / 2, samples)
    else
      (samples.getD ((length + 1) / 2 - 1) 0, samples)
  else
    (0, samples)

/-- One iteration of the loop of `discardOutliers` at index `i`. -/
def discardStep (prices volumes : List ℚ) (median threshold : ℚ)
    (acc : List ℚ × List ℚ) (i : Nat) : List ℚ × List ℚ :=
  if |prices.getD i 0 - median| < threshold then
    (acc.1 ++ [prices.getD i 0], acc.2 ++ [volumes.getD i 0])
  else acc

/-- The function `discardOutliers` in exact arithmetic: `(newPrices, newVolumes, err)`. The
loop runs over the slice `prices` as `computeMedian` left it. Near the boundary the `float64`
comparison of the code can come out differently; `IEEE.discardOutliers` has the rounding. -/
def discardOutliers (prices volumes : List ℚ) (basispoints : ℚ) :
    List ℚ × List ℚ × GoError :=
  if prices.length ≠ volumes.length then
    ([], [], some errLengthMismatch)
  else
    let r := computeMedian prices
    let median := r.1
    let prices := r.2
    let threshold := basispoints * (1 / 10000 : ℚ) * median
    let out := (List.range prices.length).foldl
      (discardStep prices volumes median threshold) ([], [])
    (out.1, out.2, none)

/-- One iteration of the loop of `vwap` at index `i`, on `(avg, totalVolume)`. -/
def vwapStep (prices volumes : List ℚ) (acc : ℚ × ℚ) (i : Nat) : ℚ × ℚ :=
  (acc.1 + prices.getD i 0 * |volumes.getD i 0|, acc.2 + |volumes.getD i 0|)

/-- The accumulators `(avg, totalVolume)` of `vwap` after its loop. -/
def vwapSums (prices volumes : List ℚ) : ℚ × ℚ :=
  (List.range prices.length).foldl (vwapStep prices volumes) (0, 0)

/-- The function `vwap` in exact arithmetic: `(price, err)`. The sums and the quotient of the
code are rounded to `float64`; `IEEE.vwap` has the rounding. -/
def vwap (prices volumes : List ℚ) : ℚ × GoError :=
  if prices.length ≠ volumes.length then
    (0, some errLengthMismatch)
  else
    let s := vwapSums prices volumes
    if s.2 > 0 then (s.1 / s.2, none) else (0, none)

def getPrices (messages : List candlestickMessage) : List ℚ :=
  messages.foldl (fun prices message => prices ++ [message.ClosingPrice]) []

def getVolumes (messages : List candlestickMessage) : List ℚ :=
  messages.foldl (fun volumes message => volumes ++ [message.Volume]) []

/-- The loop of `makeVWAP` over the entries of `pairData` still to visit. -/
def makeVWAPLoop (threshold : ℚ) :
    List (String × List candlestickMessage) → GoMap ℚ → GoMap ℚ × GoError
  | [], vwapMap => (vwapMap, none)
  | (key, value) :: rest, vwapMap =>
    match discardOutliers (getPrices value) (getVolumes value) threshold with
    | (_, _, some err) => (vwapMap, some err)
    | (cleanedPrices, cleanedVolumes, none) =>
      let r := vwap cleanedPrices cleanedVolumes
      let vwapMap := mapSet vwapMap key r.1
      match r.2 with
      | some err => (vwapMap, some err)
      | none => makeVWAPLoop threshold rest vwapMap

/-- The function `makeVWAP`. -/
def makeVWAP (pairData : GoMap (List candlestickMessage)) (threshold : ℚ) :
    GoMap ℚ × GoError :=
  makeVWAPLoop threshold pairData []

/-- The duration `time.Second`, in nanoseconds. -/
def second : Int := 1000000000

def getCandleStickMessageIdent (message : candlestickMessage) : String :=
  message.Source ++ "-" ++ message.ForeignName

/-- The loop of `getRecentDataFromChannel` over the messages the channel delivers, in queue
order, until it is closed. The second component is what is left in the channel when the
function returns. `Timestamp.After(endtime)` is the strict `>`. -/
def getRecentDataLoop (endtime : Int) :
    List candlestickMessage → GoMap candlestickMessage →
      GoMap candlestickMessage × List candlestickMessage
  | [], lastCandleData => (lastCandleData, [])
  | message :: rest, lastCandleData =>
    if message.Timestamp > endtime then
      (lastCandleData, rest)
    else if endtime - message.ScrapeTime > tickerDurationSeconds * second then
      getRecentDataLoop endtime rest lastCandleData
    else
      let messageIdent := getCandleStickMessageIdent message
      match mapGet lastCandleData messageIdent with
      | none => getRecentDataLoop endtime rest (mapSet lastCandleData messageIdent message)
      | some last =>
        if message.Timestamp > last.Timestamp then
          getRecentDataLoop endtime rest (mapSet lastCandleData messageIdent message)
        else
          getRecentDataLoop endtime rest lastCandleData

/-- The function `getRecentDataFromChannel`: the returned map and the messages left in the
channel. -/
def getRecentDataFromChannel (candleChan : List candlestickMessage) (endtime : Int) :
    GoMap candlestickMessage × List candlestickMessage :=
  getRecentDataLoop endtime candleChan []

/-- The library routine `strings.Split(s, "-")`. -/
def splitDash (s : String) : List String :=
  (s.toList.splitOn '-').map String.mk

/-- The loop of `getPairData` over the entries of `candleData` still to visit; `none` is the
run-time panic of `strings.Split(key, "-")[1]` on a key without `"-"`. -/
def getPairDataLoop :
    List (String × candlestickMessage) → GoMap (List candlestickMessage) →
      Option (GoMap (List candlestickMessage))
  | [], pairData => some pairData
  | (key, value) :: rest, pairData =>
    match (splitDash key)[1]? with
    | none => none
    | some pair =>
      match mapGet pairData pair with
      | none => getPairDataLoop rest (mapSet pairData pair [value])
      | some group => getPairDataLoop rest (mapSet pairData pair (group ++ [value]))

/-- The function `getPairData`. -/
def getPairData (candleData : GoMap candlestickMessage) :
    Option (GoMap (List candlestickMessage)) :=
  getPairDataLoop candleData []


/-- The library routine `strings.Split(s, sep)` for a separator of one character. -/
def stringsSplit (s : String) (sep : Char) : List String :=
  (s.toList.splitOn sep).map String.mk

/-- The library routine `strings.ToUpper`, on ASCII strings. -/
def stringsToUpper (s : String) : String := String.mk (s.toList.map Char.toUpper)

/-- The library routine `strings.ToLower`, on ASCII strings. -/
def stringsToLower (s : String) : String := String.mk (s.toList.map Char.toLower)

/-- The `ForeignName` of `scrapeKucoin`, from `result["symbol"]`:
`strings.Split(foreignNameString, "-")[0] + "USDT"`; `none` is the index panic. -/
def kucoinForeignName (foreignNameString : String) : Option String :=
  match (stringsSplit foreignNameString '-')[0]? with
  | none => none
  | some foreignNameFiltered => some (foreignNameFiltered ++ "USDT")

/-- The `ForeignName` of `scrapeOkex`, from `result["instrument_id"]`:
`strings.Split(foreignNameString, "-")[0] + "USDT"`; `none` is the index panic. -/
def okexForeignName (foreignNameString : String) : Option String :=
  match (stringsSplit foreignNameString '-')[0]? with
  | none => none
  | some foreignNameFiltered => some (foreignNameFiltered ++ "USDT")

/-- The `ForeignName` of `scrapeGateio`, from `result["n"]`:
`strings.ToUpper(strings.Split(foreignNameString, "_")[1]) + "USDT"`; `none` is the index
panic. -/
def gateioForeignName (foreignNameString : String) : Option String :=
  match (stringsSplit foreignNameString '_')[1]? with
  | none => none
  | some foreignNameFiltered => some (stringsToUpper foreignNameFiltered ++ "USDT")

/-- The `ForeignName` of `scrapeHuobi`, from `messageMap["ch"]`:
`strings.ToUpper(strings.Split(foreignNameString, ".")[1])`; `none` is the index panic. -/
def huobiForeignName (foreignNameString : String) : Option String :=
  match (stringsSplit foreignNameString '.')[1]? with
  | none => none
  | some foreignNameFiltered => some (stringsToUpper foreignNameFiltered)


/-- A decoded JSON value, as `json.Unmarshal` stores it in an `interface{}`: `null` is the
nil interface, a number is a `float64`, an array is a `[]interface{}` and an object is a
`map[string]interface{}`. -/
inductive JSONValue where
  | null
  | bool (b : Bool)
  | number (x : ℚ)
  | string (s : String)
  | array (xs : List JSONValue)
  | object (fields : List (String × JSONValue))

/-- The type assertion `x.(map[string]interface{})` on the value read from a map (`none` when
the key is absent, which reads as the nil interface); the result `none` is the run-time
panic of a failed assertion. -/
def assertObject : Option JSONValue → Option (GoMap JSONValue)
  | some (JSONValue.object fields) => some fields
  | _ => none

/-- The type assertion `x.([]interface{})`. -/
def assertArray : Option JSONValue → Option (List JSONValue)
  | some (JSONValue.array xs) => some xs
  | _ => none

/-- The type assertion `x.(string)`. -/
def assertString : Option JSONValue → Option String
  | some (JSONValue.string s) => some s
  | _ => none

/-- The type assertion `x.(float64)`. -/
def assertFloat64 : Option JSONValue → Option ℚ
  | some (JSONValue.number x) => some x
  | _ => none

/-- The comparison `x != nil` on the value read from a map. -/
def notNil : Option JSONValue → Bool
  | none => false
  | some JSONValue.null => false
  | some _ => true

/-- The conversion `int64(x)` of a `float64`: truncation toward zero. -/
def int64OfFloat64 (x : ℚ) : Int := if 0 ≤ x then ⌊x⌋ else ⌈x⌉

/-- What one round of the read loop of an adapter does with a received message: it sends an
observation, goes on to the next message, returns an error, or panics. -/
inductive DecodeOutcome where
  | observation (m : candlestickMessage)
  | skip
  | error (err : String)
  | panic

/-- The statements of `scrapeBinance` between `json.Unmarshal` and the send, with `none` the
run-time panic of a failed type assertion. `messageMap` is the map as `json.Unmarshal` left
it; its error is assigned and never tested, and so are the errors of `strconv.ParseFloat`.
`ParseFloat` is the library routine and `now` the value of `time.Now()`. -/
def binanceObservation (ParseFloat : String → ℚ × GoError) (now : Int)
    (messageMap : GoMap JSONValue) : Option candlestickMessage := do
  let data ← assertObject (mapGet (← assertObject (mapGet messageMap "data")) "k")
  let timeUnix ← assertFloat64 (mapGet (← assertObject (mapGet messageMap "data")) "E")
  let closingPriceString ← assertString (mapGet data "c")
  let closingPrice := (ParseFloat closingPriceString).1
  let volumeString ← assertString (mapGet data "V")
  let volume := (ParseFloat volumeString).1
  let foreignName ← assertString (mapGet data "s")
  pure { ForeignName := foreignName, ClosingPrice := closingPrice, Volume := volume,
         Timestamp := int64OfFloat64 (timeUnix / 1000) * second, ScrapeTime := now,
         Source := "Binance" }

/-- One round of the read loop of `scrapeBinance` on a message that was read without
error. -/
def binanceDecode (ParseFloat : String → ℚ × GoError) (now : Int)
    (messageMap : GoMap JSONValue) : DecodeOutcome :=
  match binanceObservation ParseFloat now messageMap with
  | some m => DecodeOutcome.observation m
  | none => DecodeOutcome.panic

/-- One round of the read loop of `scrapeHitbtc` on a message that was read without error.
`unmarshal` is the map `json.Unmarshal` left and its error. `for k := range update` visits
the entries in list order. -/
def hitbtcDecode (ParseFloat : String → ℚ × GoError) (now : Int)
    (unmarshal : GoMap JSONValue × GoError) : DecodeOutcome :=
  match unmarshal.2 with
  | some err => DecodeOutcome.error err
  | none =>
    let messageMap := unmarshal.1
    if notNil (mapGet messageMap "result") then DecodeOutcome.skip
    else if notNil (mapGet messageMap "snapshot") then DecodeOutcome.skip
    else
      match assertObject (mapGet messageMap "update") with
      | none => DecodeOutcome.panic
      | some update =>
        let assetKey := match update with
          | [] => ""
          | (k, _) :: _ => k
        match assertArray (mapGet update assetKey) with
        | none => DecodeOutcome.panic
        | some content =>
          match content[0]? with
          | none => DecodeOutcome.panic
          | some first =>
            match assertObject (some first) with
            | none => DecodeOutcome.panic
            | some result =>
              match assertString (mapGet result "c") with
              | none => DecodeOutcome.panic
              | some closingPriceString =>
                match ParseFloat closingPriceString with
                | (_, some err) => DecodeOutcome.error err
                | (closingPrice, none) =>
                  match assertString (mapGet result "v") with
                  | none => DecodeOutcome.panic
                  | some volumeString =>
                    match ParseFloat volumeString with
                    | (_, some err) => DecodeOutcome.error err
                    | (volume, none) =>
                      match assertFloat64 (mapGet result "t") with
                      | none => DecodeOutcome.panic
                      | some timeUnix =>
                        DecodeOutcome.observation
                          { ForeignName := stringsToUpper assetKey,
                            ClosingPrice := closingPrice, Volume := volume,
                            Timestamp := Int.tdiv (int64OfFloat64 timeUnix) 1000 * second,
                            ScrapeTime := now, Source := "HitBTC" }


end Candlestick

/-!
The same window in `float64` arithmetic

`computeMedian`, `discardOutliers`, `vwap` and `makeVWAP` once more, with every `float64`
operation rounded as IEEE 754 prescribes (binary64, round to nearest, ties to even), for the
inputs on which rounding decides the outcome.

Modelling conventions
* A finite `float64` is `num * 2 ^ exp` in the form the format stores: `2 ^ 52 ≤ |num| < 2 ^ 53`
  and `-1074 ≤ exp ≤ 971`, or `0 < |num| < 2 ^ 52` and `exp = -1074` (subnormal numbers), or
  `num = 0` and `exp = 0` (zero).
  Values in this form are equal exactly when they are equal as structures.
* The two zeros are one value. They differ only as divisors, and the divisors of this code are
  the constant `2` and a `totalVolume` tested to be `> 0`.
* Every operation is rounded by itself. Where a compiler fuses `x * y + z` into one rounding,
  only the accumulation in `vwap` is concerned, and in the inputs evaluated below its products
  are exact.
-/

namespace Candlestick.IEEE

/-- A `float64` value. `finite num exp` is `num * 2 ^ exp`. -/
inductive Float64 where
  | finite (num : Int) (exp : Int)
  | posInf
  | negInf
  | nan
  deriving DecidableEq

/-- The number of binary digits of `n`; `fuel` bounds the number of halvings. -/
def bitLength : Nat → Nat → Nat
  | 0, _ => 0
  | fuel + 1, n => if n = 0 then 0 else bitLength fuel (n / 2) + 1

/-- Whether `a / d ≥ 2 ^ k`. -/
def ratioGePow (a d : Nat) (k : Int) : Bool :=
  if k ≥ 0 then decide (d * 2 ^ k.toNat ≤ a) else decide (d ≤ a * 2 ^ (-k).toNat)

/-- The `float64` nearest to the exact quotient `n / d`, ties to even; beyond the largest finite
value the result is an infinity. With `k = ⌊log₂ |n / d|⌋` the unit in the last place is
`2 ^ u`, `u = max (k - 52) (-1074)`, and `|n / d| = (N / D) * 2 ^ u`. -/
def roundRatio (n : Int) (d : Nat) : Float64 :=
  if d = 0 then Float64.nan
  else if n = 0 then Float64.finite 0 0
  else
    let a := n.natAbs
    let k0 : Int := (bitLength a a : Int) - (bitLength d d : Int)
    let k : Int := if ratioGePow a d k0 then k0 else k0 - 1
    let u : Int := max (k - 52) (-1074)
    let N : Nat := if u ≥ 0 then a else a * 2 ^ (-u).toNat
    let D : Nat := if u ≥ 0 then d * 2 ^ u.toNat else d
    let q := N / D
    let r := N % D
    let q1 := if 2 * r > D ∨ (2 * r = D ∧ q % 2 = 1) then q + 1 else q
    let m : Nat := if q1 = 2 ^ 53 then 2 ^ 52 else q1
    let e : Int := if q1 = 2 ^ 53 then u + 1 else u
    if e > 971 then (if n < 0 then Float64.negInf else Float64.posInf)
    else if m = 0 then Float64.finite 0 0
    else Float64.finite (if n < 0 then -(m : Int) else (m : Int)) e

/-- Numerator of the finite value `num * 2 ^ exp` over `ratioDen exp`. -/
def ratioNum (num exp : Int) : Int :=
  if exp ≥ 0 then num * ((2 ^ exp.toNat : Nat) : Int) else num

/-- Denominator of a finite value with exponent `exp`. -/
def ratioDen (exp : Int) : Nat :=
  if exp ≥ 0 then 1 else 2 ^ (-exp).toNat

/-- The constant `float64(0)`. -/
def zero : Float64 := Float64.finite 0 0

/-- The conversion `float64(n)` of an integer constant. -/
def ofInt (n : Int) : Float64 := roundRatio n 1

def isNaN : Float64 → Bool
  | Float64.nan => true
  | _ => false

/-- The sign of a value that is not a NaN: `true` for a negative value. -/
def isNeg : Float64 → Bool
  | Float64.finite num _ => decide (num < 0)
  | Float64.negInf => true
  | _ => false

def isZero : Float64 → Bool
  | Float64.finite num _ => decide (num = 0)
  | _ => false

def isInf : Float64 → Bool
  | Float64.posInf => true
  | Float64.negInf => true
  | _ => false

/-- The infinity of the given sign. -/
def inf (negative : Bool) : Float64 := if negative then Float64.negInf else Float64.posInf

/-- The operator `x + y`. -/
def add : Float64 → Float64 → Float64
  | Float64.nan, _ => Float64.nan
  | _, Float64.nan => Float64.nan
  | Float64.posInf, Float64.negInf => Float64.nan
  | Float64.negInf, Float64.posInf => Float64.nan
  | Float64.posInf, _ => Float64.posInf
  | Float64.negInf, _ => Float64.negInf
  | _, Float64.posInf => Float64.posInf
  | _, Float64.negInf => Float64.negInf
  | Float64.finite n1 e1, Float64.finite n2 e2 =>
    roundRatio (ratioNum n1 e1 * (ratioDen e2 : Int) + ratioNum n2 e2 * (ratioDen e1 : Int))
      (ratioDen e1 * ratioDen e2)

/-- The operator `-x`. -/
def neg : Float64 → Float64
  | Float64.finite num exp => Float64.finite (-num) exp
  | Float64.posInf => Float64.negInf
  | Float64.negInf => Float64.posInf
  | Float64.nan => Float64.nan

/-- The operator `x - y`. -/
def sub (x y : Float64) : Float64 := add x (neg y)

/-- The operator `x * y`. -/
def mul : Float64 → Float64 → Float64
  | Float64.nan, _ => Float64.nan
  | _, Float64.nan => Float64.nan
  | Float64.finite n1 e1, Float64.finite n2 e2 =>
    roundRatio (ratioNum n1 e1 * ratioNum n2 e2) (ratioDen e1 * ratioDen e2)
  | x, y =>
    if isZero x || isZero y then Float64.nan else inf (isNeg x != isNeg y)

/-- The operator `x / y`. -/
def div : Float64 → Float64 → Float64
  | Float64.nan, _ => Float64.nan
  | _, Float64.nan => Float64.nan
  | Float64.finite n1 e1, Float64.finite n2 e2 =>
    if n2 = 0 then
      if n1 = 0 then Float64.nan else inf (decide (n1 < 0))
    else
      roundRatio
        ((if n2 < 0 then -ratioNum n1 e1 else ratioNum n1 e1) * (ratioDen e2 : Int))
        (ratioDen e1 * (ratioNum n2 e2).natAbs)
  | Float64.finite _ _, _ => zero
  | x, Float64.finite n2 _ => inf (isNeg x != decide (n2 < 0))
  | _, _ => Float64.nan

/-- The library routine `math.Abs`. -/
def abs : Float64 → Float64
  | Float64.finite num exp => Float64.finite |num| exp
  | Float64.posInf => Float64.posInf
  | Float64.negInf => Float64.posInf
  | Float64.nan => Float64.nan

/-- The operator `x < y`; false when either side is a NaN. -/
def lt : Float64 → Float64 → Bool
  | Float64.nan, _ => false
  | _, Float64.nan => false
  | Float64.finite n1 e1, Float64.finite n2 e2 =>
    decide (ratioNum n1 e1 * (ratioDen e2 : Int) < ratioNum n2 e2 * (ratioDen e1 : Int))
  | Float64.negInf, Float64.negInf => false
  | Float64.negInf, _ => true
  | _, Float64.negInf => false
  | Float64.posInf, _ => false
  | _, Float64.posInf => true

/-- The order of `sort.Float64s`: `x < y`, with a NaN before every other value. -/
def less (x y : Float64) : Bool := lt x y || (isNaN x && !isNaN y)

/-- The library routine `sort.Float64s`: ascending sort. -/
def sortFloat64s (xs : List Float64) : List Float64 :=
  xs.insertionSort (fun a b => less b a = false)

/-- The function `computeMedian`. The second component is `samples` as the call leaves it:
`sort.Float64s(samples)` sorts the caller's slice in place. -/
def computeMedian (samples : List Float64) : Float64 × List Float64 :=
  let length := samples.length
  if length > 0 then
    let samples := sortFloat64s samples
    if length % 2 = 0 then
      (div (add (samples.getD (length / 2 - 1) zero) (samples.getD (length / 2) zero)) (ofInt 2),
        samples)
    else
      (samples.getD ((length + 1) / 2 - 1) zero, samples)
  else
    (zero, samples)

/-- One iteration of the loop of `discardOutliers` at index `i`. -/
def discardStep (prices volumes : List Float64) (median threshold : Float64)
    (acc : List Float64 × List Float64) (i : Nat) : List Float64 × List Float64 :=
  if lt (abs (sub (prices.getD i zero) median)) threshold then
    (acc.1 ++ [prices.getD i zero], acc.2 ++ [volumes.getD i zero])
  else acc

/-- The function `discardOutliers`: `(newPrices, newVolumes, err)`. The constant
`float64(0.0001)` is the `float64` nearest to `1/10000`. -/
def discardOutliers (prices volumes : List Float64) (basispoints : Float64) :
    List Float64 × List Float64 × GoError :=
  if prices.length ≠ volumes.length then
    ([], [], some errLengthMismatch)
  else
    let r := computeMedian prices
    let median := r.1
    let prices := r.2
    let threshold := mul (mul basispoints (roundRatio 1 10000)) median
    let out := (List.range prices.length).foldl
      (discardStep prices volumes median threshold) ([], [])
    (out.1, out.2, none)

/-- One iteration of the loop of `vwap` at index `i`, on `(avg, totalVolume)`. -/
def vwapStep (prices volumes : List Float64) (acc : Float64 × Float64) (i : Nat) :
    Float64 × Float64 :=
  (add acc.1 (mul (prices.getD i zero) (abs (volumes.getD i zero))),
    add acc.2 (abs (volumes.getD i zero)))

/-- The function `vwap`: `(price, err)`. -/
def vwap (prices volumes : List Float64) : Float64 × GoError :=
  if prices.length ≠ volumes.length then
    (zero, some errLengthMismatch)
  else
    let s := (List.range prices.length).foldl (vwapStep prices volumes) (zero, zero)
    if lt zero s.2 then (div s.1 s.2, none) else (zero, none)

/-- The struct `candlestickMessage` with its two `float64` fields as `float64` values. -/
structure candlestickMessage where
  ForeignName : String
  ClosingPrice : Float64
  Volume : Float64
  Timestamp : Int
  ScrapeTime : Int
  Source : String
  deriving DecidableEq

def getPrices (messages : List candlestickMessage) : List Float64 :=
  messages.foldl (fun prices message => prices ++ [message.ClosingPrice]) []

def getVolumes (messages : List candlestickMessage) : List Float64 :=
  messages.foldl (fun volumes message => volumes ++ [message.Volume]) []

/-- The loop of `makeVWAP` over the entries of `pairData` still to visit. -/
def makeVWAPLoop (threshold : Float64) :
    List (String × List candlestickMessage) → GoMap Float64 → GoMap Float64 × GoError
  | [], vwapMap => (vwapMap, none)
  | (key, value) :: rest, vwapMap =>
    match discardOutliers (getPrices value) (getVolumes value) threshold with
    | (_, _, some err) => (vwapMap, some err)
    | (cleanedPrices, cleanedVolumes, none) =>
      let r := vwap cleanedPrices cleanedVolumes
      let vwapMap := mapSet vwapMap key r.1
      match r.2 with
      | some err => (vwapMap, some err)
      | none => makeVWAPLoop threshold rest vwapMap

/-- The function `makeVWAP`. -/
def makeVWAP (pairData : GoMap (List candlestickMessage)) (threshold : Float64) :
    GoMap Float64 × GoError :=
  makeVWAPLoop threshold pairData []

/-- The constant `outlierBasisPoints = float64(30)`. -/
def outlierBasisPoints : Float64 := ofInt 30

/-- The exact value of a finite `float64`. -/
def Float64.toRat : Float64 → ℚ
  | Float64.finite num exp => (num : ℚ) * (2 : ℚ) ^ exp
  | _ => 0

end Candlestick.IEEE

/-!
Swap handling of the Uniswap V2 scraper

Shallow embedding of `pkg/dia/scraper/exchange-scrapers/UniswapV2Scraper.go`: `getSwapData`,
the handling of one received swap in the consumer task of `ListenToPairByIndex`, the filter
of pairs at its start, `normalizeUniPair`, `pairHealthCheck`, and `Close` and `ScrapePair`
on the state of the scraper.

Modelling conventions
* The amounts of a swap are finite `float64` values, taken as exact rationals. A quotient can
  leave the finite values, so a price is a `Float64`: finite, an infinity or NaN.
* A `common.Address` is its hex string, the value of `Address.Hex()`.
* Sending on `chanTrades` is returning the list of the trades sent.
* Constants and tables declared outside this file (`dia.UniswapExchange`,
  `dia.SushiSwapExchange`, the blockchain of the exchange) are parameters.
-/

namespace UniswapV2Scraper

/-- A `float64` value of the price arithmetic: a finite value as an exact rational, an
infinity or NaN. -/
inductive Float64 where
  | finite (q : ℚ)
  | posInf
  | negInf
  | nan
  deriving DecidableEq

/-- The `float64` quotient `a / b` of two finite values (zeros are positive zeros): dividing
a non-zero value by zero gives an infinity and `0 / 0` gives NaN. -/
def fdiv (a b : ℚ) : Float64 :=
  if b = 0 then
    if a > 0 then Float64.posInf else if a < 0 then Float64.negInf else Float64.nan
  else Float64.finite (a / b)

/-- The `float64` reciprocal `1 / x`, the quotient taken as `fdiv` takes it: exact on finite
values. In `float64` the quotient is rounded, so the reciprocal of a reciprocal need not be the
value itself. -/
def finv : Float64 → Float64
  | Float64.finite q => fdiv 1 q
  | Float64.posInf => Float64.finite 0
  | Float64.negInf => Float64.finite 0
  | Float64.nan => Float64.nan

/-- The `float64` comparison `x > 0`. -/
def Float64.isPos : Float64 → Bool
  | Float64.finite q => decide (q > 0)
  | Float64.posInf => true
  | Float64.negInf => false
  | Float64.nan => false

structure UniswapToken where
  Address : String
  Symbol : String
  Decimals : Nat
  Name : String
  deriving DecidableEq

structure UniswapPair where
  Token0 : UniswapToken
  Token1 : UniswapToken
  ForeignName : String
  Address : String
  deriving DecidableEq

structure UniswapSwap where
  ID : String
  Timestamp : Int
  Pair : UniswapPair
  Amount0In : ℚ
  Amount0Out : ℚ
  Amount1In : ℚ
  Amount1Out : ℚ
  deriving DecidableEq

/-- Modelled from the spec: the type `dia.Asset` is declared in package `dia`, outside the
sources at hand; the spec gives `AssetRef = { address, symbol, name, decimals, chain }`, and
the fields carry the names the scraper assigns. -/
structure Asset where
  Address : String
  Symbol : String
  Name : String
  Decimals : Nat
  Blockchain : String
  deriving DecidableEq

/-- Modelled from the spec: the type `dia.Trade` is declared in package `dia`, outside the
sources at hand; the fields are the ones the scraper assigns (the spec's `TradeEvent`). `Time`
is an instant in nanoseconds since the Unix epoch. -/
structure Trade where
  Symbol : String
  Pair : String
  Price : Float64
  Volume : ℚ
  BaseToken : Asset
  QuoteToken : Asset
  Time : Int
  ForeignTradeID : String
  Source : String
  VerifiedPair : Bool
  deriving DecidableEq

/-- Modelled from the spec: the function `dia.SwapTrade` is defined in package `dia`, outside
the sources at hand; the spec says it inverts the trade: it swaps the base and quote roles
and inverts the price. The second component is its error. -/
def SwapTrade (t : Trade) : Trade × Option String :=
  ({ t with BaseToken := t.QuoteToken, QuoteToken := t.BaseToken, Price := finv t.Price }, none)

/-- Modelled from the spec: the function `utils.Contains` is defined in package `utils`,
outside the sources at hand; the spec has it test that a string is in the list. -/
def Contains (s : List String) (str : String) : Bool := decide (str ∈ s)

def mainBaseAssets : List String := ["0xdAC17F958D2ee523a2206206994597C13D831ec7"]

/-- The function `getSwapData`: `(price, volume)`. -/
def getSwapData (swap : UniswapSwap) : Float64 × ℚ :=
  if swap.Amount0In = 0 then
    (fdiv swap.Amount1In swap.Amount0Out, swap.Amount0Out)
  else
    (fdiv swap.Amount1Out swap.Amount0In, -swap.Amount0In)

/-- The trade the consumer task of `ListenToPairByIndex` builds from a swap, before any
reversal. `blockchain` is `Exchanges[s.exchangeName].BlockChain.Name`. -/
def rawTrade (exchangeName blockchain : String) (pair : UniswapPair) (swap : UniswapSwap) :
    Trade :=
  let token0 : Asset :=
    { Address := pair.Token0.Address, Symbol := pair.Token0.Symbol, Name := pair.Token0.Name,
      Decimals := pair.Token0.Decimals, Blockchain := blockchain }
  let token1 : Asset :=
    { Address := pair.Token1.Address, Symbol := pair.Token1.Symbol, Name := pair.Token1.Name,
      Decimals := pair.Token1.Decimals, Blockchain := blockchain }
  { Symbol := pair.Token0.Symbol, Pair := pair.ForeignName,
    Price := (getSwapData swap).1, Volume := (getSwapData swap).2,
    BaseToken := token1, QuoteToken := token0,
    Time := swap.Timestamp * 1000000000, ForeignTradeID := swap.ID,
    Source := exchangeName, VerifiedPair := true }

/-- The statement `tSwapped, err := dia.SwapTrade(*t); if err == nil { t = &tSwapped }`. -/
def swapIfNoError (t : Trade) : Trade :=
  match SwapTrade t with
  | (tSwapped, none) => tSwapped
  | (_, some _) => t

/-- One round of the consumer task of `ListenToPairByIndex`, for one normalized swap: the
trades sent on `chanTrades`. `UniswapExchange` and `SushiSwapExchange` are the constants of
package `dia`. -/
def ListenToPairByIndexSwap (exchangeName blockchain UniswapExchange SushiSwapExchange : String)
    (reversePairs : List String) (pair : UniswapPair) (swap : UniswapSwap) : List Trade :=
  let price := (getSwapData swap).1
  let t := rawTrade exchangeName blockchain pair swap
  let t := if Contains reversePairs pair.Token1.Address then swapIfNoError t else t
  let t :=
    if exchangeName = UniswapExchange ∨ exchangeName = SushiSwapExchange then
      if pair.Token0.Address = "0x0000000000000000000000000000000000000000"
          ∧ ¬ Contains mainBaseAssets pair.Token1.Address then
        swapIfNoError t
      else t
    else t
  if price.isPos then [t] else []


/-- Modelled from the spec: the function `helpers.SymbolIsBlackListed` is defined in package
`helpers`, outside the sources at hand; the spec has the blacklist consumed as a static list
of disallowed symbols. -/
def SymbolIsBlackListed (symbolBlacklist : List String) (symbol : String) : Bool :=
  decide (symbol ∈ symbolBlacklist)

/-- Modelled from the spec: the function `helpers.AddressIsBlacklisted` is defined in package
`helpers`, outside the sources at hand; the spec has the blacklist consumed as a static list
of disallowed addresses. -/
def AddressIsBlacklisted (addressBlacklist : List String) (address : String) : Bool :=
  decide (address ∈ addressBlacklist)

/-- The method `normalizeUniPair`. The literals are the hex strings of the two addresses the
code builds with `common.HexToAddress`. -/
def normalizeUniPair (up : UniswapPair) : UniswapPair :=
  let up :=
    if up.Token0.Address = "0xC02aaA39b223FE8D0A0e5C4F27eAD9083C756Cc2" then
      let up := { up with Token0 := { up.Token0 with Symbol := "ETH" } }
      let up := { up with Token0 := { up.Token0 with
        Address := "0x0000000000000000000000000000000000000000" } }
      { up with ForeignName := up.Token0.Symbol ++ "-" ++ up.Token1.Symbol }
    else up
  if up.Token1.Address = "0xC02aaA39b223FE8D0A0e5C4F27eAD9083C756Cc2" then
    let up := { up with Token1 := { up.Token1 with Symbol := "ETH" } }
    let up := { up with Token1 := { up.Token1 with
      Address := "0x0000000000000000000000000000000000000000" } }
    { up with ForeignName := up.Token0.Symbol ++ "-" ++ up.Token1.Symbol }
  else up

/-- The method `pairHealthCheck`. The test `Address.Hex() == ""` is the test of the hex string
against the empty string. -/
def pairHealthCheck (symbolBlacklist addressBlacklist : List String) (up : UniswapPair) :
    Bool :=
  if up.Token0.Symbol = "" ∨ up.Token1.Symbol = "" ∨ up.Token0.Address = ""
      ∨ up.Token1.Address = "" then
    false
  else if SymbolIsBlackListed symbolBlacklist up.Token0.Symbol
      ∨ SymbolIsBlackListed symbolBlacklist up.Token1.Symbol then
    false
  else if AddressIsBlacklisted addressBlacklist up.Token0.Address
      ∨ AddressIsBlacklisted addressBlacklist up.Token1.Address then
    false
  else
    true

/-- What `GetSwapsChannel` does: it ends the process with `log.Fatal`, or it returns the sink
with a nil error; `subscribed` tells whether `WatchSwap` opened the subscription that feeds the
sink. -/
inductive SwapsChannel where
  | exited
  | returned (subscribed : Bool)
  deriving DecidableEq

/-- The method `GetSwapsChannel`, on the errors of its two calls: an error of
`NewUniswapV2PairFilterer` goes to `log.Fatal`, an error of `WatchSwap` is logged and the sink
is returned all the same. -/
def GetSwapsChannel (newFiltererErr watchSwapErr : Option String) : SwapsChannel :=
  match newFiltererErr with
  | some _ => SwapsChannel.exited
  | none =>
    match watchSwapErr with
    | some _ => SwapsChannel.returned false
    | none => SwapsChannel.returned true

/-- How far `ListenToPairByIndex` gets with a pair: it returns before `GetSwapsChannel` is
called, the process ends inside `GetSwapsChannel`, or the consumer task is started on the sink
of the pair, with `subscribed` telling whether a swap subscription was opened for it. -/
inductive ListenOutcome where
  | skipped
  | exited
  | listening (pair : UniswapPair) (subscribed : Bool)
  deriving DecidableEq

/-- The part of `ListenToPairByIndex` between fetching the pair and starting the consumer
task. `len` of a string is its length in bytes; `isEthereum` is the test
`Exchanges[s.exchangeName].BlockChain.Name == dia.ETHEREUM`; `newFiltererErr` and
`watchSwapErr` are the errors the two calls inside `GetSwapsChannel` return. The error
`GetSwapsChannel` returns is always nil, so the test of it never logs. -/
def ListenToPairByIndexPair (addressBlacklist : List String) (isEthereum : Bool)
    (newFiltererErr watchSwapErr : Option String) (pair : UniswapPair) : ListenOutcome :=
  if pair.Token0.Symbol.utf8ByteSize < 2 ∨ pair.Token1.Symbol.utf8ByteSize < 2 then
    ListenOutcome.skipped
  else if AddressIsBlacklisted addressBlacklist pair.Token0.Address
      ∨ AddressIsBlacklisted addressBlacklist pair.Token1.Address then
    ListenOutcome.skipped
  else
    let pair := if isEthereum then normalizeUniPair pair else pair
    match GetSwapsChannel newFiltererErr watchSwapErr with
    | SwapsChannel.exited => ListenOutcome.exited
    | SwapsChannel.returned subscribed => ListenOutcome.listening pair subscribed

/-- Modelled from the spec: the type `dia.ExchangePair` is declared in package `dia`, outside
the sources at hand; the fields are the ones `FetchAvailablePairs` assigns, without the
underlying pair of assets. -/
structure ExchangePair where
  Symbol : String
  ForeignName : String
  Exchange : String
  Verified : Bool
  deriving DecidableEq

structure UniswapPairScraper where
  pair : ExchangePair
  closed : Bool
  deriving DecidableEq

/-- The state of a `UniswapScraper` that `Close` and `ScrapePair` read and write. A client is
the number of times its `Close` was called; a channel of type `chan nothing` is the flag that
it is closed. -/
structure UniswapScraper where
  WsClient : Nat
  RestClient : Nat
  shutdown : Bool
  shutdownDone : Bool
  error : Option String
  closed : Bool
  pairScrapers : List (String × UniswapPairScraper)
  deriving DecidableEq

/-- How a call ends: it returns, it blocks for ever, or it panics. -/
inductive CallResult (α : Type) where
  | returned (a : α)
  | blocked
  | panicked
  deriving DecidableEq

/-- The method `UniswapScraper.Close`: how the call ends and the state it leaves. Closing a
closed channel panics; the receive `<-s.shutdownDone` returns when the channel is closed and
blocks otherwise, since nothing sends on it. -/
def UniswapScraper.Close (s : UniswapScraper) : CallResult (Option String) × UniswapScraper :=
  if s.closed then
    (CallResult.returned (some "UniswapScraper: Already closed"), s)
  else
    let s := { s with WsClient := s.WsClient + 1 }
    let s := { s with RestClient := s.RestClient + 1 }
    if s.shutdown then
      (CallResult.panicked, s)
    else
      let s := { s with shutdown := true }
      if s.shutdownDone then (CallResult.returned s.error, s) else (CallResult.blocked, s)

/-- The method `UniswapScraper.ScrapePair`: the pair scraper and error it returns, and the
state it leaves. -/
def UniswapScraper.ScrapePair (s : UniswapScraper) (pair : ExchangePair) :
    (Option UniswapPairScraper × Option String) × UniswapScraper :=
  if s.error ≠ none then
    ((none, s.error), s)
  else if s.closed then
    ((none, some "UniswapScraper: Call ScrapePair on closed scraper"), s)
  else
    let ps : UniswapPairScraper := { pair := pair, closed := false }
    ((some ps, none),
      { s with pairScrapers := Candlestick.mapSet s.pairScrapers pair.ForeignName ps })

end UniswapV2Scraper

namespace Candlestick

/-! ## Loops over an index as folds over the zipped slices -/

/-- A loop `for i := 0; i < len(prices); i++` that reads `prices[i]` and `volumes[i]` is a
fold over the zipped slices when both have the same length. -/
theorem foldl_range_getD {β : Type} (f : β → ℚ → ℚ → β) :
    ∀ (prices volumes : List ℚ) (acc : β), prices.length = volumes.length →
      (List.range prices.length).foldl
          (fun acc i => f acc (prices.getD i 0) (volumes.getD i 0)) acc
        = (prices.zip volumes).foldl (fun acc x => f acc x.1 x.2) acc := by
  intro prices
  induction prices with
  | nil => intro volumes acc _; simp
  | cons a ps ih =>
    intro volumes acc h
    cases volumes with
    | nil => simp at h
    | cons b vs =>
      have h' : ps.length = vs.length := by simpa using h
      rw [List.length_cons, List.range_succ_eq_map, List.foldl_cons, List.foldl_map]
      simpa using ih vs (f acc a b) h'

/-- The kept data points of the loop of `discardOutliers`, as a filter. -/
theorem foldl_discard (median threshold : ℚ) :
    ∀ (l : List (ℚ × ℚ)) (acc : List ℚ × List ℚ),
      l.foldl (fun acc x => if |x.1 - median| < threshold
          then (acc.1 ++ [x.1], acc.2 ++ [x.2]) else acc) acc
        = (acc.1 ++ (l.filter (fun x => decide (|x.1 - median| < threshold))).map Prod.fst,
           acc.2 ++ (l.filter (fun x => decide (|x.1 - median| < threshold))).map Prod.snd) := by
  intro l
  induction l with
  | nil => intro acc; simp
  | cons x l ih =>
    intro acc
    rw [List.foldl_cons, ih]
    by_cases hx : |x.1 - median| < threshold
    · simp [hx, List.filter_cons]
    · simp [hx, List.filter_cons]

/-- The accumulators of the loop of `vwap`, as sums. -/
theorem foldl_vwap :
    ∀ (l : List (ℚ × ℚ)) (acc : ℚ × ℚ),
      l.foldl (fun acc x => (acc.1 + x.1 * |x.2|, acc.2 + |x.2|)) acc
        = (acc.1 + (l.map (fun x => x.1 * |x.2|)).sum, acc.2 + (l.map (fun x => |x.2|)).sum) := by
  intro l
  induction l with
  | nil => intro acc; simp
  | cons x l ih =>
    intro acc
    rw [List.foldl_cons, ih]
    simp [add_assoc]


/-! ## What each function computes -/

theorem length_sortFloat64s (xs : List ℚ) : (sortFloat64s xs).length = xs.length :=
  List.length_insertionSort _ xs

theorem perm_sortFloat64s (xs : List ℚ) : (sortFloat64s xs).Perm xs :=
  List.perm_insertionSort _ xs

theorem sorted_sortFloat64s (xs : List ℚ) : (sortFloat64s xs).Sorted (fun a b => a ≤ b) :=
  List.sorted_insertionSort _ xs

/-- The sort is determined by its specification: every ascending rearrangement of `xs` is
`sortFloat64s xs`. -/
theorem sortFloat64s_unique (xs s : List ℚ) (hp : s.Perm xs)
    (hs : s.Sorted (fun a b => a ≤ b)) : sortFloat64s xs = s :=
  List.eq_of_perm_of_sorted ((perm_sortFloat64s xs).trans hp.symm) (sorted_sortFloat64s xs) hs

theorem sortFloat64s_perm_congr {xs ys : List ℚ} (h : xs.Perm ys) :
    sortFloat64s xs = sortFloat64s ys :=
  sortFloat64s_unique xs (sortFloat64s ys) ((perm_sortFloat64s ys).trans h.symm)
    (sorted_sortFloat64s ys)

/-- The slice `computeMedian` leaves behind is the sorted one. -/
theorem computeMedian_snd (samples : List ℚ) :
    (computeMedian samples).2 = sortFloat64s samples := by
  unfold computeMedian
  cases samples with
  | nil => simp [sortFloat64s]
  | cons a l => simp only [List.length_cons]; split_ifs <;> simp_all

/-- The value `computeMedian` returns depends on the samples through their sort only. -/
theorem computeMedian_fst (samples : List ℚ) :
    (computeMedian samples).1 =
      if samples.length > 0 then
        if samples.length % 2 = 0 then
          ((sortFloat64s samples).getD (samples.length / 2 - 1) 0
            + (sortFloat64s samples).getD (samples.length / 2) 0) / 2
        else (sortFloat64s samples).getD ((samples.length + 1) / 2 - 1) 0
      else 0 := by
  simp only [computeMedian]
  split_ifs <;> rfl

theorem computeMedian_perm_congr {xs ys : List ℚ} (h : xs.Perm ys) :
    (computeMedian xs).1 = (computeMedian ys).1 := by
  rw [computeMedian_fst, computeMedian_fst, sortFloat64s_perm_congr h, h.length_eq]

/-- The data points `discardOutliers` returns: the sorted prices zipped with the volumes in
their input order, filtered by the median test. -/
theorem discardOutliers_eq (prices volumes : List ℚ) (basispoints : ℚ)
    (h : prices.length = volumes.length) :
    discardOutliers prices volumes basispoints =
      ((((sortFloat64s prices).zip volumes).filter (fun x =>
          decide (|x.1 - (computeMedian prices).1|
            < basispoints * (1 / 10000 : ℚ) * (computeMedian prices).1))).map Prod.fst,
       (((sortFloat64s prices).zip volumes).filter (fun x =>
          decide (|x.1 - (computeMedian prices).1|
            < basispoints * (1 / 10000 : ℚ) * (computeMedian prices).1))).map Prod.snd,
       none) := by
  have hl : (sortFloat64s prices).length = volumes.length := by
    rw [length_sortFloat64s, h]
  unfold discardOutliers
  rw [if_neg (by simpa using h)]
  simp only [computeMedian_snd]
  have := foldl_range_getD
    (fun (acc : List ℚ × List ℚ) x y =>
      if |x - (computeMedian prices).1| < basispoints * (1 / 10000 : ℚ) * (computeMedian prices).1
      then (acc.1 ++ [x], acc.2 ++ [y]) else acc)
    (sortFloat64s prices) volumes ([], []) hl
  have e : discardStep (sortFloat64s prices) volumes (computeMedian prices).1
      (basispoints * (1 / 10000 : ℚ) * (computeMedian prices).1)
      = fun acc i =>
        if |(sortFloat64s prices).getD i 0 - (computeMedian prices).1|
            < basispoints * (1 / 10000 : ℚ) * (computeMedian prices).1
        then (acc.1 ++ [(sortFloat64s prices).getD i 0], acc.2 ++ [volumes.getD i 0])
        else acc := by
    funext acc i; rfl
  rw [e, this, foldl_discard]
  simp

theorem discardOutliers_mismatch (prices volumes : List ℚ) (basispoints : ℚ)
    (h : prices.length ≠ volumes.length) :
    discardOutliers prices volumes basispoints = ([], [], some errLengthMismatch) := by
  unfold discardOutliers
  rw [if_pos h]

/-- The accumulators of `vwap` after its loop, as sums over the data points. -/
theorem vwapSums_eq (prices volumes : List ℚ) (h : prices.length = volumes.length) :
    vwapSums prices volumes =
      (((prices.zip volumes).map (fun x => x.1 * |x.2|)).sum,
       (volumes.map (fun v => |v|)).sum) := by
  unfold vwapSums
  have := foldl_range_getD (fun (acc : ℚ × ℚ) x y => (acc.1 + x * |y|, acc.2 + |y|))
    prices volumes (0, 0) h
  have e : vwapStep prices volumes
      = fun acc i => (acc.1 + prices.getD i 0 * |volumes.getD i 0|, acc.2 + |volumes.getD i 0|) := by
    funext acc i; rfl
  rw [e, this, foldl_vwap]
  simp only [zero_add]
  congr 2
  have : (fun x : ℚ × ℚ => |x.2|) = (fun v : ℚ => |v|) ∘ Prod.snd := rfl
  rw [this, ← List.map_map, List.map_snd_zip]
  exact le_of_eq h.symm

theorem sum_abs_nonneg (volumes : List ℚ) : 0 ≤ (volumes.map (fun v => |v|)).sum := by
  apply List.sum_nonneg
  intro x hx
  obtain ⟨v, _, rfl⟩ := List.mem_map.1 hx
  exact abs_nonneg v


/-- The function `vwap` on slices of equal length. -/
theorem vwap_eq (prices volumes : List ℚ) (h : prices.length = volumes.length) :
    vwap prices volumes =
      if 0 < (volumes.map (fun v => |v|)).sum then
        (((prices.zip volumes).map (fun x => x.1 * |x.2|)).sum
          / (volumes.map (fun v => |v|)).sum, none)
      else (0, none) := by
  unfold vwap
  rw [if_neg (by simpa using h)]
  simp only [vwapSums_eq prices volumes h, gt_iff_lt]

theorem vwap_mismatch (prices volumes : List ℚ) (h : prices.length ≠ volumes.length) :
    vwap prices volumes = (0, some errLengthMismatch) := by
  unfold vwap
  rw [if_pos h]

/-- Appending in a loop builds the list of the projected field. -/
theorem foldl_append_singleton {α β : Type} (f : α → β) :
    ∀ (l : List α) (acc : List β),
      l.foldl (fun acc x => acc ++ [f x]) acc = acc ++ l.map f := by
  intro l
  induction l with
  | nil => intro acc; simp
  | cons x l ih => intro acc; rw [List.foldl_cons, ih]; simp

theorem getPrices_eq (messages : List candlestickMessage) :
    getPrices messages = messages.map (fun m => m.ClosingPrice) := by
  unfold getPrices
  rw [foldl_append_singleton]; simp

theorem getVolumes_eq (messages : List candlestickMessage) :
    getVolumes messages = messages.map (fun m => m.Volume) := by
  unfold getVolumes
  rw [foldl_append_singleton]; simp

theorem length_getPrices_getVolumes (messages : List candlestickMessage) :
    (getPrices messages).length = (getVolumes messages).length := by
  rw [getPrices_eq, getVolumes_eq]; simp

/-- The slices `discardOutliers` returns have the same length. -/
theorem discardOutliers_lengths (prices volumes : List ℚ) (basispoints : ℚ) :
    (discardOutliers prices volumes basispoints).1.length
      = (discardOutliers prices volumes basispoints).2.1.length := by
  by_cases h : prices.length = volumes.length
  · rw [discardOutliers_eq prices volumes basispoints h]; simp
  · rw [discardOutliers_mismatch prices volumes basispoints h]

/-- One asset in `pairData`: `makeVWAP` maps it to the VWAP of its kept data points. -/
theorem makeVWAP_single (key : String) (value : List candlestickMessage) (threshold : ℚ) :
    makeVWAP [(key, value)] threshold =
      ([(key, (vwap (discardOutliers (getPrices value) (getVolumes value) threshold).1
          (discardOutliers (getPrices value) (getVolumes value) threshold).2.1).1)], none) := by
  have hl := length_getPrices_getVolumes value
  have hd := discardOutliers_eq (getPrices value) (getVolumes value) threshold hl
  have hk := discardOutliers_lengths (getPrices value) (getVolumes value) threshold
  have hv := vwap_eq _ _ hk
  have he : (vwap (discardOutliers (getPrices value) (getVolumes value) threshold).1
      (discardOutliers (getPrices value) (getVolumes value) threshold).2.1).2 = none := by
    rw [hv]; split_ifs <;> rfl
  have h3 : (discardOutliers (getPrices value) (getVolumes value) threshold).2.2 = none := by
    rw [hd]
  unfold makeVWAP
  rw [makeVWAPLoop]
  generalize discardOutliers (getPrices value) (getVolumes value) threshold = D at h3 he ⊢
  obtain ⟨cp, cv, e⟩ := D
  simp only [] at h3
  subst h3
  simp only []
  simp only [] at he
  rw [he]
  simp [makeVWAPLoop, mapSet]


/-- The prices `discardOutliers` returns: the sorted input prices that pass the median test. -/
theorem discardOutliers_prices (prices volumes : List ℚ) (basispoints : ℚ)
    (h : prices.length = volumes.length) :
    (discardOutliers prices volumes basispoints).1 =
      (sortFloat64s prices).filter (fun p =>
        decide (|p - (computeMedian prices).1|
          < basispoints * (1 / 10000 : ℚ) * (computeMedian prices).1)) := by
  rw [discardOutliers_eq prices volumes basispoints h]
  simp only []
  have hl : (sortFloat64s prices).length ≤ volumes.length := by
    rw [length_sortFloat64s, h]
  have hz : ((sortFloat64s prices).zip volumes).map Prod.fst = sortFloat64s prices :=
    List.map_fst_zip _ _ hl
  conv_rhs => rw [← hz]
  rw [List.filter_map]
  rfl

/-! ## Claims -/

/-- C1 as stated fails: in scenario 1 (closes 100, 101, 1000, volume 1 each, 30 basis
points) the kept prices are not `[100, 101]` and the VWAP of the asset is not 100.5. -/
theorem makeVWAP_scenario1_not_100_5 :
    (discardOutliers
        (getPrices [⟨"BTCUSDT", 100, 1, 0, 0, "Binance"⟩, ⟨"BTCUSDT", 101, 1, 0, 0, "Kucoin"⟩,
          ⟨"BTCUSDT", 1000, 1, 0, 0, "Huobi"⟩])
        (getVolumes [⟨"BTCUSDT", 100, 1, 0, 0, "Binance"⟩, ⟨"BTCUSDT", 101, 1, 0, 0, "Kucoin"⟩,
          ⟨"BTCUSDT", 1000, 1, 0, 0, "Huobi"⟩]) 30).1 ≠ [100, 101]
    ∧ makeVWAP [("BTCUSDT",
        [⟨"BTCUSDT", 100, 1, 0, 0, "Binance"⟩, ⟨"BTCUSDT", 101, 1, 0, 0, "Kucoin"⟩,
          ⟨"BTCUSDT", 1000, 1, 0, 0, "Huobi"⟩])] 30 ≠ ([("BTCUSDT", 100.5)], none) := by
  rw [makeVWAP_single]
  norm_num [getPrices, getVolumes, discardOutliers, computeMedian, sortFloat64s, discardStep,
    List.range, List.range.loop, abs_lt, vwap, vwapSums, vwapStep]

/-- C1, amended: in scenario 1 the median is 101 and the threshold 0.303, so both the 100 and
the 1000 observation are rejected, only 101 is kept, and `makeVWAP` returns the VWAP 101 for
the asset with a nil error. -/
theorem makeVWAP_scenario1 :
    discardOutliers
        (getPrices [⟨"BTCUSDT", 100, 1, 0, 0, "Binance"⟩, ⟨"BTCUSDT", 101, 1, 0, 0, "Kucoin"⟩,
          ⟨"BTCUSDT", 1000, 1, 0, 0, "Huobi"⟩])
        (getVolumes [⟨"BTCUSDT", 100, 1, 0, 0, "Binance"⟩, ⟨"BTCUSDT", 101, 1, 0, 0, "Kucoin"⟩,
          ⟨"BTCUSDT", 1000, 1, 0, 0, "Huobi"⟩]) 30 = ([101], [1], none)
    ∧ makeVWAP [("BTCUSDT",
        [⟨"BTCUSDT", 100, 1, 0, 0, "Binance"⟩, ⟨"BTCUSDT", 101, 1, 0, 0, "Kucoin"⟩,
          ⟨"BTCUSDT", 1000, 1, 0, 0, "Huobi"⟩])] 30 = ([("BTCUSDT", 101)], none) := by
  rw [makeVWAP_single]
  norm_num [getPrices, getVolumes, discardOutliers, computeMedian, sortFloat64s, discardStep,
    List.range, List.range.loop, abs_lt, vwap, vwapSums, vwapStep]

/-- C2 fails on the code: for prices `[1001, 1000]` with volumes `[10, 20]` both prices pass
the 30 basis point test, but `discardOutliers` returns them in sorted order against the
volumes in input order, so it returns the data point `(1000, 10)`, which was not supplied. -/
theorem discardOutliers_misaligns_volumes :
    discardOutliers [1001, 1000] [10, 20] 30 = ([1000, 1001], [10, 20], none)
    ∧ (1000, 10) ∈ List.zip (discardOutliers [1001, 1000] [10, 20] 30).1
        (discardOutliers [1001, 1000] [10, 20] 30).2.1
    ∧ ((1000, 10) : ℚ × ℚ) ∉ List.zip [1001, 1000] [10, 20] := by
  have h : discardOutliers [1001, 1000] [10, 20] 30 = ([1000, 1001], [10, 20], none) := by
    norm_num [discardOutliers, computeMedian, sortFloat64s, discardStep,
      List.range, List.range.loop, abs_lt]
  rw [h]
  norm_num

/-- C3 fails on the code: the two orders of the same two observations of one asset
(1001 with volume 10, 1000 with volume 20) give two different VWAPs, 3002/3 and 3001/3. -/
theorem makeVWAP_depends_on_order :
    makeVWAP [("BTCUSDT",
        [⟨"BTCUSDT", 1001, 10, 0, 0, "Binance"⟩, ⟨"BTCUSDT", 1000, 20, 0, 0, "Kucoin"⟩])] 30
      = ([("BTCUSDT", 3002 / 3)], none)
    ∧ makeVWAP [("BTCUSDT",
        [⟨"BTCUSDT", 1000, 20, 0, 0, "Kucoin"⟩, ⟨"BTCUSDT", 1001, 10, 0, 0, "Binance"⟩])] 30
      = ([("BTCUSDT", 3001 / 3)], none)
    ∧ List.Perm
        [(⟨"BTCUSDT", 1001, 10, 0, 0, "Binance"⟩ : candlestickMessage),
          ⟨"BTCUSDT", 1000, 20, 0, 0, "Kucoin"⟩]
        [⟨"BTCUSDT", 1000, 20, 0, 0, "Kucoin"⟩, ⟨"BTCUSDT", 1001, 10, 0, 0, "Binance"⟩] := by
  refine ⟨?_, ?_, List.Perm.swap _ _ _⟩
  · rw [makeVWAP_single]
    norm_num [getPrices, getVolumes, discardOutliers, computeMedian, sortFloat64s, discardStep,
      List.range, List.range.loop, abs_lt, vwap, vwapSums, vwapStep]
  · rw [makeVWAP_single]
    norm_num [getPrices, getVolumes, discardOutliers, computeMedian, sortFloat64s, discardStep,
      List.range, List.range.loop, abs_lt, vwap, vwapSums, vwapStep]


set_option maxRecDepth 1000000 in
/-- C4 as stated fails: the code evaluates the test in `float64`, where the median, the
deviation and the threshold are each rounded. For the prices 382.2498 and 384.5502 with
volumes 10 and 20 at 30 basis points the code keeps 382.2498 with its volume, while in exact
arithmetic on the values of the same two `float64` prices the test
`|p - median| < 0.0001 * 30 * median` holds for neither and nothing is kept. For the prices
111.9631, 112.3 and 112.6369, whose median 112.3 is one of them, the code keeps 112.3 only,
while in exact arithmetic the test holds for all three. A price `n / d` is the `float64`
nearest to it, as `strconv.ParseFloat` returns it. -/
theorem discardOutliers_float64_differs_from_exact_test :
    IEEE.discardOutliers [IEEE.roundRatio 3822498 10000, IEEE.roundRatio 3845502 10000]
        [IEEE.ofInt 10, IEEE.ofInt 20] IEEE.outlierBasisPoints
      = ([IEEE.roundRatio 3822498 10000], [IEEE.ofInt 10], none)
    ∧ discardOutliers
        [(IEEE.roundRatio 3822498 10000).toRat, (IEEE.roundRatio 3845502 10000).toRat]
        [10, 20] 30 = ([], [], none)
    ∧ IEEE.discardOutliers
        [IEEE.roundRatio 1119631 10000, IEEE.roundRatio 1123 10, IEEE.roundRatio 1126369 10000]
        [IEEE.ofInt 1, IEEE.ofInt 1, IEEE.ofInt 1] IEEE.outlierBasisPoints
      = ([IEEE.roundRatio 1123 10], [IEEE.ofInt 1], none)
    ∧ discardOutliers
        [(IEEE.roundRatio 1119631 10000).toRat, (IEEE.roundRatio 1123 10).toRat,
          (IEEE.roundRatio 1126369 10000).toRat]
        [1, 1, 1] 30
      = ([(IEEE.roundRatio 1119631 10000).toRat, (IEEE.roundRatio 1123 10).toRat,
          (IEEE.roundRatio 1126369 10000).toRat], [1, 1, 1], none) := by
  have h1 : IEEE.roundRatio 3822498 10000 = IEEE.Float64.finite 6724609597040807 (-44) := by
    decide
  have h2 : IEEE.roundRatio 3845502 10000 = IEEE.Float64.finite 6765078661817382 (-44) := by
    decide
  have h3 : IEEE.roundRatio 1119631 10000 = IEEE.Float64.finite 7878702741238212 (-46) := by
    decide
  have h4 : IEEE.roundRatio 1123 10 = IEEE.Float64.finite 7902409971151667 (-46) := by
    decide
  have h5 : IEEE.roundRatio 1126369 10000 = IEEE.Float64.finite 7926117201065122 (-46) := by
    decide
  refine ⟨by decide, ?_, by decide, ?_⟩
  · rw [h1, h2]
    norm_num [IEEE.Float64.toRat, discardOutliers, computeMedian, sortFloat64s, discardStep,
      List.range, List.range.loop, abs_lt]
  · rw [h3, h4, h5]
    norm_num [IEEE.Float64.toRat, discardOutliers, computeMedian, sortFloat64s, discardStep,
      List.range, List.range.loop, abs_lt]

/-- C4, amended: in exact arithmetic, for slices of equal length the multiset of prices
`discardOutliers` keeps is the multiset of the input prices `p` with
`|p - median| < 0.0001 * bp * median`, where `median` is `computeMedian` of all input prices;
a price with `|p - median| ≥ 0.0001 * bp * median` is not among the kept prices. -/
theorem discardOutliers_keeps_within_threshold (prices volumes : List ℚ) (bp : ℚ)
    (h : prices.length = volumes.length) :
    (((discardOutliers prices volumes bp).1 : List ℚ) : Multiset ℚ)
        = Multiset.filter
            (fun p => |p - (computeMedian prices).1| < 0.0001 * bp * (computeMedian prices).1)
            (prices : Multiset ℚ)
    ∧ ∀ p : ℚ, |p - (computeMedian prices).1| ≥ 0.0001 * bp * (computeMedian prices).1 →
        p ∉ (discardOutliers prices volumes bp).1 := by
  have ht : bp * (1 / 10000 : ℚ) * (computeMedian prices).1
      = 0.0001 * bp * (computeMedian prices).1 := by
    rw [show (0.0001 : ℚ) = 1 / 10000 by norm_num]; ring
  rw [discardOutliers_prices prices volumes bp h, ht]
  constructor
  · rw [Multiset.filter_coe, Multiset.coe_eq_coe]
    exact (perm_sortFloat64s prices).filter _
  · intro p hp hmem
    have := (List.mem_filter.1 hmem).2
    simp only [decide_eq_true_eq] at this
    exact absurd this (not_lt.2 hp)

theorem discardOutliers_keeps_within_threshold_witness :
    [100, 101, 1000].length = [1, 1, 1].length
    ∧ ((((discardOutliers [100, 101, 1000] [1, 1, 1] 30).1 : List ℚ) : Multiset ℚ)
        = Multiset.filter
            (fun p => |p - (computeMedian [100, 101, 1000]).1|
              < 0.0001 * 30 * (computeMedian [100, 101, 1000]).1)
            (([100, 101, 1000] : List ℚ) : Multiset ℚ)
      ∧ ∀ p : ℚ, |p - (computeMedian [100, 101, 1000]).1|
            ≥ 0.0001 * 30 * (computeMedian [100, 101, 1000]).1 →
          p ∉ (discardOutliers [100, 101, 1000] [1, 1, 1] 30).1) :=
  ⟨rfl, discardOutliers_keeps_within_threshold [100, 101, 1000] [1, 1, 1] 30 rfl⟩

/-- Exact arithmetic: a price exactly on the boundary, `|p - median| = 0.0001 * 30 * median`,
is not among the prices `discardOutliers` keeps, since the comparison is the strict `<`. -/
theorem discardOutliers_boundary_strict (prices volumes : List ℚ) (p : ℚ)
    (h : prices.length = volumes.length)
    (hb : |p - (computeMedian prices).1| = 0.0001 * 30 * (computeMedian prices).1) :
    p ∉ (discardOutliers prices volumes 30).1 := by
  intro hmem
  rw [discardOutliers_prices prices volumes 30 h] at hmem
  have := (List.mem_filter.1 hmem).2
  simp only [decide_eq_true_eq] at this
  rw [hb] at this
  norm_num at this

set_option maxRecDepth 1000000 in
/-- C5 fails on the code: among the prices 997, 1000, 1003 (volume 1 each) the median is 1000
and the 30 basis point threshold is 3, so 997 and 1003 deviate from the median by exactly 30
basis points, not by more, and `discardOutliers` discards both and returns 1000 only. Every
operation is exact at this input, and the `float64` evaluation returns the same. -/
theorem discardOutliers_boundary_not_kept :
    |(997 : ℚ) - (computeMedian [997, 1000, 1003]).1|
        = 0.0001 * 30 * (computeMedian [997, 1000, 1003]).1
    ∧ (997 : ℚ) ∉ (discardOutliers [997, 1000, 1003] [1, 1, 1] 30).1
    ∧ discardOutliers [997, 1000, 1003] [1, 1, 1] 30 = ([1000], [1], none)
    ∧ IEEE.discardOutliers [IEEE.ofInt 997, IEEE.ofInt 1000, IEEE.ofInt 1003]
        [IEEE.ofInt 1, IEEE.ofInt 1, IEEE.ofInt 1] IEEE.outlierBasisPoints
      = ([IEEE.ofInt 1000], [IEEE.ofInt 1], none)
    ∧ IEEE.mul (IEEE.mul IEEE.outlierBasisPoints (IEEE.roundRatio 1 10000)) (IEEE.ofInt 1000)
      = IEEE.ofInt 3 := by
  refine ⟨?_, ?_, ?_, by decide, by decide⟩ <;>
    norm_num [discardOutliers, computeMedian, sortFloat64s, discardStep,
      List.range, List.range.loop, abs_lt]


/-- C6: for slices of equal length with positive total absolute volume, `vwap` returns
`(Σ prices[i] * |volumes[i]|) / (Σ |volumes[i]|)` with a nil error, and the result is the
same for every `volumes'` that differs from `volumes` in signs only. -/
theorem vwap_weighted_mean (prices volumes : List ℚ)
    (h : prices.length = volumes.length)
    (hpos : 0 < (volumes.map (fun v => |v|)).sum) :
    vwap prices volumes
        = ((List.zipWith (fun p v => p * |v|) prices volumes).sum
            / (volumes.map (fun v => |v|)).sum, none)
    ∧ ∀ volumes' : List ℚ, volumes'.map (fun v => |v|) = volumes.map (fun v => |v|) →
        vwap prices volumes' = vwap prices volumes := by
  have key : ∀ vs : List ℚ, (prices.zip vs).map (fun x => x.1 * |x.2|)
      = List.zipWith (fun p a => p * a) prices (vs.map (fun v => |v|)) := by
    intro vs
    rw [List.zipWith_map_right, List.zip_eq_zipWith, List.map_zipWith]
  constructor
  · rw [vwap_eq prices volumes h, if_pos hpos, key, List.zipWith_map_right]
  · intro volumes' hv
    have hl : prices.length = volumes'.length := by
      have := congrArg List.length hv
      simp only [List.length_map] at this
      rw [this, h]
    rw [vwap_eq prices volumes h, vwap_eq prices volumes' hl, key, key, hv]

theorem vwap_weighted_mean_witness :
    ([100, 101] : List ℚ).length = ([1, -3] : List ℚ).length
    ∧ 0 < (([1, -3] : List ℚ).map (fun v => |v|)).sum
    ∧ (vwap [100, 101] [1, -3]
        = ((List.zipWith (fun p v => p * |v|) [100, 101] [1, -3]).sum
            / (([1, -3] : List ℚ).map (fun v => |v|)).sum, none)
      ∧ ∀ volumes' : List ℚ,
          volumes'.map (fun v => |v|) = ([1, -3] : List ℚ).map (fun v => |v|) →
          vwap [100, 101] volumes' = vwap [100, 101] [1, -3]) :=
  ⟨rfl, by norm_num [abs_of_neg],
    vwap_weighted_mean [100, 101] [1, -3] rfl (by norm_num [abs_of_neg])⟩

/-- C7: for slices of equal length with total absolute volume 0 the guard `totalVolume > 0`
of the division is false and `vwap` returns price 0 with a nil error; and `makeVWAP` on one
asset with a single observation of volume 0 maps the asset to 0 with a nil error. -/
theorem vwap_zero_volume (prices volumes : List ℚ)
    (h : prices.length = volumes.length)
    (h0 : (volumes.map (fun v => |v|)).sum = 0)
    (key : String) (m : candlestickMessage) (threshold : ℚ) (hm : m.Volume = 0) :
    ¬ (vwapSums prices volumes).2 > 0
    ∧ vwap prices volumes = (0, none)
    ∧ makeVWAP [(key, [m])] threshold = ([(key, 0)], none) := by
  refine ⟨?_, ?_, ?_⟩
  · rw [vwapSums_eq prices volumes h]
    simp [h0]
  · rw [vwap_eq prices volumes h, h0]
    simp
  · rw [makeVWAP_single]
    have hl : (getPrices [m]).length = (getVolumes [m]).length :=
      length_getPrices_getVolumes [m]
    rw [discardOutliers_eq _ _ threshold hl, getVolumes_eq, getPrices_eq]
    simp only [List.map_cons, List.map_nil, hm, sortFloat64s, List.insertionSort,
      List.orderedInsert, List.zip_cons_cons, List.zip_nil_right, List.filter_cons,
      List.filter_nil]
    simp only [apply_ite (List.map Prod.fst), apply_ite (List.map Prod.snd), List.map_cons,
      List.map_nil]
    split_ifs
    · rw [vwap_eq [m.ClosingPrice] [0] rfl]; simp
    · rw [vwap_eq [] [] rfl]; simp

theorem vwap_zero_volume_witness :
    ([100, 101] : List ℚ).length = ([0, 0] : List ℚ).length
    ∧ (([0, 0] : List ℚ).map (fun v => |v|)).sum = 0
    ∧ (¬ (vwapSums [100, 101] [0, 0]).2 > 0
      ∧ vwap [100, 101] [0, 0] = (0, none)
      ∧ makeVWAP [("BTCUSDT", [⟨"BTCUSDT", 100, 0, 0, 0, "Binance"⟩])] 30
          = ([("BTCUSDT", 0)], none)) :=
  ⟨rfl, by norm_num,
    vwap_zero_volume [100, 101] [0, 0] rfl (by norm_num) "BTCUSDT"
      ⟨"BTCUSDT", 100, 0, 0, 0, "Binance"⟩ 30 rfl⟩

/-- C8: `vwap` and `discardOutliers` each return a non-nil error exactly when
`len(prices) != len(volumes)`; on that error `vwap` returns price 0 and `discardOutliers`
returns no prices and no volumes. -/
theorem length_mismatch_error (prices volumes : List ℚ) (bp : ℚ) :
    ((vwap prices volumes).2 ≠ none ↔ prices.length ≠ volumes.length)
    ∧ ((discardOutliers prices volumes bp).2.2 ≠ none ↔ prices.length ≠ volumes.length)
    ∧ (prices.length ≠ volumes.length →
        (vwap prices volumes).1 = 0
        ∧ (discardOutliers prices volumes bp).1 = []
        ∧ (discardOutliers prices volumes bp).2.1 = []) := by
  by_cases h : prices.length = volumes.length
  · rw [vwap_eq prices volumes h, discardOutliers_eq prices volumes bp h]
    refine ⟨?_, ?_, fun hne => absurd h hne⟩
    · split_ifs <;> simp [h]
    · simp [h]
  · rw [vwap_mismatch prices volumes h, discardOutliers_mismatch prices volumes bp h]
    simp [h]

theorem length_mismatch_error_witness :
    ([100, 101] : List ℚ).length ≠ ([1] : List ℚ).length
    ∧ (vwap [100, 101] [1]).2 ≠ none
    ∧ (discardOutliers [100, 101] [1] 30).2.2 ≠ none
    ∧ (vwap [100, 101] [1]).1 = 0
    ∧ (discardOutliers [100, 101] [1] 30).1 = []
    ∧ (discardOutliers [100, 101] [1] 30).2.1 = [] :=
  have hne : ([100, 101] : List ℚ).length ≠ ([1] : List ℚ).length := by decide
  have t := length_mismatch_error [100, 101] [1] 30
  ⟨hne, t.1.2 hne, t.2.1.2 hne, t.2.2 hne⟩


/-- C9: with `s` the ascending sort of the `N` samples, `computeMedian` returns the middle
element `s[(N-1)/2]` when `N` is odd, the two-point average `(s[N/2-1] + s[N/2]) / 2` when
`N` is even and positive, and 0 for the empty list. -/
theorem computeMedian_spec (samples s : List ℚ)
    (hp : s.Perm samples) (hs : s.Sorted (fun a b => a ≤ b)) :
    (samples = [] → (computeMedian samples).1 = 0)
    ∧ (samples.length % 2 = 1 →
        s[(samples.length - 1) / 2]? = some (computeMedian samples).1)
    ∧ (samples ≠ [] → samples.length % 2 = 0 →
        ∃ a b : ℚ, s[samples.length / 2 - 1]? = some a ∧ s[samples.length / 2]? = some b
          ∧ (computeMedian samples).1 = (a + b) / 2) := by
  have hsort : sortFloat64s samples = s := sortFloat64s_unique samples s hp hs
  have hlen : s.length = samples.length := hp.length_eq
  rw [computeMedian_fst, hsort]
  refine ⟨?_, ?_, ?_⟩
  · intro he
    simp [he]
  · intro hodd
    have hpos : samples.length > 0 := by omega
    have hi : (samples.length - 1) / 2 < s.length := by omega
    have hidx : (samples.length + 1) / 2 - 1 = (samples.length - 1) / 2 := by omega
    rw [if_pos hpos, if_neg (by omega), hidx, List.getD_eq_getElem _ _ hi,
      List.getElem?_eq_getElem hi]
  · intro hne heven
    have hpos : samples.length > 0 := List.length_pos.2 hne
    have h1 : samples.length / 2 - 1 < s.length := by omega
    have h2 : samples.length / 2 < s.length := by omega
    refine ⟨s[samples.length / 2 - 1], s[samples.length / 2],
      List.getElem?_eq_getElem h1, List.getElem?_eq_getElem h2, ?_⟩
    rw [if_pos hpos, if_pos heven, List.getD_eq_getElem _ _ h1, List.getD_eq_getElem _ _ h2]

theorem computeMedian_spec_witness :
    ([1, 2, 3, 4] : List ℚ).Perm [3, 1, 4, 2]
    ∧ ([1, 2, 3, 4] : List ℚ).Sorted (fun a b => a ≤ b)
    ∧ (computeMedian [3, 1, 4, 2]).1 = 5 / 2 := by
  have hp : ([1, 2, 3, 4] : List ℚ).Perm [3, 1, 4, 2] := by decide
  have hs : ([1, 2, 3, 4] : List ℚ).Sorted (fun a b => a ≤ b) := by
    norm_num [List.Sorted]
  obtain ⟨a, b, ha, hb, hm⟩ :=
    (computeMedian_spec [3, 1, 4, 2] [1, 2, 3, 4] hp hs).2.2 (by simp) (by decide)
  refine ⟨hp, hs, ?_⟩
  simp at ha hb
  rw [hm, ← ha, ← hb]
  norm_num

/-- C10: `computeMedian` returns the same value on a list of samples and on every
permutation of it. -/
theorem computeMedian_perm_invariant (samples samples' : List ℚ)
    (h : samples'.Perm samples) :
    (computeMedian samples').1 = (computeMedian samples).1 :=
  computeMedian_perm_congr h

theorem computeMedian_perm_invariant_witness :
    ([1000, 100, 101] : List ℚ).Perm [100, 101, 1000]
    ∧ (computeMedian [1000, 100, 101]).1 = (computeMedian [100, 101, 1000]).1 :=
  have hp : ([1000, 100, 101] : List ℚ).Perm [100, 101, 1000] :=
    (List.Perm.swap 100 1000 [101]).trans ((List.Perm.swap 101 1000 []).cons 100)
  ⟨hp, computeMedian_perm_invariant [100, 101, 1000] [1000, 100, 101] hp⟩


/-! ## Identical prices -/

/-- Samples that are all equal to `p` are already sorted. -/
theorem sortFloat64s_of_all_eq (prices : List ℚ) (p : ℚ) (hall : ∀ x ∈ prices, x = p) :
    sortFloat64s prices = prices := by
  apply sortFloat64s_unique prices prices (List.Perm.refl _)
  apply List.pairwise_of_forall_mem_list
  intro a ha b hb
  rw [hall a ha, hall b hb]

theorem getD_of_all_eq (prices : List ℚ) (p : ℚ) (hall : ∀ x ∈ prices, x = p)
    (i : Nat) (hi : i < prices.length) : prices.getD i 0 = p := by
  rw [List.getD_eq_getElem _ _ hi]
  exact hall _ (List.getElem_mem hi)

/-- The median of `N ≥ 1` samples that are all equal to `p` is `p`. -/
theorem computeMedian_of_all_eq (prices : List ℚ) (p : ℚ) (hN : 1 ≤ prices.length)
    (hall : ∀ x ∈ prices, x = p) : (computeMedian prices).1 = p := by
  rw [computeMedian_fst, sortFloat64s_of_all_eq prices p hall, if_pos (by omega)]
  split_ifs with heven
  · rw [getD_of_all_eq prices p hall _ (by omega), getD_of_all_eq prices p hall _ (by omega)]
    ring
  · rw [getD_of_all_eq prices p hall _ (by omega)]

/-- Identical positive prices: `discardOutliers` returns both slices unchanged. -/
theorem discardOutliers_of_all_eq (prices volumes : List ℚ) (p : ℚ)
    (h : prices.length = volumes.length) (hN : 1 ≤ prices.length)
    (hall : ∀ x ∈ prices, x = p) (hp : 0 < p) :
    discardOutliers prices volumes 30 = (prices, volumes, none) := by
  rw [discardOutliers_eq prices volumes 30 h, computeMedian_of_all_eq prices p hN hall,
    sortFloat64s_of_all_eq prices p hall]
  have hf : (prices.zip volumes).filter
      (fun x => decide (|x.1 - p| < 30 * (1 / 10000 : ℚ) * p)) = prices.zip volumes := by
    rw [List.filter_eq_self]
    intro x hx
    have hx1 : x.1 = p := hall x.1 (List.of_mem_zip hx).1
    rw [hx1]
    simp only [sub_self, abs_zero, decide_eq_true_eq]
    positivity
  rw [hf, List.map_fst_zip _ _ (le_of_eq h), List.map_snd_zip _ _ (le_of_eq h.symm)]


/-! ## Maps -/

theorem mapGet_nil {α : Type} (k : String) : mapGet ([] : GoMap α) k = none := rfl

theorem mapGet_cons {α : Type} (e : String × α) (m : GoMap α) (k : String) :
    mapGet (e :: m) k = if e.1 = k then some e.2 else mapGet m k := by
  unfold mapGet
  by_cases h : e.1 = k <;> simp [List.find?_cons, h]

theorem mapGet_eq_none_iff {α : Type} (m : GoMap α) (k : String) :
    mapGet m k = none ↔ k ∉ mapKeys m := by
  induction m with
  | nil => simp [mapGet_nil, mapKeys]
  | cons e m ih =>
    rw [mapGet_cons]
    by_cases h : e.1 = k
    · simp [h, mapKeys]
    · rw [if_neg h, ih]
      simp [mapKeys, h, Ne.symm h]

/-- Reading after an assignment. -/
theorem mapGet_mapSet {α : Type} (m : GoMap α) (k : String) (v : α) (k' : String) :
    mapGet (mapSet m k v) k' = if k = k' then some v else mapGet m k' := by
  induction m with
  | nil => simp [mapSet, mapGet_cons, mapGet_nil]
  | cons e m ih =>
    obtain ⟨ke, ve⟩ := e
    unfold mapSet
    by_cases h : ke = k
    · subst h
      simp only [if_true, mapGet_cons]
      split_ifs <;> rfl
    · rw [if_neg h, mapGet_cons, mapGet_cons, ih]
      by_cases h2 : ke = k'
      · subst h2
        simp [Ne.symm h]
      · simp [h2]

/-- Assigning a key the map does not hold adds the entry at the end. -/
theorem mapSet_of_not_mem {α : Type} (m : GoMap α) (k : String) (v : α)
    (h : k ∉ mapKeys m) : mapSet m k v = m ++ [(k, v)] := by
  induction m with
  | nil => rfl
  | cons e m ih =>
    obtain ⟨ke, ve⟩ := e
    have h1 : ke ≠ k := by
      intro he; apply h; simp [mapKeys, he]
    have h2 : k ∉ mapKeys m := by
      intro hm; apply h; simp only [mapKeys, List.map_cons, List.mem_cons]; right; exact hm
    unfold mapSet
    rw [if_neg h1, ih h2]
    rfl

/-- Assignment keeps the keys and their order when the key is held already. -/
theorem mapKeys_mapSet_of_mem {α : Type} (m : GoMap α) (k : String) (v : α)
    (h : k ∈ mapKeys m) : mapKeys (mapSet m k v) = mapKeys m := by
  induction m with
  | nil => simp [mapKeys] at h
  | cons e m ih =>
    obtain ⟨ke, ve⟩ := e
    unfold mapSet
    by_cases h1 : ke = k
    · rw [if_pos h1]; simp [mapKeys, h1]
    · rw [if_neg h1]
      have h2 : k ∈ mapKeys m := by
        simp only [mapKeys, List.map_cons, List.mem_cons] at h
        rcases h with h | h
        · exact absurd h.symm h1
        · exact h
      simp only [mapKeys, List.map_cons] at ih ⊢
      rw [ih h2]

theorem mapKeys_mapSet_of_not_mem {α : Type} (m : GoMap α) (k : String) (v : α)
    (h : k ∉ mapKeys m) : mapKeys (mapSet m k v) = mapKeys m ++ [k] := by
  rw [mapSet_of_not_mem m k v h]
  simp [mapKeys]

/-- Assignment keeps the keys of a map distinct. -/
theorem nodup_mapKeys_mapSet {α : Type} (m : GoMap α) (k : String) (v : α)
    (h : (mapKeys m).Nodup) : (mapKeys (mapSet m k v)).Nodup := by
  by_cases hk : k ∈ mapKeys m
  · rw [mapKeys_mapSet_of_mem m k v hk]; exact h
  · rw [mapKeys_mapSet_of_not_mem m k v hk]
    exact List.Nodup.append h (List.nodup_singleton k) (by simpa using hk)

theorem mem_mapKeys_mapSet {α : Type} (m : GoMap α) (k : String) (v : α) (k' : String) :
    k' ∈ mapKeys (mapSet m k v) ↔ k' = k ∨ k' ∈ mapKeys m := by
  by_cases hk : k ∈ mapKeys m
  · rw [mapKeys_mapSet_of_mem m k v hk]
    constructor
    · intro h; exact Or.inr h
    · rintro (h | h)
      · rw [h]; exact hk
      · exact h
  · rw [mapKeys_mapSet_of_not_mem m k v hk]
    simp [or_comm]

/-- Every entry of the map after an assignment is the assigned one or was there before. -/
theorem mem_mapSet {α : Type} (m : GoMap α) (k : String) (v : α) (e : String × α)
    (h : e ∈ mapSet m k v) : e = (k, v) ∨ e ∈ m := by
  induction m with
  | nil => simp [mapSet] at h; exact Or.inl h
  | cons e' m ih =>
    obtain ⟨ke, ve⟩ := e'
    unfold mapSet at h
    by_cases h1 : ke = k
    · rw [if_pos h1] at h
      rcases List.mem_cons.1 h with h | h
      · exact Or.inl h
      · exact Or.inr (List.mem_cons_of_mem _ h)
    · rw [if_neg h1] at h
      rcases List.mem_cons.1 h with h | h
      · exact Or.inr (h ▸ List.mem_cons_self _ _)
      · rcases ih h with h | h
        · exact Or.inl h
        · exact Or.inr (List.mem_cons_of_mem _ h)

/-- In a map with distinct keys every entry is the one its key reads. -/
theorem mapGet_of_mem {α : Type} (m : GoMap α) (k : String) (v : α)
    (hn : (mapKeys m).Nodup) (h : (k, v) ∈ m) : mapGet m k = some v := by
  induction m with
  | nil => simp at h
  | cons e m ih =>
    rw [mapGet_cons]
    simp only [mapKeys, List.map_cons, List.nodup_cons] at hn
    rcases List.mem_cons.1 h with h | h
    · rw [← h]; simp
    · have hne : e.1 ≠ k := by
        intro he
        apply hn.1
        rw [he]
        exact List.mem_map.2 ⟨(k, v), h, rfl⟩
      rw [if_neg hne]
      exact ih hn.2 h

/-- An entry the map reads is an entry of the map. -/
theorem mem_of_mapGet {α : Type} (m : GoMap α) (k : String) (v : α)
    (h : mapGet m k = some v) : (k, v) ∈ m := by
  induction m with
  | nil => simp [mapGet_nil] at h
  | cons e m ih =>
    rw [mapGet_cons] at h
    by_cases he : e.1 = k
    · rw [if_pos he] at h
      have : e = (k, v) := by
        obtain ⟨a, b⟩ := e
        simp only at he
        simp only [Option.some.injEq] at h
        rw [he, h]
      rw [this]; exact List.mem_cons_self _ _
    · rw [if_neg he] at h
      exact List.mem_cons_of_mem _ (ih h)


/-! ## The loop of `makeVWAP` -/

/-- One iteration of the loop of `makeVWAP`: neither error branch is taken, the asset is
assigned the VWAP of its kept data points and the loop goes on. -/
theorem makeVWAPLoop_cons (threshold : ℚ) (key : String) (value : List candlestickMessage)
    (rest : List (String × List candlestickMessage)) (vwapMap : GoMap ℚ) :
    makeVWAPLoop threshold ((key, value) :: rest) vwapMap =
      makeVWAPLoop threshold rest (mapSet vwapMap key
        (vwap (discardOutliers (getPrices value) (getVolumes value) threshold).1
          (discardOutliers (getPrices value) (getVolumes value) threshold).2.1).1) := by
  have hl := length_getPrices_getVolumes value
  have hd := discardOutliers_eq (getPrices value) (getVolumes value) threshold hl
  have hk := discardOutliers_lengths (getPrices value) (getVolumes value) threshold
  have hv := vwap_eq _ _ hk
  have he : (vwap (discardOutliers (getPrices value) (getVolumes value) threshold).1
      (discardOutliers (getPrices value) (getVolumes value) threshold).2.1).2 = none := by
    rw [hv]; split_ifs <;> rfl
  have h3 : (discardOutliers (getPrices value) (getVolumes value) threshold).2.2 = none := by
    rw [hd]
  rw [makeVWAPLoop]
  generalize discardOutliers (getPrices value) (getVolumes value) threshold = D at h3 he ⊢
  obtain ⟨cp, cv, e⟩ := D
  simp only [] at h3
  subst h3
  simp only []
  simp only [] at he
  rw [he]

/-- The loop of `makeVWAP` on entries with distinct keys, none of them in the map yet: every
asset is added with the VWAP of its kept data points, and the error is nil. -/
theorem makeVWAPLoop_eq (threshold : ℚ) :
    ∀ (rest : List (String × List candlestickMessage)) (vwapMap : GoMap ℚ),
      (mapKeys rest).Nodup → (∀ k ∈ mapKeys rest, k ∉ mapKeys vwapMap) →
      makeVWAPLoop threshold rest vwapMap =
        (vwapMap ++ rest.map (fun e => (e.1,
          (vwap (discardOutliers (getPrices e.2) (getVolumes e.2) threshold).1
            (discardOutliers (getPrices e.2) (getVolumes e.2) threshold).2.1).1)), none) := by
  intro rest
  induction rest with
  | nil => intro vwapMap _ _; simp [makeVWAPLoop]
  | cons e rest ih =>
    intro vwapMap hn hd
    obtain ⟨key, value⟩ := e
    simp only [mapKeys, List.map_cons, List.nodup_cons, List.mem_cons, forall_eq_or_imp]
      at hn hd
    have hkey : key ∉ mapKeys vwapMap := hd.1
    rw [makeVWAPLoop_cons, mapSet_of_not_mem vwapMap key _ hkey, ih _ hn.2]
    · simp
    · intro k hk hmem
      simp only [mapKeys, List.map_append, List.map_cons, List.map_nil, List.mem_append,
        List.mem_singleton] at hmem
      rcases hmem with hmem | hmem
      · exact hd.2 k hk hmem
      · exact hn.1 (hmem ▸ hk)

/-- The function `makeVWAP` on a map: every asset is mapped to the VWAP of its kept data
points, and the error is nil. -/
theorem makeVWAP_eq (pairData : GoMap (List candlestickMessage)) (threshold : ℚ)
    (hn : (mapKeys pairData).Nodup) :
    makeVWAP pairData threshold =
      (pairData.map (fun e => (e.1,
        (vwap (discardOutliers (getPrices e.2) (getVolumes e.2) threshold).1
          (discardOutliers (getPrices e.2) (getVolumes e.2) threshold).2.1).1)), none) := by
  unfold makeVWAP
  rw [makeVWAPLoop_eq threshold pairData [] hn (by simp [mapKeys])]
  simp

/-- The VWAP `makeVWAP` returns for one asset of the map. -/
theorem mapGet_makeVWAP (pairData : GoMap (List candlestickMessage)) (threshold : ℚ)
    (hn : (mapKeys pairData).Nodup) (key : String) (value : List candlestickMessage)
    (hmem : (key, value) ∈ pairData) :
    mapGet (makeVWAP pairData threshold).1 key =
      some (vwap (discardOutliers (getPrices value) (getVolumes value) threshold).1
        (discardOutliers (getPrices value) (getVolumes value) threshold).2.1).1 := by
  rw [makeVWAP_eq pairData threshold hn]
  apply mapGet_of_mem
  · simpa [mapKeys, List.map_map, Function.comp_def] using hn
  · exact List.mem_map.2 ⟨(key, value), hmem, rfl⟩

/-! ## Claims, continued -/

/-- C11: for `N ≥ 1` observations of one asset that all have the same closing price `p > 0`,
with any volumes, `discardOutliers` with the threshold of 30 basis points discards none:
it returns the prices and the volumes of all of them, with a nil error. -/
theorem discardOutliers_identical_prices (observations : List candlestickMessage) (p : ℚ)
    (hN : 1 ≤ observations.length)
    (hall : ∀ m ∈ observations, m.ClosingPrice = p) (hp : 0 < p) :
    discardOutliers (getPrices observations) (getVolumes observations) outlierBasisPoints
      = (observations.map (fun m => m.ClosingPrice),
         observations.map (fun m => m.Volume), none) := by
  have hl := length_getPrices_getVolumes observations
  have hN' : 1 ≤ (getPrices observations).length := by
    rw [getPrices_eq, List.length_map]; exact hN
  have hall' : ∀ x ∈ getPrices observations, x = p := by
    intro x hx
    rw [getPrices_eq] at hx
    obtain ⟨m, hm, rfl⟩ := List.mem_map.1 hx
    exact hall m hm
  have := discardOutliers_of_all_eq _ _ p hl hN' hall' hp
  rw [show outlierBasisPoints = 30 from rfl, this, getPrices_eq, getVolumes_eq]

theorem discardOutliers_identical_prices_witness :
    1 ≤ ([⟨"BTCUSDT", 100, 7, 0, 0, "Binance"⟩] : List candlestickMessage).length
    ∧ (0 : ℚ) < 100
    ∧ discardOutliers (getPrices [⟨"BTCUSDT", 100, 7, 0, 0, "Binance"⟩])
        (getVolumes [⟨"BTCUSDT", 100, 7, 0, 0, "Binance"⟩]) outlierBasisPoints
      = ([100], [7], none) :=
  ⟨by decide, by norm_num,
    discardOutliers_identical_prices [⟨"BTCUSDT", 100, 7, 0, 0, "Binance"⟩] 100 (by decide)
      (by simp) (by norm_num)⟩


set_option maxRecDepth 1000000 in
/-- C12 as stated fails, in two ways. A single observation with closing price 100 and
volume 0 gives the asset the VWAP 0, not 100, in exact arithmetic and in `float64` alike. And
in `float64` two observations with the same closing price 0.1 and the volumes 1 and 2 give the
asset the VWAP 0.10000000000000002, the `float64` next above 0.1: the sum `0.1 + 0.2` and the
quotient by 3 are rounded. -/
theorem makeVWAP_identical_prices_not_price :
    (mapGet (makeVWAP [("BTCUSDT", [⟨"BTCUSDT", 100, 0, 0, 0, "Binance"⟩])]
        outlierBasisPoints).1 "BTCUSDT" = some 0
      ∧ mapGet (makeVWAP [("BTCUSDT", [⟨"BTCUSDT", 100, 0, 0, 0, "Binance"⟩])]
        outlierBasisPoints).1 "BTCUSDT" ≠ some 100)
    ∧ (IEEE.makeVWAP [("BTCUSDT", [⟨"BTCUSDT", IEEE.ofInt 100, IEEE.ofInt 0, 0, 0, "Binance"⟩])]
        IEEE.outlierBasisPoints = ([("BTCUSDT", IEEE.ofInt 0)], none)
      ∧ IEEE.ofInt 0 ≠ IEEE.ofInt 100)
    ∧ (IEEE.makeVWAP
        [("BTCUSDT", [⟨"BTCUSDT", IEEE.roundRatio 1 10, IEEE.ofInt 1, 0, 0, "Binance"⟩,
          ⟨"BTCUSDT", IEEE.roundRatio 1 10, IEEE.ofInt 2, 0, 0, "Kucoin"⟩])]
        IEEE.outlierBasisPoints
        = ([("BTCUSDT", IEEE.Float64.finite 7205759403792795 (-56))], none)
      ∧ IEEE.roundRatio 1 10 = IEEE.Float64.finite 7205759403792794 (-56)
      ∧ IEEE.discardOutliers [IEEE.roundRatio 1 10, IEEE.roundRatio 1 10]
          [IEEE.ofInt 1, IEEE.ofInt 2] IEEE.outlierBasisPoints
        = ([IEEE.roundRatio 1 10, IEEE.roundRatio 1 10], [IEEE.ofInt 1, IEEE.ofInt 2], none)) := by
  have h : makeVWAP [("BTCUSDT", [⟨"BTCUSDT", 100, 0, 0, 0, "Binance"⟩])] outlierBasisPoints
      = ([("BTCUSDT", 0)], none) := by
    rw [makeVWAP_single]
    norm_num [getPrices, getVolumes, discardOutliers, computeMedian, sortFloat64s,
      discardStep, List.range, List.range.loop, abs_lt, vwap, vwapSums, vwapStep,
      outlierBasisPoints]
  refine ⟨?_, ⟨by decide, by decide⟩, ⟨by decide, by decide, by decide⟩⟩
  rw [h]
  simp [mapGet]

/-- C12, amended: in exact arithmetic, for `N ≥ 1` observations of one asset that all have
the same closing price `p > 0` and whose total absolute volume is positive, the VWAP
`makeVWAP` returns for that asset is `p`, and the error is nil. -/
theorem makeVWAP_identical_prices (pairData : GoMap (List candlestickMessage))
    (key : String) (observations : List candlestickMessage) (p : ℚ)
    (hn : (mapKeys pairData).Nodup) (hmem : (key, observations) ∈ pairData)
    (hN : 1 ≤ observations.length)
    (hall : ∀ m ∈ observations, m.ClosingPrice = p) (hp : 0 < p)
    (hvol : 0 < (observations.map (fun m => |m.Volume|)).sum) :
    mapGet (makeVWAP pairData outlierBasisPoints).1 key = some p
    ∧ (makeVWAP pairData outlierBasisPoints).2 = none := by
  constructor
  · rw [mapGet_makeVWAP pairData outlierBasisPoints hn key observations hmem]
    have hd : discardOutliers (getPrices observations) (getVolumes observations)
        outlierBasisPoints = (observations.map (fun m => m.ClosingPrice),
          observations.map (fun m => m.Volume), none) := by
      have hl := length_getPrices_getVolumes observations
      have hN' : 1 ≤ (getPrices observations).length := by
        rw [getPrices_eq, List.length_map]; exact hN
      have hall' : ∀ x ∈ getPrices observations, x = p := by
        intro x hx
        rw [getPrices_eq] at hx
        obtain ⟨m, hm, rfl⟩ := List.mem_map.1 hx
        exact hall m hm
      have := discardOutliers_of_all_eq _ _ p hl hN' hall' hp
      rw [show outlierBasisPoints = 30 from rfl, this, getPrices_eq, getVolumes_eq]
    rw [hd]
    simp only []
    rw [vwap_eq _ _ (by simp)]
    have hsum : (List.map (fun v => |v|) (observations.map (fun m => m.Volume))).sum
        = (observations.map (fun m => |m.Volume|)).sum := by
      rw [List.map_map]; rfl
    have hnum : (((observations.map (fun m => m.ClosingPrice)).zip
        (observations.map (fun m => m.Volume))).map (fun x => x.1 * |x.2|)).sum
        = p * (observations.map (fun m => |m.Volume|)).sum := by
      rw [List.zip_map', List.map_map, ← List.sum_map_mul_left]
      congr 1
      apply List.map_congr_left
      intro m hm
      simp [hall m hm]
    rw [hsum, hnum, if_pos hvol]
    simp only [Option.some.injEq]
    field_simp
  · rw [makeVWAP_eq pairData outlierBasisPoints hn]

theorem makeVWAP_identical_prices_witness :
    mapGet (makeVWAP
        [("BTCUSDT", [⟨"BTCUSDT", 100, 2, 0, 0, "Binance"⟩, ⟨"BTCUSDT", 100, -3, 0, 0, "Kucoin"⟩])]
        outlierBasisPoints).1 "BTCUSDT" = some 100
    ∧ (makeVWAP
        [("BTCUSDT", [⟨"BTCUSDT", 100, 2, 0, 0, "Binance"⟩, ⟨"BTCUSDT", 100, -3, 0, 0, "Kucoin"⟩])]
        outlierBasisPoints).2 = none :=
  makeVWAP_identical_prices
    [("BTCUSDT", [⟨"BTCUSDT", 100, 2, 0, 0, "Binance"⟩, ⟨"BTCUSDT", 100, -3, 0, 0, "Kucoin"⟩])]
    "BTCUSDT" [⟨"BTCUSDT", 100, 2, 0, 0, "Binance"⟩, ⟨"BTCUSDT", 100, -3, 0, 0, "Kucoin"⟩] 100
    (by simp [mapKeys]) (by simp) (by decide) (by simp) (by norm_num)
    (by norm_num [abs_of_neg])


/-! ## The drain -/

/-- The drain stops at the first message whose candle timestamp is after `endtime`: the
messages before it decide the map, the messages after it stay in the channel. -/
theorem getRecentDataLoop_terminal (endtime : Int) (t : candlestickMessage)
    (post : List candlestickMessage) (ht : t.Timestamp > endtime) :
    ∀ (pre : List candlestickMessage) (acc : GoMap candlestickMessage),
      (∀ m ∈ pre, ¬ m.Timestamp > endtime) →
      getRecentDataLoop endtime (pre ++ t :: post) acc
        = ((getRecentDataLoop endtime pre acc).1, post) := by
  intro pre
  induction pre with
  | nil =>
    intro acc _
    simp [getRecentDataLoop, ht]
  | cons m pre ih =>
    intro acc hpre
    have hm : ¬ m.Timestamp > endtime := hpre m (List.mem_cons_self _ _)
    have hpre' : ∀ x ∈ pre, ¬ x.Timestamp > endtime :=
      fun x hx => hpre x (List.mem_cons_of_mem _ hx)
    rw [List.cons_append, getRecentDataLoop, getRecentDataLoop, if_neg hm, if_neg hm]
    split_ifs
    · exact ih acc hpre'
    · simp only []
      split
      · exact ih _ hpre'
      · split_ifs
        · exact ih _ hpre'
        · exact ih _ hpre'

/-- The map the drain returns is decided by the messages before the first one whose candle
timestamp is after `endtime`. -/
theorem getRecentDataLoop_takeWhile (endtime : Int) :
    ∀ (l : List candlestickMessage) (acc : GoMap candlestickMessage),
      (getRecentDataLoop endtime l acc).1
        = (getRecentDataLoop endtime
            (l.takeWhile (fun m => decide (¬ m.Timestamp > endtime))) acc).1 := by
  intro l
  induction l with
  | nil => intro acc; rfl
  | cons m l ih =>
    intro acc
    by_cases hm : m.Timestamp > endtime
    · simp [List.takeWhile_cons, getRecentDataLoop, hm]
    · have htw : (m :: l).takeWhile (fun m => decide (¬ m.Timestamp > endtime))
          = m :: l.takeWhile (fun m => decide (¬ m.Timestamp > endtime)) := by
        simp [List.takeWhile_cons, hm]
      rw [htw, getRecentDataLoop, getRecentDataLoop, if_neg hm, if_neg hm]
      split_ifs
      · exact ih acc
      · simp only []
        split
        · exact ih _
        · split_ifs
          · exact ih _
          · exact ih _

/-- Stale messages leave the map of the drain as it is. -/
theorem getRecentDataLoop_filter (endtime : Int) :
    ∀ (l : List candlestickMessage) (acc : GoMap candlestickMessage),
      (∀ m ∈ l, ¬ m.Timestamp > endtime) →
      (getRecentDataLoop endtime l acc).1
        = (getRecentDataLoop endtime
            (l.filter (fun m =>
              decide (¬ endtime - m.ScrapeTime > tickerDurationSeconds * second))) acc).1 := by
  intro l
  induction l with
  | nil => intro acc _; rfl
  | cons m l ih =>
    intro acc hl
    have hm : ¬ m.Timestamp > endtime := hl m (List.mem_cons_self _ _)
    have hl' : ∀ x ∈ l, ¬ x.Timestamp > endtime :=
      fun x hx => hl x (List.mem_cons_of_mem _ hx)
    by_cases hs : endtime - m.ScrapeTime > tickerDurationSeconds * second
    · rw [List.filter_cons_of_neg (by rw [decide_eq_true_eq]; exact not_not.2 hs),
        getRecentDataLoop, if_neg hm, if_pos hs]
      exact ih acc hl'
    · rw [List.filter_cons_of_pos (by rw [decide_eq_true_eq]; exact hs),
        getRecentDataLoop, getRecentDataLoop,
        if_neg hm, if_neg hm, if_neg hs, if_neg hs]
      simp only []
      split
      · exact ih _ hl'
      · split_ifs
        · exact ih _ hl'
        · exact ih _ hl'

/-- The last message of a run of the drain over messages that are neither terminal nor
stale: it is stored when its identity is new or its candle timestamp is later than the
stored one. -/
theorem getRecentDataLoop_snoc (endtime : Int) (m : candlestickMessage)
    (hm : ¬ m.Timestamp > endtime)
    (hs : ¬ endtime - m.ScrapeTime > tickerDurationSeconds * second) :
    ∀ (l : List candlestickMessage) (acc : GoMap candlestickMessage),
      (∀ x ∈ l, ¬ x.Timestamp > endtime) →
      (getRecentDataLoop endtime (l ++ [m]) acc).1
        = (match mapGet (getRecentDataLoop endtime l acc).1 (getCandleStickMessageIdent m) with
          | none => mapSet (getRecentDataLoop endtime l acc).1 (getCandleStickMessageIdent m) m
          | some last =>
            if m.Timestamp > last.Timestamp then
              mapSet (getRecentDataLoop endtime l acc).1 (getCandleStickMessageIdent m) m
            else (getRecentDataLoop endtime l acc).1) := by
  intro l
  induction l with
  | nil =>
    intro acc _
    simp only [List.nil_append, getRecentDataLoop, if_neg hm, if_neg hs]
    split
    · rfl
    · split_ifs <;> rfl
  | cons x l ih =>
    intro acc hl
    have hx : ¬ x.Timestamp > endtime := hl x (List.mem_cons_self _ _)
    have hl' : ∀ y ∈ l, ¬ y.Timestamp > endtime :=
      fun y hy => hl y (List.mem_cons_of_mem _ hy)
    rw [List.cons_append, getRecentDataLoop, getRecentDataLoop, if_neg hx, if_neg hx]
    split_ifs
    · exact ih acc hl'
    · simp only []
      split
      · exact ih _ hl'
      · split_ifs
        · exact ih _ hl'
        · exact ih _ hl'


/-- What a key reads after one more message that is neither terminal nor stale. -/
theorem mapGet_getRecentDataLoop_snoc (endtime : Int) (m : candlestickMessage)
    (l : List candlestickMessage) (k : String)
    (hm : ¬ m.Timestamp > endtime)
    (hs : ¬ endtime - m.ScrapeTime > tickerDurationSeconds * second)
    (hl : ∀ x ∈ l, ¬ x.Timestamp > endtime) :
    mapGet (getRecentDataLoop endtime (l ++ [m]) []).1 k =
      if getCandleStickMessageIdent m = k then
        (match mapGet (getRecentDataLoop endtime l []).1 k with
          | none => some m
          | some last => if m.Timestamp > last.Timestamp then some m else some last)
      else mapGet (getRecentDataLoop endtime l []).1 k := by
  rw [getRecentDataLoop_snoc endtime m hm hs l [] hl]
  by_cases hk : getCandleStickMessageIdent m = k
  · subst hk
    rw [if_pos rfl]
    split
    · rw [mapGet_mapSet, if_pos rfl]
    · rename_i last hlast
      split_ifs
      · rw [mapGet_mapSet, if_pos rfl]
      · exact hlast
  · rw [if_neg hk]
    split
    · rw [mapGet_mapSet, if_neg hk]
    · split_ifs
      · rw [mapGet_mapSet, if_neg hk]
      · rfl

/-- The keys of the map of the drain are distinct. -/
theorem nodup_mapKeys_getRecentDataLoop (endtime : Int) (l : List candlestickMessage)
    (hl : ∀ x ∈ l, ¬ x.Timestamp > endtime
      ∧ ¬ endtime - x.ScrapeTime > tickerDurationSeconds * second) :
    (mapKeys (getRecentDataLoop endtime l []).1).Nodup := by
  induction l using List.reverseRecOn with
  | nil => simp [getRecentDataLoop, mapKeys]
  | append_singleton l m ih =>
    have hm := hl m (by simp)
    have hl' : ∀ x ∈ l, ¬ x.Timestamp > endtime
        ∧ ¬ endtime - x.ScrapeTime > tickerDurationSeconds * second :=
      fun x hx => hl x (by simp [hx])
    rw [getRecentDataLoop_snoc endtime m hm.1 hm.2 l [] (fun x hx => (hl' x hx).1)]
    split
    · exact nodup_mapKeys_mapSet _ _ _ (ih hl')
    · split_ifs
      · exact nodup_mapKeys_mapSet _ _ _ (ih hl')
      · exact ih hl'

/-- A key is absent from the map of the drain exactly when no message has that identity. -/
theorem mapGet_getRecentDataLoop_eq_none (endtime : Int) (l : List candlestickMessage)
    (k : String)
    (hl : ∀ x ∈ l, ¬ x.Timestamp > endtime
      ∧ ¬ endtime - x.ScrapeTime > tickerDurationSeconds * second) :
    mapGet (getRecentDataLoop endtime l []).1 k = none
      ↔ ∀ m ∈ l, getCandleStickMessageIdent m ≠ k := by
  induction l using List.reverseRecOn with
  | nil => simp [getRecentDataLoop, mapGet_nil]
  | append_singleton l m ih =>
    have hm := hl m (by simp)
    have hl' : ∀ x ∈ l, ¬ x.Timestamp > endtime
        ∧ ¬ endtime - x.ScrapeTime > tickerDurationSeconds * second :=
      fun x hx => hl x (by simp [hx])
    rw [mapGet_getRecentDataLoop_snoc endtime m l k hm.1 hm.2 (fun x hx => (hl' x hx).1)]
    by_cases hk : getCandleStickMessageIdent m = k
    · rw [if_pos hk]
      constructor
      · intro h
        split at h
        · simp at h
        · split_ifs at h
      · intro h
        exact absurd hk (h m (by simp))
    · rw [if_neg hk, ih hl']
      constructor
      · intro h x hx
        rcases List.mem_append.1 hx with hx | hx
        · exact h x hx
        · rw [List.mem_singleton.1 hx]; exact hk
      · intro h x hx
        exact h x (by simp [hx])

/-- The message a key reads in the map of the drain has that identity, every message of the
identity received before it has a strictly earlier candle timestamp, and none received after
it has a later one. -/
theorem mapGet_getRecentDataLoop_eq_some (endtime : Int) (l : List candlestickMessage)
    (hl : ∀ x ∈ l, ¬ x.Timestamp > endtime
      ∧ ¬ endtime - x.ScrapeTime > tickerDurationSeconds * second) :
    ∀ (k : String) (v : candlestickMessage),
      mapGet (getRecentDataLoop endtime l []).1 k = some v →
      getCandleStickMessageIdent v = k
      ∧ ∃ l1 l2, l = l1 ++ v :: l2
        ∧ (∀ m ∈ l1, getCandleStickMessageIdent m = k → m.Timestamp < v.Timestamp)
        ∧ (∀ m ∈ l2, getCandleStickMessageIdent m = k → m.Timestamp ≤ v.Timestamp) := by
  induction l using List.reverseRecOn with
  | nil => intro k v h; simp [getRecentDataLoop, mapGet_nil] at h
  | append_singleton l m ih =>
    intro k v h
    have hm := hl m (by simp)
    have hl' : ∀ x ∈ l, ¬ x.Timestamp > endtime
        ∧ ¬ endtime - x.ScrapeTime > tickerDurationSeconds * second :=
      fun x hx => hl x (by simp [hx])
    rw [mapGet_getRecentDataLoop_snoc endtime m l k hm.1 hm.2 (fun x hx => (hl' x hx).1)] at h
    by_cases hk : getCandleStickMessageIdent m = k
    · rw [if_pos hk] at h
      cases hold : mapGet (getRecentDataLoop endtime l []).1 k with
      | none =>
        rw [hold] at h
        simp only [Option.some.injEq] at h
        subst h
        refine ⟨hk, l, [], rfl, ?_, by simp⟩
        intro x hx hxk
        exact absurd hxk ((mapGet_getRecentDataLoop_eq_none endtime l k hl').1 hold x hx)
      | some last =>
        rw [hold] at h
        obtain ⟨hlk, l1, l2, hsplit, h1, h2⟩ := ih hl' k last hold
        by_cases hgt : m.Timestamp > last.Timestamp
        · simp only [if_pos hgt, Option.some.injEq] at h
          subst h
          refine ⟨hk, l, [], rfl, ?_, by simp⟩
          intro x hx hxk
          rw [hsplit] at hx
          rcases List.mem_append.1 hx with hx | hx
          · exact lt_trans (h1 x hx hxk) hgt
          · rcases List.mem_cons.1 hx with hx | hx
            · rw [hx]; exact hgt
            · exact lt_of_le_of_lt (h2 x hx hxk) hgt
        · simp only [if_neg hgt, Option.some.injEq] at h
          subst h
          refine ⟨hlk, l1, l2 ++ [m], by rw [hsplit]; simp, h1, ?_⟩
          intro x hx hxk
          rcases List.mem_append.1 hx with hx | hx
          · exact h2 x hx hxk
          · rw [List.mem_singleton.1 hx]; exact not_lt.1 hgt
    · rw [if_neg hk] at h
      obtain ⟨hvk, l1, l2, hsplit, h1, h2⟩ := ih hl' k v h
      refine ⟨hvk, l1, l2 ++ [m], by rw [hsplit]; simp, h1, ?_⟩
      intro x hx hxk
      rcases List.mem_append.1 hx with hx | hx
      · exact h2 x hx hxk
      · rw [List.mem_singleton.1 hx] at hxk; exact absurd hxk hk


/-- The messages that decide the map of the drain: received before the first one whose
candle timestamp is after `endtime`, and not stale. All of them pass both tests of the
loop. -/
theorem fresh_clean (l : List candlestickMessage) (endtime : Int) :
    ∀ x ∈ (l.takeWhile (fun m => decide (¬ m.Timestamp > endtime))).filter
        (fun m => decide (¬ endtime - m.ScrapeTime > tickerDurationSeconds * second)),
      ¬ x.Timestamp > endtime
        ∧ ¬ endtime - x.ScrapeTime > tickerDurationSeconds * second := by
  intro x hx
  obtain ⟨h1, h2⟩ := List.mem_filter.1 hx
  have h3 := List.mem_takeWhile_imp h1
  simp only [decide_eq_true_eq] at h2 h3
  exact ⟨h3, h2⟩

/-- The map `getRecentDataFromChannel` returns is the map of the loop over the messages that
are neither terminal nor stale. -/
theorem getRecentDataFromChannel_fst (l : List candlestickMessage) (endtime : Int) :
    (getRecentDataFromChannel l endtime).1
      = (getRecentDataLoop endtime
          ((l.takeWhile (fun m => decide (¬ m.Timestamp > endtime))).filter
            (fun m => decide (¬ endtime - m.ScrapeTime > tickerDurationSeconds * second)))
          []).1 := by
  unfold getRecentDataFromChannel
  rw [getRecentDataLoop_takeWhile endtime l [], getRecentDataLoop_filter endtime _ []]
  intro m hm
  have := List.mem_takeWhile_imp hm
  simpa using this

/-- The message a key reads in the map of the drain is one of the deciding messages, has the
identity of the key, and no deciding message of that identity has a later candle
timestamp. -/
theorem mapGet_getRecentDataFromChannel_max (l : List candlestickMessage) (endtime : Int)
    (k : String) (v : candlestickMessage)
    (h : mapGet (getRecentDataFromChannel l endtime).1 k = some v) :
    v ∈ (l.takeWhile (fun m => decide (¬ m.Timestamp > endtime))).filter
        (fun m => decide (¬ endtime - m.ScrapeTime > tickerDurationSeconds * second))
    ∧ getCandleStickMessageIdent v = k
    ∧ ∀ m ∈ (l.takeWhile (fun m => decide (¬ m.Timestamp > endtime))).filter
        (fun m => decide (¬ endtime - m.ScrapeTime > tickerDurationSeconds * second)),
      getCandleStickMessageIdent m = k → m.Timestamp ≤ v.Timestamp := by
  rw [getRecentDataFromChannel_fst] at h
  obtain ⟨hk, l1, l2, hsplit, h1, h2⟩ :=
    mapGet_getRecentDataLoop_eq_some endtime _ (fresh_clean l endtime) k v h
  refine ⟨by rw [hsplit]; simp, hk, ?_⟩
  intro m hm hmk
  rw [hsplit] at hm
  rcases List.mem_append.1 hm with hm | hm
  · exact le_of_lt (h1 m hm hmk)
  · rcases List.mem_cons.1 hm with hm | hm
    · rw [hm]
    · exact h2 m hm hmk

/-- Every entry of the map of the drain is read by its key. -/
theorem mapGet_of_mem_getRecentDataFromChannel (l : List candlestickMessage) (endtime : Int)
    (e : String × candlestickMessage) (he : e ∈ (getRecentDataFromChannel l endtime).1) :
    mapGet (getRecentDataFromChannel l endtime).1 e.1 = some e.2 := by
  apply mapGet_of_mem
  · rw [getRecentDataFromChannel_fst]
    exact nodup_mapKeys_getRecentDataLoop endtime _ (fresh_clean l endtime)
  · exact he


/-- C13 as stated fails: with `endtime` 120 s, an observation whose candle timestamp is
exactly 120 s does not end the drain; it is put in the returned map, and the observation
queued after it is put in the map as well. The drain ends at the third observation, whose
candle timestamp is 180 s. -/
theorem getRecentDataFromChannel_at_endtime_not_terminal :
    (⟨"BTCUSDT", 100, 1, 120 * second, 120 * second, "Binance"⟩ :
        candlestickMessage).Timestamp ≥ 120 * second
    ∧ getRecentDataFromChannel
        [⟨"BTCUSDT", 100, 1, 120 * second, 120 * second, "Binance"⟩,
          ⟨"ETHUSDT", 5, 1, 60 * second, 120 * second, "Binance"⟩,
          ⟨"BTCUSDT", 102, 1, 180 * second, 181 * second, "Binance"⟩] (120 * second)
      = ([("Binance-BTCUSDT", ⟨"BTCUSDT", 100, 1, 120 * second, 120 * second, "Binance"⟩),
          ("Binance-ETHUSDT", ⟨"ETHUSDT", 5, 1, 60 * second, 120 * second, "Binance"⟩)], []) := by
  constructor
  · exact le_refl _
  · decide

/-- C13, amended: the drain consumes observations in queue order until the first one whose
candle timestamp is strictly after `endtime`; the returned map is the one the observations
before it give, the terminal observation is not a value of the map, and the observations
queued after it stay in the channel. -/
theorem getRecentDataFromChannel_stops_after_endtime
    (pre post : List candlestickMessage) (t : candlestickMessage) (endtime : Int)
    (hpre : ∀ m ∈ pre, ¬ m.Timestamp > endtime) (ht : t.Timestamp > endtime) :
    getRecentDataFromChannel (pre ++ t :: post) endtime
      = ((getRecentDataFromChannel pre endtime).1, post)
    ∧ ∀ e ∈ (getRecentDataFromChannel (pre ++ t :: post) endtime).1, e.2 ∈ pre ∧ e.2 ≠ t := by
  have heq : getRecentDataFromChannel (pre ++ t :: post) endtime
      = ((getRecentDataFromChannel pre endtime).1, post) := by
    unfold getRecentDataFromChannel
    exact getRecentDataLoop_terminal endtime t post ht pre [] hpre
  refine ⟨heq, ?_⟩
  rw [heq]
  intro e he
  have hget := mapGet_of_mem_getRecentDataFromChannel pre endtime e he
  have hmem := (mapGet_getRecentDataFromChannel_max pre endtime e.1 e.2 hget).1
  have hin : e.2 ∈ pre := List.takeWhile_subset _ (List.mem_filter.1 hmem).1
  refine ⟨hin, ?_⟩
  intro h
  rw [h] at hin
  exact hpre t hin ht

theorem getRecentDataFromChannel_stops_after_endtime_witness :
    getRecentDataFromChannel
        ([⟨"BTCUSDT", 100, 1, 120 * second, 120 * second, "Binance"⟩]
          ++ ⟨"BTCUSDT", 101, 1, 180 * second, 121 * second, "Binance"⟩
            :: [⟨"ETHUSDT", 5, 1, 60 * second, 120 * second, "Binance"⟩]) (120 * second)
      = ([("Binance-BTCUSDT", ⟨"BTCUSDT", 100, 1, 120 * second, 120 * second, "Binance"⟩)],
          [⟨"ETHUSDT", 5, 1, 60 * second, 120 * second, "Binance"⟩]) := by
  have h := (getRecentDataFromChannel_stops_after_endtime
    [⟨"BTCUSDT", 100, 1, 120 * second, 120 * second, "Binance"⟩]
    [⟨"ETHUSDT", 5, 1, 60 * second, 120 * second, "Binance"⟩]
    ⟨"BTCUSDT", 101, 1, 180 * second, 121 * second, "Binance"⟩ (120 * second)
    (by decide) (by decide)).1
  rw [h]
  decide


/-- C14: no observation with `endtime - ScrapeTime > 60 s` is in the map the drain returns,
and an observation received before the terminal one with `endtime - ScrapeTime ≤ 60 s` is
not dropped for staleness: its identity is a key of the map, held by an observation of that
identity whose candle timestamp is not earlier. -/
theorem getRecentDataFromChannel_staleness (l : List candlestickMessage) (endtime : Int) :
    (∀ e ∈ (getRecentDataFromChannel l endtime).1,
      ¬ endtime - e.2.ScrapeTime > tickerDurationSeconds * second)
    ∧ ∀ m ∈ l.takeWhile (fun m => decide (¬ m.Timestamp > endtime)),
        endtime - m.ScrapeTime ≤ tickerDurationSeconds * second →
        ∃ v, mapGet (getRecentDataFromChannel l endtime).1 (getCandleStickMessageIdent m)
            = some v
          ∧ getCandleStickMessageIdent v = getCandleStickMessageIdent m
          ∧ m.Timestamp ≤ v.Timestamp := by
  constructor
  · intro e he
    have hget := mapGet_of_mem_getRecentDataFromChannel l endtime e he
    have hmem := (mapGet_getRecentDataFromChannel_max l endtime e.1 e.2 hget).1
    exact (fresh_clean l endtime e.2 hmem).2
  · intro m hm hfresh
    have hmem : m ∈ (l.takeWhile (fun m => decide (¬ m.Timestamp > endtime))).filter
        (fun m => decide (¬ endtime - m.ScrapeTime > tickerDurationSeconds * second)) := by
      apply List.mem_filter.2
      refine ⟨hm, ?_⟩
      rw [decide_eq_true_eq]
      exact not_lt.2 hfresh
    cases hget : mapGet (getRecentDataFromChannel l endtime).1
        (getCandleStickMessageIdent m) with
    | none =>
      rw [getRecentDataFromChannel_fst] at hget
      exact absurd rfl
        ((mapGet_getRecentDataLoop_eq_none endtime _ _ (fresh_clean l endtime)).1 hget m hmem)
    | some v =>
      obtain ⟨_, hk, hmax⟩ := mapGet_getRecentDataFromChannel_max l endtime _ v hget
      exact ⟨v, rfl, hk, hmax m hmem rfl⟩

theorem getRecentDataFromChannel_staleness_witness :
    ∃ v, mapGet (getRecentDataFromChannel
          [⟨"BTCUSDT", 100, 1, 60 * second, 60 * second, "Binance"⟩,
            ⟨"BTCUSDT", 90, 1, 30 * second, 59 * second, "Binance"⟩] (120 * second)).1
          "Binance-BTCUSDT" = some v
      ∧ getCandleStickMessageIdent v = "Binance-BTCUSDT"
      ∧ 60 * second ≤ v.Timestamp :=
  (getRecentDataFromChannel_staleness
    [⟨"BTCUSDT", 100, 1, 60 * second, 60 * second, "Binance"⟩,
      ⟨"BTCUSDT", 90, 1, 30 * second, 59 * second, "Binance"⟩] (120 * second)).2
    ⟨"BTCUSDT", 100, 1, 60 * second, 60 * second, "Binance"⟩ (by decide) (by decide)

/-- C15: the keys of the map the drain returns are distinct and are exactly the identities
`Source + "-" + ForeignName` of the non-stale observations received before the terminal one;
each key reads an observation of that identity such that every such observation received
before it has a strictly earlier candle timestamp and none received after it has a later
one (the maximum, and on equal timestamps the first received). -/
theorem getRecentDataFromChannel_latest_per_identity
    (l : List candlestickMessage) (endtime : Int) :
    (mapKeys (getRecentDataFromChannel l endtime).1).Nodup
    ∧ (∀ k, k ∈ mapKeys (getRecentDataFromChannel l endtime).1 ↔
        ∃ m ∈ (l.takeWhile (fun m => decide (¬ m.Timestamp > endtime))).filter
            (fun m => decide (¬ endtime - m.ScrapeTime > tickerDurationSeconds * second)),
          m.Source ++ "-" ++ m.ForeignName = k)
    ∧ ∀ k v, mapGet (getRecentDataFromChannel l endtime).1 k = some v →
        v.Source ++ "-" ++ v.ForeignName = k
        ∧ ∃ l1 l2,
          (l.takeWhile (fun m => decide (¬ m.Timestamp > endtime))).filter
            (fun m => decide (¬ endtime - m.ScrapeTime > tickerDurationSeconds * second))
            = l1 ++ v :: l2
          ∧ (∀ m ∈ l1, m.Source ++ "-" ++ m.ForeignName = k → m.Timestamp < v.Timestamp)
          ∧ (∀ m ∈ l2, m.Source ++ "-" ++ m.ForeignName = k → m.Timestamp ≤ v.Timestamp) := by
  rw [getRecentDataFromChannel_fst]
  refine ⟨nodup_mapKeys_getRecentDataLoop endtime _ (fresh_clean l endtime), ?_, ?_⟩
  · intro k
    have h := mapGet_getRecentDataLoop_eq_none endtime _ k (fresh_clean l endtime)
    rw [mapGet_eq_none_iff] at h
    constructor
    · intro hk
      by_contra hne
      apply (h.2 ?_) hk
      intro m hm hmk
      exact hne ⟨m, hm, hmk⟩
    · rintro ⟨m, hm, hmk⟩
      by_contra hk
      exact h.1 hk m hm hmk
  · intro k v h
    exact mapGet_getRecentDataLoop_eq_some endtime _ (fresh_clean l endtime) k v h

theorem getRecentDataFromChannel_latest_per_identity_witness :
    mapGet (getRecentDataFromChannel
        [⟨"BTCUSDT", 100, 1, 60 * second, 60 * second, "Binance"⟩,
          ⟨"BTCUSDT", 90, 1, 30 * second, 59 * second, "Binance"⟩] (120 * second)).1
        "Binance-BTCUSDT"
      = some ⟨"BTCUSDT", 100, 1, 60 * second, 60 * second, "Binance"⟩
    ∧ ∃ l1 l2 : List candlestickMessage,
        (([⟨"BTCUSDT", 100, 1, 60 * second, 60 * second, "Binance"⟩,
            ⟨"BTCUSDT", 90, 1, 30 * second, 59 * second, "Binance"⟩] :
              List candlestickMessage).takeWhile
              (fun m => decide (¬ m.Timestamp > 120 * second))).filter
            (fun m => decide (¬ 120 * second - m.ScrapeTime > tickerDurationSeconds * second))
          = l1 ++ (⟨"BTCUSDT", 100, 1, 60 * second, 60 * second, "Binance"⟩ :
              candlestickMessage) :: l2
        ∧ (∀ m ∈ l1, m.Source ++ "-" ++ m.ForeignName = "Binance-BTCUSDT" →
            m.Timestamp < 60 * second)
        ∧ (∀ m ∈ l2, m.Source ++ "-" ++ m.ForeignName = "Binance-BTCUSDT" →
            m.Timestamp ≤ 60 * second) :=
  have h : mapGet (getRecentDataFromChannel
        [⟨"BTCUSDT", 100, 1, 60 * second, 60 * second, "Binance"⟩,
          ⟨"BTCUSDT", 90, 1, 30 * second, 59 * second, "Binance"⟩] (120 * second)).1
        "Binance-BTCUSDT"
      = some ⟨"BTCUSDT", 100, 1, 60 * second, 60 * second, "Binance"⟩ := by decide
  ⟨h, ((getRecentDataFromChannel_latest_per_identity
    [⟨"BTCUSDT", 100, 1, 60 * second, 60 * second, "Binance"⟩,
      ⟨"BTCUSDT", 90, 1, 30 * second, 59 * second, "Binance"⟩] (120 * second)).2.2
    "Binance-BTCUSDT" ⟨"BTCUSDT", 100, 1, 60 * second, 60 * second, "Binance"⟩ h).2⟩

/-- C16: when every candle timestamp of the queue content is strictly before the window
boundary and no two observations share identity and candle timestamp, draining any
rearrangement of the content gives the same identity-to-observation map: every key reads
the same in both, whether the channel is closed after the content or the same terminal
observation follows it. -/
theorem getRecentDataFromChannel_perm (content content' : List candlestickMessage)
    (endtime : Int) (hperm : content'.Perm content)
    (hbefore : ∀ m ∈ content, m.Timestamp < endtime)
    (hnodup : (content.map
      (fun m => (getCandleStickMessageIdent m, m.Timestamp))).Nodup) :
    (∀ k, mapGet (getRecentDataFromChannel content' endtime).1 k
      = mapGet (getRecentDataFromChannel content endtime).1 k)
    ∧ ∀ (t : candlestickMessage) (post : List candlestickMessage), t.Timestamp > endtime →
        ∀ k, mapGet (getRecentDataFromChannel (content' ++ t :: post) endtime).1 k
          = mapGet (getRecentDataFromChannel (content ++ t :: post) endtime).1 k := by
  have hbefore' : ∀ m ∈ content', m.Timestamp < endtime :=
    fun m hm => hbefore m (hperm.subset hm)
  suffices hmain : ∀ k, mapGet (getRecentDataFromChannel content' endtime).1 k
      = mapGet (getRecentDataFromChannel content endtime).1 k by
    refine ⟨hmain, ?_⟩
    intro t post ht k
    have h1 : (getRecentDataFromChannel (content ++ t :: post) endtime).1
        = (getRecentDataFromChannel content endtime).1 := by
      unfold getRecentDataFromChannel
      rw [getRecentDataLoop_terminal endtime t post ht content []
        (fun m hm => not_lt.2 (le_of_lt (hbefore m hm)))]
    have h2 : (getRecentDataFromChannel (content' ++ t :: post) endtime).1
        = (getRecentDataFromChannel content' endtime).1 := by
      unfold getRecentDataFromChannel
      rw [getRecentDataLoop_terminal endtime t post ht content' []
        (fun m hm => not_lt.2 (le_of_lt (hbefore' m hm)))]
    rw [h1, h2]
    exact hmain k
  intro k
  have htw : ∀ c : List candlestickMessage, (∀ m ∈ c, m.Timestamp < endtime) →
      c.takeWhile (fun m => decide (¬ m.Timestamp > endtime)) = c := by
    intro c hc
    rw [List.takeWhile_eq_self_iff]
    intro m hm
    rw [decide_eq_true_eq]
    exact not_lt.2 (le_of_lt (hc m hm))
  have hinj := List.inj_on_of_nodup_map hnodup
  -- membership in the deciding messages is the same for both orders
  have hmem : ∀ m, m ∈ (content'.takeWhile (fun m => decide (¬ m.Timestamp > endtime))).filter
        (fun m => decide (¬ endtime - m.ScrapeTime > tickerDurationSeconds * second))
      ↔ m ∈ (content.takeWhile (fun m => decide (¬ m.Timestamp > endtime))).filter
        (fun m => decide (¬ endtime - m.ScrapeTime > tickerDurationSeconds * second)) := by
    intro m
    rw [htw content hbefore, htw content' hbefore']
    exact (hperm.filter _).mem_iff
  have hsub : ∀ m, m ∈ (content.takeWhile (fun m => decide (¬ m.Timestamp > endtime))).filter
        (fun m => decide (¬ endtime - m.ScrapeTime > tickerDurationSeconds * second))
      → m ∈ content := by
    intro m hm
    rw [htw content hbefore] at hm
    exact (List.mem_filter.1 hm).1
  cases h1 : mapGet (getRecentDataFromChannel content endtime).1 k with
  | none =>
    rw [getRecentDataFromChannel_fst] at h1 ⊢
    rw [mapGet_getRecentDataLoop_eq_none endtime _ k (fresh_clean content endtime)] at h1
    rw [mapGet_getRecentDataLoop_eq_none endtime _ k (fresh_clean content' endtime)]
    intro m hm
    exact h1 m ((hmem m).1 hm)
  | some v =>
    cases h2 : mapGet (getRecentDataFromChannel content' endtime).1 k with
    | none =>
      obtain ⟨hv, hvk, _⟩ := mapGet_getRecentDataFromChannel_max content endtime k v h1
      rw [getRecentDataFromChannel_fst] at h2
      rw [mapGet_getRecentDataLoop_eq_none endtime _ k (fresh_clean content' endtime)] at h2
      exact absurd hvk (h2 v ((hmem v).2 hv))
    | some v' =>
      obtain ⟨hv, hvk, hmax⟩ := mapGet_getRecentDataFromChannel_max content endtime k v h1
      obtain ⟨hv', hvk', hmax'⟩ :=
        mapGet_getRecentDataFromChannel_max content' endtime k v' h2
      have hle : v'.Timestamp ≤ v.Timestamp := hmax v' ((hmem v').1 hv') hvk'
      have hge : v.Timestamp ≤ v'.Timestamp := hmax' v ((hmem v).2 hv) hvk
      have hts : v'.Timestamp = v.Timestamp := le_antisymm hle hge
      have : v' = v := by
        apply hinj (hsub v' ((hmem v').1 hv')) (hsub v hv)
        simp only [Prod.mk.injEq]
        exact ⟨by rw [hvk, hvk'], hts⟩
      rw [this]

theorem getRecentDataFromChannel_perm_witness :
    mapGet (getRecentDataFromChannel
        [⟨"BTCUSDT", 101, 1, 90 * second, 100 * second, "Binance"⟩,
          ⟨"BTCUSDT", 100, 1, 60 * second, 100 * second, "Binance"⟩] (120 * second)).1
        "Binance-BTCUSDT"
      = mapGet (getRecentDataFromChannel
        [⟨"BTCUSDT", 100, 1, 60 * second, 100 * second, "Binance"⟩,
          ⟨"BTCUSDT", 101, 1, 90 * second, 100 * second, "Binance"⟩] (120 * second)).1
        "Binance-BTCUSDT" :=
  (getRecentDataFromChannel_perm
    [⟨"BTCUSDT", 100, 1, 60 * second, 100 * second, "Binance"⟩,
      ⟨"BTCUSDT", 101, 1, 90 * second, 100 * second, "Binance"⟩]
    [⟨"BTCUSDT", 101, 1, 90 * second, 100 * second, "Binance"⟩,
      ⟨"BTCUSDT", 100, 1, 60 * second, 100 * second, "Binance"⟩] (120 * second)
    (List.Perm.swap _ _ _) (by decide) (by decide)).1 "Binance-BTCUSDT"


/-! ## Grouping by asset -/

/-- The second piece of an identity `Source + "-" + ForeignName` is the `ForeignName` when
neither part holds a `"-"`. -/
theorem splitDash_ident (source foreignName : String)
    (hs : '-' ∉ source.toList) (hf : '-' ∉ foreignName.toList) :
    (splitDash (source ++ "-" ++ foreignName))[1]? = some foreignName := by
  have hdata : (source ++ "-" ++ foreignName).toList
      = source.toList ++ '-' :: foreignName.toList := by
    show (source ++ "-" ++ foreignName).data = source.data ++ '-' :: foreignName.data
    simp [String.data_append]
  have h1 : (source.toList ++ '-' :: foreignName.toList).splitOn '-'
      = source.toList :: foreignName.toList.splitOn '-' := by
    apply List.splitOnP_first
    · intro x hx hxe
      have : x = '-' := by simpa using hxe
      exact hs (this ▸ hx)
    · simp
  have h2 : foreignName.toList.splitOn '-' = [foreignName.toList] := by
    apply List.splitOnP_eq_single
    intro x hx hxe
    have : x = '-' := by simpa using hxe
    exact hf (this ▸ hx)
  unfold splitDash
  rw [hdata, h1, h2]
  rfl

/-- Replacing the group of a key changes the total number of grouped observations by the
difference of the lengths. -/
theorem sum_length_mapSet_of_some (g : GoMap (List candlestickMessage)) (k : String)
    (old new : List candlestickMessage) (h : mapGet g k = some old) :
    ((mapSet g k new).map (fun e => e.2.length)).sum + old.length
      = (g.map (fun e => e.2.length)).sum + new.length := by
  induction g with
  | nil => simp [mapGet_nil] at h
  | cons e g ih =>
    obtain ⟨ke, ve⟩ := e
    rw [mapGet_cons] at h
    unfold mapSet
    by_cases hk : ke = k
    · simp only [hk, if_true, Option.some.injEq] at h
      rw [if_pos hk]
      simp only [List.map_cons, List.sum_cons]
      rw [h]
      omega
    · rw [if_neg hk] at h
      rw [if_neg hk]
      simp only [List.map_cons, List.sum_cons]
      have := ih h
      omega

theorem sum_length_mapSet_of_none (g : GoMap (List candlestickMessage)) (k : String)
    (new : List candlestickMessage) (h : mapGet g k = none) :
    ((mapSet g k new).map (fun e => e.2.length)).sum
      = (g.map (fun e => e.2.length)).sum + new.length := by
  rw [mapSet_of_not_mem g k new ((mapGet_eq_none_iff g k).1 h)]
  simp


/-- The loop of `getPairData` on entries keyed by their identity, with no `"-"` inside
`Source` or `ForeignName`: it does not panic, and it keeps the map a grouping of the
observations visited so far by `ForeignName`. -/
theorem getPairDataLoop_groups :
    ∀ (rest : List (String × candlestickMessage)) (g : GoMap (List candlestickMessage))
      (vals : List candlestickMessage),
      (∀ e ∈ rest, e.1 = e.2.Source ++ "-" ++ e.2.ForeignName
        ∧ '-' ∉ e.2.Source.toList ∧ '-' ∉ e.2.ForeignName.toList) →
      (mapKeys g).Nodup →
      (∀ name, mapGet g name = none ↔ ∀ v ∈ vals, v.ForeignName ≠ name) →
      (∀ name group, mapGet g name = some group →
        group = vals.filter (fun v => decide (v.ForeignName = name))) →
      (g.map (fun e => e.2.length)).sum = vals.length →
      ∃ g', getPairDataLoop rest g = some g' ∧ (mapKeys g').Nodup
        ∧ (∀ name, mapGet g' name = none ↔
            ∀ v ∈ vals ++ rest.map Prod.snd, v.ForeignName ≠ name)
        ∧ (∀ name group, mapGet g' name = some group →
            group = (vals ++ rest.map Prod.snd).filter
              (fun v => decide (v.ForeignName = name)))
        ∧ (g'.map (fun e => e.2.length)).sum = (vals ++ rest.map Prod.snd).length := by
  intro rest
  induction rest with
  | nil =>
    intro g vals _ hn ha hb hc
    exact ⟨g, rfl, hn, by simpa using ha, by simpa using hb, by simpa using hc⟩
  | cons e rest ih =>
    intro g vals hrest hn ha hb hc
    obtain ⟨key, value⟩ := e
    obtain ⟨hkey, hs, hf⟩ := hrest (key, value) (List.mem_cons_self _ _)
    have hrest' : ∀ e ∈ rest, e.1 = e.2.Source ++ "-" ++ e.2.ForeignName
        ∧ '-' ∉ e.2.Source.toList ∧ '-' ∉ e.2.ForeignName.toList :=
      fun e he => hrest e (List.mem_cons_of_mem _ he)
    simp only at hkey hs hf
    have hsplit : (splitDash key)[1]? = some value.ForeignName := by
      rw [hkey]; exact splitDash_ident _ _ hs hf
    have happ : vals ++ List.map Prod.snd ((key, value) :: rest)
        = (vals ++ [value]) ++ rest.map Prod.snd := by simp
    rw [happ]
    unfold getPairDataLoop
    rw [hsplit]
    simp only []
    cases hget : mapGet g value.ForeignName with
    | none =>
      simp only []
      apply ih _ (vals ++ [value]) hrest' (nodup_mapKeys_mapSet _ _ _ hn)
      · intro name
        rw [mapGet_mapSet]
        by_cases hname : value.ForeignName = name
        · rw [if_pos hname]
          constructor
          · intro h; simp at h
          · intro h; exact absurd hname (h value (by simp))
        · rw [if_neg hname, ha name]
          constructor
          · intro h v hv
            rcases List.mem_append.1 hv with hv | hv
            · exact h v hv
            · rw [List.mem_singleton.1 hv]; exact hname
          · intro h v hv
            exact h v (by simp [hv])
      · intro name group hgroup
        rw [mapGet_mapSet] at hgroup
        by_cases hname : value.ForeignName = name
        · rw [if_pos hname] at hgroup
          simp only [Option.some.injEq] at hgroup
          have hnone : vals.filter (fun v => decide (v.ForeignName = name)) = [] := by
            rw [List.filter_eq_nil_iff]
            intro v hv
            rw [decide_eq_true_eq]
            exact hname ▸ (ha value.ForeignName).1 hget v hv
          rw [List.filter_append, hnone, ← hgroup]
          simp [hname]
        · rw [if_neg hname] at hgroup
          rw [List.filter_append, hb name group hgroup]
          simp [hname]
      · rw [sum_length_mapSet_of_none g _ _ hget, hc]
        simp
    | some old =>
      simp only []
      apply ih _ (vals ++ [value]) hrest' (nodup_mapKeys_mapSet _ _ _ hn)
      · intro name
        rw [mapGet_mapSet]
        by_cases hname : value.ForeignName = name
        · rw [if_pos hname]
          constructor
          · intro h; simp at h
          · intro h; exact absurd hname (h value (by simp))
        · rw [if_neg hname, ha name]
          constructor
          · intro h v hv
            rcases List.mem_append.1 hv with hv | hv
            · exact h v hv
            · rw [List.mem_singleton.1 hv]; exact hname
          · intro h v hv
            exact h v (by simp [hv])
      · intro name group hgroup
        rw [mapGet_mapSet] at hgroup
        by_cases hname : value.ForeignName = name
        · rw [if_pos hname] at hgroup
          simp only [Option.some.injEq] at hgroup
          rw [List.filter_append, ← hgroup, hb _ old hget, hname]
          simp [hname]
        · rw [if_neg hname] at hgroup
          rw [List.filter_append, hb name group hgroup]
          simp [hname]
      · have := sum_length_mapSet_of_some g value.ForeignName old (old ++ [value]) hget
        simp only [List.length_append, List.length_singleton] at this ⊢
        omega


/-- C17 fails on the code: `scrapeBinance` passes the symbol of the venue through as
`ForeignName`, so a frame with the symbol `"BTC-USDT"` gives an observation of Binance with
that `ForeignName`. The drain keys it by its identity `"Binance-BTC-USDT"`, and `getPairData`
puts it in the group keyed `"BTC"`, the second piece of the key: there is no group keyed by
its `ForeignName`, the key `makeVWAP` expects. -/
theorem getPairData_foreignName_with_dash :
    (∀ (ParseFloat : String → ℚ × GoError) (now : Int),
      (binanceObservation ParseFloat now
        [("data", JSONValue.object
          [("E", JSONValue.number 0),
            ("k", JSONValue.object
              [("c", JSONValue.string "101"), ("V", JSONValue.string "1"),
                ("s", JSONValue.string "BTC-USDT")])])]).map
          (fun m => (m.Source, m.ForeignName)) = some ("Binance", "BTC-USDT"))
    ∧ (getRecentDataFromChannel
        [⟨"BTC-USDT", 101, 1, 0, 0, "Binance"⟩,
          ⟨"BTC-USDT", 102, 1, 120 * second, 121 * second, "Binance"⟩] (60 * second)).1
      = [("Binance-BTC-USDT", ⟨"BTC-USDT", 101, 1, 0, 0, "Binance"⟩)]
    ∧ getPairData [("Binance-BTC-USDT", ⟨"BTC-USDT", 101, 1, 0, 0, "Binance"⟩)]
      = some [("BTC", [⟨"BTC-USDT", 101, 1, 0, 0, "Binance"⟩])]
    ∧ mapGet [("BTC", [(⟨"BTC-USDT", 101, 1, 0, 0, "Binance"⟩ : candlestickMessage)])]
        "BTC-USDT" = none := by
  refine ⟨?_, by decide, by decide, by decide⟩
  intro ParseFloat now
  rfl

/-- Where no `Source` and no `ForeignName` holds a `"-"`: for a map in which each key equals
`Source + "-" + ForeignName` of its value, `getPairData` returns a map with distinct keys
in which every observation is in the group keyed by its `ForeignName`, each group is the list
of all observations of the map with that `ForeignName`, and the sizes of the groups add up
to the number of observations. -/
theorem getPairData_groups_by_foreignName (candleData : GoMap candlestickMessage)
    (hkeys : ∀ e ∈ candleData, e.1 = e.2.Source ++ "-" ++ e.2.ForeignName)
    (hdash : ∀ e ∈ candleData, '-' ∉ e.2.Source.toList ∧ '-' ∉ e.2.ForeignName.toList) :
    ∃ pairData, getPairData candleData = some pairData
      ∧ (mapKeys pairData).Nodup
      ∧ (∀ e ∈ candleData, ∃ group,
          mapGet pairData e.2.ForeignName = some group ∧ e.2 ∈ group)
      ∧ (∀ name group, mapGet pairData name = some group →
          group = (candleData.map Prod.snd).filter (fun v => decide (v.ForeignName = name)))
      ∧ (pairData.map (fun e => e.2.length)).sum = candleData.length := by
  obtain ⟨g, hg, hn, ha, hb, hc⟩ := getPairDataLoop_groups candleData [] []
    (fun e he => ⟨hkeys e he, hdash e he⟩) (by simp [mapKeys])
    (by intro name; simp [mapGet_nil]) (by intro name group h; simp [mapGet_nil] at h)
    (by simp)
  simp only [List.nil_append] at ha hb hc
  refine ⟨g, hg, hn, ?_, hb, by simpa using hc⟩
  intro e he
  have hmem : e.2 ∈ candleData.map Prod.snd := List.mem_map.2 ⟨e, he, rfl⟩
  cases hget : mapGet g e.2.ForeignName with
  | none => exact absurd rfl ((ha e.2.ForeignName).1 hget e.2 hmem)
  | some group =>
    refine ⟨group, rfl, ?_⟩
    rw [hb _ group hget]
    exact List.mem_filter.2 ⟨hmem, by simp⟩

/-! ## The result map of `makeVWAP` -/

/-- The loop of `makeVWAP` never takes an error branch, and the keys of the map it returns are
the keys it started with and the keys of the entries it visited. -/
theorem makeVWAPLoop_keys (threshold : ℚ) :
    ∀ (rest : List (String × List candlestickMessage)) (vwapMap : GoMap ℚ),
      (makeVWAPLoop threshold rest vwapMap).2 = none
      ∧ ∀ k, k ∈ mapKeys (makeVWAPLoop threshold rest vwapMap).1
          ↔ k ∈ mapKeys vwapMap ∨ k ∈ mapKeys rest := by
  intro rest
  induction rest with
  | nil =>
    intro vwapMap
    simp [makeVWAPLoop, mapKeys]
  | cons e rest ih =>
    intro vwapMap
    obtain ⟨key, value⟩ := e
    rw [makeVWAPLoop_cons]
    obtain ⟨h1, h2⟩ := ih (mapSet vwapMap key
      (vwap (discardOutliers (getPrices value) (getVolumes value) threshold).1
        (discardOutliers (getPrices value) (getVolumes value) threshold).2.1).1)
    refine ⟨h1, ?_⟩
    intro k
    rw [h2 k, mem_mapKeys_mapSet]
    simp only [mapKeys, List.map_cons, List.mem_cons]
    tauto

/-- C28: for every `pairData` and threshold `makeVWAP` returns a nil error and a map with the
keys of `pairData`; for every asset the slices of `getPrices` and `getVolumes` have the same
length, `discardOutliers` returns a nil error and slices of the same length, and `vwap`
returns a nil error on them, so neither length-mismatch branch is reached. -/
theorem makeVWAP_nil_error_same_keys (pairData : GoMap (List candlestickMessage))
    (threshold : ℚ) :
    (makeVWAP pairData threshold).2 = none
    ∧ (∀ k, k ∈ mapKeys (makeVWAP pairData threshold).1 ↔ k ∈ mapKeys pairData)
    ∧ ∀ value : List candlestickMessage,
        (getPrices value).length = (getVolumes value).length
        ∧ (discardOutliers (getPrices value) (getVolumes value) threshold).2.2 = none
        ∧ (discardOutliers (getPrices value) (getVolumes value) threshold).1.length
            = (discardOutliers (getPrices value) (getVolumes value) threshold).2.1.length
        ∧ (vwap (discardOutliers (getPrices value) (getVolumes value) threshold).1
            (discardOutliers (getPrices value) (getVolumes value) threshold).2.1).2 = none := by
  obtain ⟨h1, h2⟩ := makeVWAPLoop_keys threshold pairData []
  refine ⟨h1, ?_, ?_⟩
  · intro k
    unfold makeVWAP
    rw [h2 k]
    simp [mapKeys]
  · intro value
    have hl := length_getPrices_getVolumes value
    have hk := discardOutliers_lengths (getPrices value) (getVolumes value) threshold
    refine ⟨hl, ?_, hk, ?_⟩
    · rw [discardOutliers_eq _ _ threshold hl]
    · rw [vwap_eq _ _ hk]
      split_ifs <;> rfl

/-! ## The VWAP lies among the kept prices -/

/-- A sum of prices weighted by absolute volumes lies between the bounds of the prices times
the total weight. -/
theorem weighted_sum_bounds (lo hi : ℚ) :
    ∀ l : List (ℚ × ℚ), (∀ x ∈ l, lo ≤ x.1 ∧ x.1 ≤ hi) →
      lo * (l.map (fun x => |x.2|)).sum ≤ (l.map (fun x => x.1 * |x.2|)).sum
      ∧ (l.map (fun x => x.1 * |x.2|)).sum ≤ hi * (l.map (fun x => |x.2|)).sum := by
  intro l
  induction l with
  | nil => intro _; simp
  | cons x l ih =>
    intro h
    have hx := h x (List.mem_cons_self _ _)
    have ih' := ih (fun y hy => h y (List.mem_cons_of_mem _ hy))
    have hv : 0 ≤ |x.2| := abs_nonneg _
    simp only [List.map_cons, List.sum_cons]
    constructor
    · nlinarith [mul_le_mul_of_nonneg_right hx.1 hv]
    · nlinarith [mul_le_mul_of_nonneg_right hx.2 hv]

/-- With strict bounds on the prices and positive total weight the bounds on the weighted sum
are strict. -/
theorem weighted_sum_strict_bounds (lo hi : ℚ) :
    ∀ l : List (ℚ × ℚ), (∀ x ∈ l, lo < x.1 ∧ x.1 < hi) →
      0 < (l.map (fun x => |x.2|)).sum →
      lo * (l.map (fun x => |x.2|)).sum < (l.map (fun x => x.1 * |x.2|)).sum
      ∧ (l.map (fun x => x.1 * |x.2|)).sum < hi * (l.map (fun x => |x.2|)).sum := by
  intro l
  induction l with
  | nil => intro _ h; simp at h
  | cons x l ih =>
    intro h hpos
    have hx := h x (List.mem_cons_self _ _)
    have hl : ∀ y ∈ l, lo < y.1 ∧ y.1 < hi := fun y hy => h y (List.mem_cons_of_mem _ hy)
    have hweak := weighted_sum_bounds lo hi l (fun y hy => ⟨le_of_lt (hl y hy).1,
      le_of_lt (hl y hy).2⟩)
    have hv : 0 ≤ |x.2| := abs_nonneg _
    simp only [List.map_cons, List.sum_cons] at hpos ⊢
    rcases lt_or_eq_of_le hv with hv' | hv'
    · constructor
      · nlinarith [mul_lt_mul_of_pos_right hx.1 hv', hweak.1]
      · nlinarith [mul_lt_mul_of_pos_right hx.2 hv', hweak.2]
    · rw [← hv'] at hpos ⊢
      have ih' := ih hl (by simpa using hpos)
      constructor
      · nlinarith [ih'.1]
      · nlinarith [ih'.2]


/-- C27: for an asset of `pairData` whose kept volumes have positive total absolute value,
the VWAP `makeVWAP` returns with threshold `bp` deviates from the median `m` of the asset's
input prices by strictly less than `0.0001 * bp * m`, and it lies between every lower and
upper bound of the kept prices, so between the smallest and the largest of them. -/
theorem makeVWAP_within_threshold (pairData : GoMap (List candlestickMessage))
    (key : String) (observations : List candlestickMessage) (bp : ℚ)
    (hn : (mapKeys pairData).Nodup) (hmem : (key, observations) ∈ pairData)
    (hvol : 0 < ((discardOutliers (getPrices observations) (getVolumes observations)
      bp).2.1.map (fun v => |v|)).sum) :
    ∃ x, mapGet (makeVWAP pairData bp).1 key = some x
      ∧ |x - (computeMedian (getPrices observations)).1|
          < 0.0001 * bp * (computeMedian (getPrices observations)).1
      ∧ ∀ lo hi : ℚ,
          (∀ p ∈ (discardOutliers (getPrices observations) (getVolumes observations) bp).1,
            lo ≤ p ∧ p ≤ hi) →
          lo ≤ x ∧ x ≤ hi := by
  refine ⟨_, mapGet_makeVWAP pairData bp hn key observations hmem, ?_⟩
  have hl := length_getPrices_getVolumes observations
  have hd := discardOutliers_eq (getPrices observations) (getVolumes observations) bp hl
  have ht : bp * (1 / 10000 : ℚ) * (computeMedian (getPrices observations)).1
      = 0.0001 * bp * (computeMedian (getPrices observations)).1 := by
    rw [show (0.0001 : ℚ) = 1 / 10000 by norm_num]; ring
  rw [ht] at hd
  generalize hF : ((sortFloat64s (getPrices observations)).zip (getVolumes observations)).filter
    (fun x => decide (|x.1 - (computeMedian (getPrices observations)).1|
      < 0.0001 * bp * (computeMedian (getPrices observations)).1)) = F at hd
  rw [hd] at hvol ⊢
  simp only [] at hvol ⊢
  have hden : (List.map (fun v => |v|) (F.map Prod.snd)).sum
      = (F.map (fun x => |x.2|)).sum := by
    rw [List.map_map]; rfl
  have hzip : (F.map Prod.fst).zip (F.map Prod.snd) = F :=
    (List.zip_of_prod rfl rfl).symm
  rw [hden] at hvol
  rw [vwap_eq _ _ (by simp), hden, hzip, if_pos hvol]
  simp only []
  have hin : ∀ x ∈ F, |x.1 - (computeMedian (getPrices observations)).1|
      < 0.0001 * bp * (computeMedian (getPrices observations)).1 := by
    intro x hx
    rw [← hF] at hx
    simpa using (List.mem_filter.1 hx).2
  constructor
  · have hstrict := weighted_sum_strict_bounds
      ((computeMedian (getPrices observations)).1
        - 0.0001 * bp * (computeMedian (getPrices observations)).1)
      ((computeMedian (getPrices observations)).1
        + 0.0001 * bp * (computeMedian (getPrices observations)).1) F
      (fun x hx => by
        have := abs_lt.1 (hin x hx)
        constructor <;> linarith [this.1, this.2]) hvol
    rw [abs_lt]
    constructor
    · rw [lt_sub_iff_add_lt, lt_div_iff₀ hvol]
      linarith [hstrict.1]
    · rw [sub_lt_iff_lt_add, div_lt_iff₀ hvol]
      linarith [hstrict.2]
  · intro lo hi hb
    have hweak := weighted_sum_bounds lo hi F
      (fun x hx => hb x.1 (List.mem_map.2 ⟨x, hx, rfl⟩))
    constructor
    · rw [le_div_iff₀ hvol]; exact hweak.1
    · rw [div_le_iff₀ hvol]; exact hweak.2

theorem makeVWAP_within_threshold_witness :
    ∃ x, mapGet (makeVWAP
          [("BTCUSDT", [⟨"BTCUSDT", 1001, 10, 0, 0, "Binance"⟩,
            ⟨"BTCUSDT", 1000, 20, 0, 0, "Kucoin"⟩])] 30).1 "BTCUSDT" = some x
      ∧ |x - (computeMedian (getPrices [⟨"BTCUSDT", 1001, 10, 0, 0, "Binance"⟩,
            ⟨"BTCUSDT", 1000, 20, 0, 0, "Kucoin"⟩])).1|
          < 0.0001 * 30 * (computeMedian (getPrices [⟨"BTCUSDT", 1001, 10, 0, 0, "Binance"⟩,
            ⟨"BTCUSDT", 1000, 20, 0, 0, "Kucoin"⟩])).1
      ∧ ∀ lo hi : ℚ,
          (∀ p ∈ (discardOutliers (getPrices [⟨"BTCUSDT", 1001, 10, 0, 0, "Binance"⟩,
              ⟨"BTCUSDT", 1000, 20, 0, 0, "Kucoin"⟩])
            (getVolumes [⟨"BTCUSDT", 1001, 10, 0, 0, "Binance"⟩,
              ⟨"BTCUSDT", 1000, 20, 0, 0, "Kucoin"⟩]) 30).1, lo ≤ p ∧ p ≤ hi) →
          lo ≤ x ∧ x ≤ hi :=
  makeVWAP_within_threshold
    [("BTCUSDT", [⟨"BTCUSDT", 1001, 10, 0, 0, "Binance"⟩,
      ⟨"BTCUSDT", 1000, 20, 0, 0, "Kucoin"⟩])]
    "BTCUSDT" [⟨"BTCUSDT", 1001, 10, 0, 0, "Binance"⟩, ⟨"BTCUSDT", 1000, 20, 0, 0, "Kucoin"⟩] 30
    (by simp [mapKeys]) (by simp)
    (by norm_num [getPrices, getVolumes, discardOutliers, computeMedian, sortFloat64s,
      discardStep, List.range, List.range.loop, abs_lt])


/-! ## Identities -/

/-- Two lists cut at a separator that neither head part holds agree part by part. -/
theorem append_sep_inj (sep : Char) :
    ∀ (a c b d : List Char), sep ∉ a → sep ∉ c → a ++ sep :: b = c ++ sep :: d →
      a = c ∧ b = d := by
  intro a
  induction a with
  | nil =>
    intro c b d _ hc h
    cases c with
    | nil => simpa using h
    | cons y c =>
      simp only [List.nil_append, List.cons_append, List.cons.injEq] at h
      exact absurd (h.1 ▸ List.mem_cons_self _ _) hc
  | cons x a ih =>
    intro c b d ha hc h
    cases c with
    | nil =>
      simp only [List.nil_append, List.cons_append, List.cons.injEq] at h
      exact absurd (h.1 ▸ List.mem_cons_self _ _) ha
    | cons y c =>
      simp only [List.cons_append, List.cons.injEq] at h
      obtain ⟨h1, h2⟩ := ih c b d (fun hm => ha (List.mem_cons_of_mem _ hm))
        (fun hm => hc (List.mem_cons_of_mem _ hm)) h.2
      exact ⟨by rw [h.1, h1], h2⟩

/-- The characters of an identity. -/
theorem toList_getCandleStickMessageIdent (m : candlestickMessage) :
    (getCandleStickMessageIdent m).toList = m.Source.toList ++ '-' :: m.ForeignName.toList := by
  show (m.Source ++ "-" ++ m.ForeignName).data = m.Source.data ++ '-' :: m.ForeignName.data
  simp [String.data_append]

/-- C30: for observations whose `Source` holds no `"-"`, the identities are equal exactly
when the sources are equal and the foreign names are equal; so the observation the drain
holds under the identity of an observation has the same source and the same foreign name. -/
theorem getCandleStickMessageIdent_eq_iff (m1 m2 : candlestickMessage)
    (h1 : '-' ∉ m1.Source.toList) (h2 : '-' ∉ m2.Source.toList) :
    (getCandleStickMessageIdent m1 = getCandleStickMessageIdent m2
      ↔ m1.Source = m2.Source ∧ m1.ForeignName = m2.ForeignName)
    ∧ ∀ (l : List candlestickMessage) (endtime : Int),
        mapGet (getRecentDataFromChannel l endtime).1 (getCandleStickMessageIdent m1) = some m2 →
        m2.Source = m1.Source ∧ m2.ForeignName = m1.ForeignName := by
  have hiff : getCandleStickMessageIdent m1 = getCandleStickMessageIdent m2
      ↔ m1.Source = m2.Source ∧ m1.ForeignName = m2.ForeignName := by
    constructor
    · intro h
      have hl := congrArg String.toList h
      rw [toList_getCandleStickMessageIdent, toList_getCandleStickMessageIdent] at hl
      obtain ⟨ha, hb⟩ := append_sep_inj '-' _ _ _ _ h1 h2 hl
      exact ⟨String.ext ha, String.ext hb⟩
    · rintro ⟨hs, hf⟩
      unfold getCandleStickMessageIdent
      rw [hs, hf]
  refine ⟨hiff, ?_⟩
  intro l endtime hget
  have hk := (mapGet_getRecentDataFromChannel_max l endtime _ m2 hget).2.1
  have := hiff.1 hk.symm
  exact ⟨this.1.symm, this.2.symm⟩

theorem getCandleStickMessageIdent_eq_iff_witness :
    (getCandleStickMessageIdent ⟨"BTCUSDT", 100, 1, 0, 0, "Binance"⟩
        = getCandleStickMessageIdent ⟨"BTCUSDT", 101, 2, 60, 61, "Binance"⟩
      ↔ "Binance" = "Binance" ∧ "BTCUSDT" = "BTCUSDT") :=
  (getCandleStickMessageIdent_eq_iff ⟨"BTCUSDT", 100, 1, 0, 0, "Binance"⟩
    ⟨"BTCUSDT", 101, 2, 60, 61, "Binance"⟩ (by decide) (by decide)).1


/-! ## Foreign names of the adapters -/

/-- A property of all upper-case letters and digits can be checked on the 36 of them. -/
theorem forall_upper_or_digit (P : Char → Prop)
    (h : ∀ c ∈ "ABCDEFGHIJKLMNOPQRSTUVWXYZ0123456789".toList, P c)
    (c : Char) (hc : c.isUpper = true ∨ c.isDigit = true) : P c := by
  apply h
  have hn : c = Char.ofNat c.toNat := (Char.ofNat_toNat c).symm
  rcases hc with hc | hc
  · simp only [Char.isUpper, Bool.and_eq_true, decide_eq_true_eq, ge_iff_le] at hc
    have h1 : 65 ≤ c.toNat := by
      have := hc.1
      rw [UInt32.le_def] at this
      simpa using this
    have h2 : c.toNat ≤ 90 := by
      have := hc.2
      rw [UInt32.le_def] at this
      simpa using this
    rw [hn]
    generalize c.toNat = n at h1 h2
    interval_cases n <;> decide
  · simp only [Char.isDigit, Bool.and_eq_true, decide_eq_true_eq, ge_iff_le] at hc
    have h1 : 48 ≤ c.toNat := by
      have := hc.1
      rw [UInt32.le_def] at this
      simpa using this
    have h2 : c.toNat ≤ 57 := by
      have := hc.2
      rw [UInt32.le_def] at this
      simpa using this
    rw [hn]
    generalize c.toNat = n at h1 h2
    interval_cases n <;> decide

/-- The first piece of a split is the part before the first separator. -/
theorem splitOn_first_piece (sep : Char) (a c : List Char) (ha : sep ∉ a) :
    ((a ++ sep :: c).splitOn sep)[0]? = some a := by
  have h1 : (a ++ sep :: c).splitOn sep = a :: c.splitOn sep := by
    apply List.splitOnP_first
    · intro x hx hxe
      have : x = sep := by simpa using hxe
      exact ha (this ▸ hx)
    · simp
  rw [h1]
  simp

/-- The second piece of a split is the part between the first two separators. -/
theorem splitOn_second_piece (sep : Char) (a b c : List Char) (ha : sep ∉ a) (hb : sep ∉ b) :
    ((a ++ sep :: (b ++ sep :: c)).splitOn sep)[1]? = some b := by
  have h1 : (a ++ sep :: (b ++ sep :: c)).splitOn sep
      = a :: (b ++ sep :: c).splitOn sep := by
    apply List.splitOnP_first
    · intro x hx hxe
      have : x = sep := by simpa using hxe
      exact ha (this ▸ hx)
    · simp
  have h2 : (b ++ sep :: c).splitOn sep = b :: c.splitOn sep := by
    apply List.splitOnP_first
    · intro x hx hxe
      have : x = sep := by simpa using hxe
      exact hb (this ▸ hx)
    · simp
  rw [h1, h2]
  simp

/-- Lower-casing and then upper-casing a string of upper-case letters and digits gives the
string back. -/
theorem map_toUpper_map_toLower (l : List Char)
    (hl : ∀ c ∈ l, c.isUpper = true ∨ c.isDigit = true) :
    (l.map Char.toLower).map Char.toUpper = l := by
  rw [List.map_map]
  conv_rhs => rw [← List.map_id l]
  apply List.map_congr_left
  intro c hc
  exact forall_upper_or_digit (fun c => (Char.toUpper ∘ Char.toLower) c = id c)
    (by decide) c (hl c hc)

/-- The loop of `getPairData` on observations that all have the same dash-free
`ForeignName`, from dash-free sources: they end up in the one group of that name. -/
theorem getPairDataLoop_one_group (name : String) (hname : '-' ∉ name.toList) :
    ∀ (rest : List (String × candlestickMessage)) (group : List candlestickMessage),
      (∀ e ∈ rest, e.1 = getCandleStickMessageIdent e.2 ∧ e.2.ForeignName = name
        ∧ '-' ∉ e.2.Source.toList) →
      getPairDataLoop rest [(name, group)] = some [(name, group ++ rest.map Prod.snd)] := by
  intro rest
  induction rest with
  | nil => intro group _; simp [getPairDataLoop]
  | cons e rest ih =>
    intro group h
    obtain ⟨key, value⟩ := e
    obtain ⟨hkey, hfn, hs⟩ := h (key, value) (List.mem_cons_self _ _)
    simp only at hkey hfn hs
    have hsplit : (splitDash key)[1]? = some name := by
      rw [hkey, ← hfn]
      exact splitDash_ident _ _ hs (hfn ▸ hname)
    unfold getPairDataLoop
    rw [hsplit]
    simp only [mapGet_cons, if_true, mapSet]
    rw [ih (group ++ [value]) (fun e he => h e (List.mem_cons_of_mem _ he))]
    simp


/-- C26: for an asset symbol `A` of upper-case letters and digits every adapter derives the
`ForeignName` `A + "USDT"`: Kucoin and OKEx from `A + "-USDT"`, GateIO from
`"1m_" + A' + "_USD"` for any `A'` whose upper-casing is `A`, and Huobi from the channel
`"market." + lower(A) + "usdt.kline.1min"`; and `getPairData` puts observations with that
`ForeignName`, keyed by their identities, in one group. -/
theorem adapters_foreignName (A : String)
    (hA : ∀ c ∈ A.toList, c.isUpper = true ∨ c.isDigit = true) :
    kucoinForeignName (A ++ "-USDT") = some (A ++ "USDT")
    ∧ okexForeignName (A ++ "-USDT") = some (A ++ "USDT")
    ∧ (∀ A' : String, stringsToUpper A' = A →
        gateioForeignName ("1m_" ++ A' ++ "_USD") = some (A ++ "USDT"))
    ∧ huobiForeignName ("market." ++ stringsToLower A ++ "usdt.kline.1min")
        = some (A ++ "USDT")
    ∧ ∀ candleData : GoMap candlestickMessage, candleData ≠ [] →
        (∀ e ∈ candleData, e.1 = getCandleStickMessageIdent e.2
          ∧ e.2.ForeignName = A ++ "USDT" ∧ '-' ∉ e.2.Source.toList) →
        getPairData candleData = some [(A ++ "USDT", candleData.map Prod.snd)] := by
  have hsep : ∀ c ∈ A.toList, c ≠ '-' ∧ c ≠ '_' ∧ c ≠ '.' ∧ c.toLower ≠ '.' :=
    fun c hc => forall_upper_or_digit
      (fun c => c ≠ '-' ∧ c ≠ '_' ∧ c ≠ '.' ∧ c.toLower ≠ '.') (by decide) c (hA c hc)
  have hdash : '-' ∉ A.toList := fun h => (hsep _ h).1 rfl
  have hunder : '_' ∉ A.toList := fun h => (hsep _ h).2.1 rfl
  have hk : (stringsSplit (A ++ "-USDT") '-')[0]? = some A := by
    have hdata : (A ++ "-USDT").toList = A.toList ++ '-' :: "USDT".toList := by
      show (A ++ "-USDT").data = A.data ++ '-' :: "USDT".data
      rw [String.data_append]
    unfold stringsSplit
    rw [hdata, List.getElem?_map, splitOn_first_piece '-' _ _ hdash]
    rfl
  refine ⟨?_, ?_, ?_, ?_, ?_⟩
  · unfold kucoinForeignName
    rw [hk]
  · unfold okexForeignName
    rw [hk]
  · intro A' hA'
    have hlist : A'.toList.map Char.toUpper = A.toList := by
      rw [← hA']; rfl
    have hunder' : '_' ∉ A'.toList := by
      intro h
      apply hunder
      rw [← hlist]
      exact List.mem_map.2 ⟨'_', h, by decide⟩
    have hdata : ("1m_" ++ A' ++ "_USD").toList
        = "1m".toList ++ '_' :: (A'.toList ++ '_' :: "USD".toList) := by
      show ("1m_" ++ A' ++ "_USD").data = "1m".data ++ '_' :: (A'.data ++ '_' :: "USD".data)
      rw [String.data_append, String.data_append]
      simp
    unfold gateioForeignName stringsSplit
    rw [hdata, List.getElem?_map, splitOn_second_piece '_' _ _ _ (by decide) hunder']
    simp only [Option.map_some']
    rw [show stringsToUpper (String.mk A'.toList) = A from hA']
  · have hl : (stringsToLower A).toList = A.toList.map Char.toLower := rfl
    have hdot : '.' ∉ (stringsToLower A).toList ++ "usdt".toList := by
      intro h
      rcases List.mem_append.1 h with h | h
      · rw [hl] at h
        obtain ⟨c, hc, hce⟩ := List.mem_map.1 h
        exact (hsep c hc).2.2.2 hce
      · revert h; decide
    have hdata : ("market." ++ stringsToLower A ++ "usdt.kline.1min").toList
        = "market".toList ++ '.' :: (((stringsToLower A).toList ++ "usdt".toList)
            ++ '.' :: "kline.1min".toList) := by
      show ("market." ++ stringsToLower A ++ "usdt.kline.1min").data
        = "market".data ++ '.' :: (((stringsToLower A).data ++ "usdt".data)
            ++ '.' :: "kline.1min".data)
      rw [String.data_append, String.data_append]
      simp
    unfold huobiForeignName stringsSplit
    rw [hdata, List.getElem?_map, splitOn_second_piece '.' _ _ _ (by decide) hdot]
    simp only [Option.map_some']
    apply congrArg some
    apply String.ext
    show ((stringsToLower A).toList ++ "usdt".toList).map Char.toUpper = (A ++ "USDT").data
    rw [List.map_append, hl, map_toUpper_map_toLower _ hA, String.data_append]
    rfl
  · intro candleData hne h
    have hname : '-' ∉ (A ++ "USDT").toList := by
      intro hm
      have : (A ++ "USDT").toList = A.toList ++ "USDT".toList := String.data_append _ _
      rw [this] at hm
      rcases List.mem_append.1 hm with hm | hm
      · exact hdash hm
      · revert hm; decide
    cases candleData with
    | nil => exact absurd rfl hne
    | cons e rest =>
      obtain ⟨key, value⟩ := e
      obtain ⟨hkey, hfn, hs⟩ := h (key, value) (List.mem_cons_self _ _)
      simp only at hkey hfn hs
      have hsplit : (splitDash key)[1]? = some (A ++ "USDT") := by
        rw [hkey, ← hfn]
        exact splitDash_ident _ _ hs (hfn ▸ hname)
      unfold getPairData getPairDataLoop
      rw [hsplit]
      simp only [mapGet_nil, mapSet]
      rw [getPairDataLoop_one_group _ hname rest [value]
        (fun e he => h e (List.mem_cons_of_mem _ he))]
      simp

theorem adapters_foreignName_witness :
    kucoinForeignName ("BTC" ++ "-USDT") = some ("BTC" ++ "USDT")
    ∧ okexForeignName ("BTC" ++ "-USDT") = some ("BTC" ++ "USDT")
    ∧ gateioForeignName ("1m_" ++ "Btc" ++ "_USD") = some ("BTC" ++ "USDT")
    ∧ huobiForeignName ("market." ++ stringsToLower "BTC" ++ "usdt.kline.1min")
        = some ("BTC" ++ "USDT") :=
  have h := adapters_foreignName "BTC" (by decide)
  ⟨h.1, h.2.1, h.2.2.1 "Btc" (by decide), h.2.2.2.1⟩


/-! ## Decoding of received messages -/

/-- C24 fails on the code: on the message `{}`, which `json.Unmarshal` decodes into an empty
map, the read loop of `scrapeBinance` panics at the type assertion on `messageMap["data"]`;
on the message `{"ch":"candles/M1"}`, which is neither a status message nor a snapshot, the
read loop of `scrapeHitbtc` panics at the type assertion on `messageMap["update"]`. -/
theorem adapters_panic_on_unexpected_shape (ParseFloat : String → ℚ × GoError) (now : Int) :
    binanceDecode ParseFloat now [] = DecodeOutcome.panic
    ∧ hitbtcDecode ParseFloat now ([("ch", JSONValue.string "candles/M1")], none)
        = DecodeOutcome.panic := by
  constructor
  · rfl
  · rfl

end Candlestick

namespace UniswapV2Scraper

/-! ## Swap data and emission -/

theorem swapIfNoError_eq (t : Trade) :
    swapIfNoError t
      = { t with BaseToken := t.QuoteToken, QuoteToken := t.BaseToken, Price := finv t.Price } :=
  rfl

/-- The quotient by a non-zero divisor is the finite quotient. -/
theorem fdiv_of_ne_zero (a b : ℚ) (hb : b ≠ 0) : fdiv a b = Float64.finite (a / b) := by
  unfold fdiv
  rw [if_neg hb]

/-- C18: `getSwapData` returns volume `Amount0Out` and price `Amount1In / Amount0Out` when
`Amount0In == 0`, and volume `-Amount0In` and price `Amount1Out / Amount0In` otherwise, the
quotients being `float64` quotients (finite when the divisor is not zero); a swap with
`Amount0In = 0`, `Amount0Out = 5`, `Amount1In = 100` yields volume 5 and price 20. -/
theorem getSwapData_spec (swap : UniswapSwap) :
    (swap.Amount0In = 0 →
      (getSwapData swap).2 = swap.Amount0Out
      ∧ (getSwapData swap).1 = fdiv swap.Amount1In swap.Amount0Out
      ∧ (swap.Amount0Out ≠ 0 →
          (getSwapData swap).1 = Float64.finite (swap.Amount1In / swap.Amount0Out)))
    ∧ (swap.Amount0In ≠ 0 →
      (getSwapData swap).2 = -swap.Amount0In
      ∧ (getSwapData swap).1 = fdiv swap.Amount1Out swap.Amount0In
      ∧ (getSwapData swap).1 = Float64.finite (swap.Amount1Out / swap.Amount0In))
    ∧ (swap.Amount0In = 0 → swap.Amount0Out = 5 → swap.Amount1In = 100 →
      getSwapData swap = (Float64.finite 20, 5)) := by
  refine ⟨?_, ?_, ?_⟩
  · intro h
    unfold getSwapData
    rw [if_pos h]
    exact ⟨rfl, rfl, fun hne => fdiv_of_ne_zero _ _ hne⟩
  · intro h
    unfold getSwapData
    rw [if_neg h]
    exact ⟨rfl, rfl, fdiv_of_ne_zero _ _ h⟩
  · intro h0 h5 h100
    unfold getSwapData
    rw [if_pos h0, h5, h100, fdiv_of_ne_zero _ _ (by norm_num)]
    norm_num

theorem getSwapData_spec_witness :
    getSwapData ⟨"0xabc", 1700000000,
        ⟨⟨"0x0000000000000000000000000000000000000000", "ETH", 18, "Ether"⟩,
          ⟨"0x6B175474E89094C44Da98b954EedeAC495271d0F", "DAI", 18, "Dai"⟩, "ETH-DAI",
          "0xA478c2975Ab1Ea89e8196811F51A7B7Ade33eB11"⟩, 0, 5, 100, 0⟩
      = (Float64.finite 20, 5) :=
  (getSwapData_spec ⟨"0xabc", 1700000000,
      ⟨⟨"0x0000000000000000000000000000000000000000", "ETH", 18, "Ether"⟩,
        ⟨"0x6B175474E89094C44Da98b954EedeAC495271d0F", "DAI", 18, "Dai"⟩, "ETH-DAI",
        "0xA478c2975Ab1Ea89e8196811F51A7B7Ade33eB11"⟩, 0, 5, 100, 0⟩).2.2 rfl rfl rfl

/-- C19: for every swap the consumer task handles, exactly one trade is sent on the trades
channel when the price `getSwapData` derives is strictly positive, and none otherwise; for a
finite price `q` one trade is sent exactly when `0 < q`. -/
theorem ListenToPairByIndexSwap_sends_iff_positive
    (exchangeName blockchain UniswapExchange SushiSwapExchange : String)
    (reversePairs : List String) (pair : UniswapPair) (swap : UniswapSwap) :
    ((getSwapData swap).1.isPos = true →
      ∃ t, ListenToPairByIndexSwap exchangeName blockchain UniswapExchange SushiSwapExchange
        reversePairs pair swap = [t])
    ∧ ((getSwapData swap).1.isPos = false →
      ListenToPairByIndexSwap exchangeName blockchain UniswapExchange SushiSwapExchange
        reversePairs pair swap = [])
    ∧ ∀ q : ℚ, (getSwapData swap).1 = Float64.finite q →
      ((ListenToPairByIndexSwap exchangeName blockchain UniswapExchange SushiSwapExchange
        reversePairs pair swap).length = 1 ↔ 0 < q) := by
  refine ⟨?_, ?_, ?_⟩
  · intro h
    unfold ListenToPairByIndexSwap
    simp only [h, if_true]
    exact ⟨_, rfl⟩
  · intro h
    unfold ListenToPairByIndexSwap
    simp only [h]
    rfl
  · intro q hq
    unfold ListenToPairByIndexSwap
    simp only [hq, Float64.isPos]
    by_cases hpos : q > 0
    · simp [hpos]
    · simp [hpos]

theorem ListenToPairByIndexSwap_sends_iff_positive_witness :
    ∃ t, ListenToPairByIndexSwap "Uniswap" "Ethereum" "Uniswap" "SushiSwap" []
      ⟨⟨"0x0000000000000000000000000000000000000000", "ETH", 18, "Ether"⟩,
        ⟨"0x6B175474E89094C44Da98b954EedeAC495271d0F", "DAI", 18, "Dai"⟩, "ETH-DAI",
        "0xA478c2975Ab1Ea89e8196811F51A7B7Ade33eB11"⟩
      ⟨"0xabc", 1700000000,
        ⟨⟨"0x0000000000000000000000000000000000000000", "ETH", 18, "Ether"⟩,
          ⟨"0x6B175474E89094C44Da98b954EedeAC495271d0F", "DAI", 18, "Dai"⟩, "ETH-DAI",
          "0xA478c2975Ab1Ea89e8196811F51A7B7Ade33eB11"⟩, 0, 5, 100, 0⟩ = [t] :=
  (ListenToPairByIndexSwap_sends_iff_positive "Uniswap" "Ethereum" "Uniswap" "SushiSwap" []
    ⟨⟨"0x0000000000000000000000000000000000000000", "ETH", 18, "Ether"⟩,
      ⟨"0x6B175474E89094C44Da98b954EedeAC495271d0F", "DAI", 18, "Dai"⟩, "ETH-DAI",
      "0xA478c2975Ab1Ea89e8196811F51A7B7Ade33eB11"⟩
    ⟨"0xabc", 1700000000,
      ⟨⟨"0x0000000000000000000000000000000000000000", "ETH", 18, "Ether"⟩,
        ⟨"0x6B175474E89094C44Da98b954EedeAC495271d0F", "DAI", 18, "Dai"⟩, "ETH-DAI",
        "0xA478c2975Ab1Ea89e8196811F51A7B7Ade33eB11"⟩, 0, 5, 100, 0⟩).1
    (by norm_num [getSwapData, fdiv, Float64.isPos])


/-! ## Reversal of the emitted trade -/

/-- The trade sent for a swap of positive price: the raw trade after the two reversal
steps, each taken when its condition holds. -/
theorem ListenToPairByIndexSwap_of_isPos
    (exchangeName blockchain UniswapExchange SushiSwapExchange : String)
    (reversePairs : List String) (pair : UniswapPair) (swap : UniswapSwap)
    (hpos : (getSwapData swap).1.isPos = true) :
    ListenToPairByIndexSwap exchangeName blockchain UniswapExchange SushiSwapExchange
        reversePairs pair swap
      = [if (exchangeName = UniswapExchange ∨ exchangeName = SushiSwapExchange)
            ∧ pair.Token0.Address = "0x0000000000000000000000000000000000000000"
            ∧ Contains mainBaseAssets pair.Token1.Address = false then
          swapIfNoError (if Contains reversePairs pair.Token1.Address = true then
            swapIfNoError (rawTrade exchangeName blockchain pair swap)
            else rawTrade exchangeName blockchain pair swap)
        else (if Contains reversePairs pair.Token1.Address = true then
            swapIfNoError (rawTrade exchangeName blockchain pair swap)
            else rawTrade exchangeName blockchain pair swap)] := by
  unfold ListenToPairByIndexSwap
  simp only [hpos, if_true]
  by_cases hx : exchangeName = UniswapExchange ∨ exchangeName = SushiSwapExchange
  · by_cases h0 : pair.Token0.Address = "0x0000000000000000000000000000000000000000"
    · by_cases hm : Contains mainBaseAssets pair.Token1.Address = true
      · simp [hx, h0, hm]
      · simp [hx, h0, hm]
    · simp [hx, h0]
  · simp [hx]


/-- C20 as stated fails. On Uniswap the pair of DAI and WETH has DAI as Token0, the smaller
address, and `normalizeUniPair` turns it into DAI-ETH with the native sentinel as Token1. It
is a native-asset pair whose counter-asset DAI is not a main base asset, yet with an empty
reverse list the trade sent for a swap of positive price is the raw trade: the code tests
Token0 only. And for the pair ETH-ZRX (WETH has the smaller address; ZRX is not a main base
asset) with ZRX on the reverse list both conditions hold and both reversal steps are taken,
so base and quote token of the trade sent are those of the raw trade, not exchanged. -/
theorem ListenToPairByIndexSwap_native_token1_not_reversed :
    normalizeUniPair
        ⟨⟨"0x6B175474E89094C44Da98b954EedeAC495271d0F", "DAI", 18, "Dai Stablecoin"⟩,
          ⟨"0xC02aaA39b223FE8D0A0e5C4F27eAD9083C756Cc2", "WETH", 18, "Wrapped Ether"⟩,
          "DAI-WETH", "0xA478c2975Ab1Ea89e8196811F51A7B7Ade33eB11"⟩
      = ⟨⟨"0x6B175474E89094C44Da98b954EedeAC495271d0F", "DAI", 18, "Dai Stablecoin"⟩,
          ⟨"0x0000000000000000000000000000000000000000", "ETH", 18, "Wrapped Ether"⟩,
          "DAI-ETH", "0xA478c2975Ab1Ea89e8196811F51A7B7Ade33eB11"⟩
    ∧ Contains mainBaseAssets "0x6B175474E89094C44Da98b954EedeAC495271d0F" = false
    ∧ (getSwapData ⟨"0xabc", 1700000000,
          ⟨⟨"0x6B175474E89094C44Da98b954EedeAC495271d0F", "DAI", 18, "Dai Stablecoin"⟩,
            ⟨"0x0000000000000000000000000000000000000000", "ETH", 18, "Wrapped Ether"⟩,
            "DAI-ETH", "0xA478c2975Ab1Ea89e8196811F51A7B7Ade33eB11"⟩, 0, 3200, 1, 0⟩).1.isPos
        = true
    ∧ ListenToPairByIndexSwap "Uniswap" "Ethereum" "Uniswap" "SushiSwap" []
        ⟨⟨"0x6B175474E89094C44Da98b954EedeAC495271d0F", "DAI", 18, "Dai Stablecoin"⟩,
          ⟨"0x0000000000000000000000000000000000000000", "ETH", 18, "Wrapped Ether"⟩,
          "DAI-ETH", "0xA478c2975Ab1Ea89e8196811F51A7B7Ade33eB11"⟩
        ⟨"0xabc", 1700000000,
          ⟨⟨"0x6B175474E89094C44Da98b954EedeAC495271d0F", "DAI", 18, "Dai Stablecoin"⟩,
            ⟨"0x0000000000000000000000000000000000000000", "ETH", 18, "Wrapped Ether"⟩,
            "DAI-ETH", "0xA478c2975Ab1Ea89e8196811F51A7B7Ade33eB11"⟩, 0, 3200, 1, 0⟩
      = [rawTrade "Uniswap" "Ethereum"
          ⟨⟨"0x6B175474E89094C44Da98b954EedeAC495271d0F", "DAI", 18, "Dai Stablecoin"⟩,
            ⟨"0x0000000000000000000000000000000000000000", "ETH", 18, "Wrapped Ether"⟩,
            "DAI-ETH", "0xA478c2975Ab1Ea89e8196811F51A7B7Ade33eB11"⟩
          ⟨"0xabc", 1700000000,
            ⟨⟨"0x6B175474E89094C44Da98b954EedeAC495271d0F", "DAI", 18, "Dai Stablecoin"⟩,
              ⟨"0x0000000000000000000000000000000000000000", "ETH", 18, "Wrapped Ether"⟩,
              "DAI-ETH", "0xA478c2975Ab1Ea89e8196811F51A7B7Ade33eB11"⟩, 0, 3200, 1, 0⟩]
    ∧ (ListenToPairByIndexSwap "Uniswap" "Ethereum" "Uniswap" "SushiSwap"
        ["0xE41d2489571d322189246DaFA5ebDe1F4699F498"]
        ⟨⟨"0x0000000000000000000000000000000000000000", "ETH", 18, "Wrapped Ether"⟩,
          ⟨"0xE41d2489571d322189246DaFA5ebDe1F4699F498", "ZRX", 18, "0x Protocol Token"⟩,
          "ETH-ZRX", "0xc6F348dd3B91a56D117ec0071C1e9b83C0996De4"⟩
        ⟨"0xdef", 1700000000,
          ⟨⟨"0x0000000000000000000000000000000000000000", "ETH", 18, "Wrapped Ether"⟩,
            ⟨"0xE41d2489571d322189246DaFA5ebDe1F4699F498", "ZRX", 18, "0x Protocol Token"⟩,
            "ETH-ZRX", "0xc6F348dd3B91a56D117ec0071C1e9b83C0996De4"⟩, 0, 1, 4000, 0⟩).map
          (fun t => (t.BaseToken.Symbol, t.QuoteToken.Symbol))
      = [("ZRX", "ETH")]
    ∧ ((rawTrade "Uniswap" "Ethereum"
        ⟨⟨"0x0000000000000000000000000000000000000000", "ETH", 18, "Wrapped Ether"⟩,
          ⟨"0xE41d2489571d322189246DaFA5ebDe1F4699F498", "ZRX", 18, "0x Protocol Token"⟩,
          "ETH-ZRX", "0xc6F348dd3B91a56D117ec0071C1e9b83C0996De4"⟩
        ⟨"0xdef", 1700000000,
          ⟨⟨"0x0000000000000000000000000000000000000000", "ETH", 18, "Wrapped Ether"⟩,
            ⟨"0xE41d2489571d322189246DaFA5ebDe1F4699F498", "ZRX", 18, "0x Protocol Token"⟩,
            "ETH-ZRX", "0xc6F348dd3B91a56D117ec0071C1e9b83C0996De4"⟩, 0, 1, 4000, 0⟩).BaseToken.Symbol,
        (rawTrade "Uniswap" "Ethereum"
        ⟨⟨"0x0000000000000000000000000000000000000000", "ETH", 18, "Wrapped Ether"⟩,
          ⟨"0xE41d2489571d322189246DaFA5ebDe1F4699F498", "ZRX", 18, "0x Protocol Token"⟩,
          "ETH-ZRX", "0xc6F348dd3B91a56D117ec0071C1e9b83C0996De4"⟩
        ⟨"0xdef", 1700000000,
          ⟨⟨"0x0000000000000000000000000000000000000000", "ETH", 18, "Wrapped Ether"⟩,
            ⟨"0xE41d2489571d322189246DaFA5ebDe1F4699F498", "ZRX", 18, "0x Protocol Token"⟩,
            "ETH-ZRX", "0xc6F348dd3B91a56D117ec0071C1e9b83C0996De4"⟩, 0, 1, 4000, 0⟩).QuoteToken.Symbol)
      = ("ZRX", "ETH") := by
  have hpos1 : ∀ p : UniswapPair,
      (getSwapData ⟨"0xabc", 1700000000, p, 0, 3200, 1, 0⟩).1.isPos = true := by
    intro p
    norm_num [getSwapData, fdiv, Float64.isPos]
  have hpos2 : ∀ p : UniswapPair,
      (getSwapData ⟨"0xdef", 1700000000, p, 0, 1, 4000, 0⟩).1.isPos = true := by
    intro p
    norm_num [getSwapData, fdiv, Float64.isPos]
  refine ⟨by decide, by decide, hpos1 _, ?_, ?_, rfl⟩
  · rw [ListenToPairByIndexSwap_of_isPos _ _ _ _ _ _ _ (hpos1 _)]
    have hA : Contains [] "0x0000000000000000000000000000000000000000" = false := by decide
    have h0 : ¬ ("0x6B175474E89094C44Da98b954EedeAC495271d0F"
        = "0x0000000000000000000000000000000000000000") := by decide
    simp only [hA, h0, false_and, and_false, if_false]
    simp
  · rw [ListenToPairByIndexSwap_of_isPos _ _ _ _ _ _ _ (hpos2 _)]
    have hA : Contains ["0xE41d2489571d322189246DaFA5ebDe1F4699F498"]
        "0xE41d2489571d322189246DaFA5ebDe1F4699F498" = true := by decide
    have hM : Contains mainBaseAssets "0xE41d2489571d322189246DaFA5ebDe1F4699F498" = false := by
      decide
    simp only [hA, hM, if_true, true_or, and_self]
    rfl

/-- C20, amended: for a swap of positive derived price, when exactly one of the two
conditions holds - Token1's address is on the reverse list, or the exchange is Uniswap or
SushiSwap, Token0's address is the native sentinel and Token1's address is not a main base
asset - the trade sent is the raw trade reversed once: base and quote token exchanged and the
price the reciprocal `finv` of the raw price; when neither holds the raw trade is sent
unchanged. -/
theorem ListenToPairByIndexSwap_reversal
    (exchangeName blockchain UniswapExchange SushiSwapExchange : String)
    (reversePairs : List String) (pair : UniswapPair) (swap : UniswapSwap)
    (hpos : (getSwapData swap).1.isPos = true) :
    (((Contains reversePairs pair.Token1.Address = true
          ∧ ¬ ((exchangeName = UniswapExchange ∨ exchangeName = SushiSwapExchange)
            ∧ pair.Token0.Address = "0x0000000000000000000000000000000000000000"
            ∧ Contains mainBaseAssets pair.Token1.Address = false))
        ∨ (Contains reversePairs pair.Token1.Address = false
          ∧ ((exchangeName = UniswapExchange ∨ exchangeName = SushiSwapExchange)
            ∧ pair.Token0.Address = "0x0000000000000000000000000000000000000000"
            ∧ Contains mainBaseAssets pair.Token1.Address = false))) →
      ListenToPairByIndexSwap exchangeName blockchain UniswapExchange SushiSwapExchange
          reversePairs pair swap
        = [{ rawTrade exchangeName blockchain pair swap with
              BaseToken := (rawTrade exchangeName blockchain pair swap).QuoteToken,
              QuoteToken := (rawTrade exchangeName blockchain pair swap).BaseToken,
              Price := finv (getSwapData swap).1 }])
    ∧ ((Contains reversePairs pair.Token1.Address = false
          ∧ ¬ ((exchangeName = UniswapExchange ∨ exchangeName = SushiSwapExchange)
            ∧ pair.Token0.Address = "0x0000000000000000000000000000000000000000"
            ∧ Contains mainBaseAssets pair.Token1.Address = false)) →
      ListenToPairByIndexSwap exchangeName blockchain UniswapExchange SushiSwapExchange
          reversePairs pair swap
        = [rawTrade exchangeName blockchain pair swap]) := by
  rw [ListenToPairByIndexSwap_of_isPos _ _ _ _ _ _ _ hpos]
  refine ⟨?_, ?_⟩
  · rintro (⟨hA, hB⟩ | ⟨hA, hB⟩)
    · rw [if_neg hB, if_pos hA, swapIfNoError_eq]
      rfl
    · rw [if_pos hB, if_neg (by rw [hA]; simp), swapIfNoError_eq]
      rfl
  · rintro ⟨hA, hB⟩
    rw [if_neg hB, if_neg (by rw [hA]; simp)]

theorem ListenToPairByIndexSwap_reversal_witness :
    ListenToPairByIndexSwap "Uniswap" "Ethereum" "Uniswap" "SushiSwap" []
        ⟨⟨"0x0000000000000000000000000000000000000000", "ETH", 18, "Wrapped Ether"⟩,
          ⟨"0xE41d2489571d322189246DaFA5ebDe1F4699F498", "ZRX", 18, "0x Protocol Token"⟩,
          "ETH-ZRX", "0xc6F348dd3B91a56D117ec0071C1e9b83C0996De4"⟩
        ⟨"0xdef", 1700000000,
          ⟨⟨"0x0000000000000000000000000000000000000000", "ETH", 18, "Wrapped Ether"⟩,
            ⟨"0xE41d2489571d322189246DaFA5ebDe1F4699F498", "ZRX", 18, "0x Protocol Token"⟩,
            "ETH-ZRX", "0xc6F348dd3B91a56D117ec0071C1e9b83C0996De4"⟩, 0, 1, 4096, 0⟩
      = [{ Symbol := "ETH", Pair := "ETH-ZRX", Price := Float64.finite (1 / 4096), Volume := 1,
           BaseToken := ⟨"0x0000000000000000000000000000000000000000", "ETH", "Wrapped Ether",
             18, "Ethereum"⟩,
           QuoteToken := ⟨"0xE41d2489571d322189246DaFA5ebDe1F4699F498", "ZRX",
             "0x Protocol Token", 18, "Ethereum"⟩,
           Time := 1700000000 * 1000000000, ForeignTradeID := "0xdef", Source := "Uniswap",
           VerifiedPair := true }] := by
  have hprice : (getSwapData ⟨"0xdef", 1700000000,
      ⟨⟨"0x0000000000000000000000000000000000000000", "ETH", 18, "Wrapped Ether"⟩,
        ⟨"0xE41d2489571d322189246DaFA5ebDe1F4699F498", "ZRX", 18, "0x Protocol Token"⟩,
        "ETH-ZRX", "0xc6F348dd3B91a56D117ec0071C1e9b83C0996De4"⟩, 0, 1, 4096, 0⟩).1
      = Float64.finite 4096 := by
    norm_num [getSwapData, fdiv]
  have h := ListenToPairByIndexSwap_reversal "Uniswap" "Ethereum" "Uniswap" "SushiSwap" []
    ⟨⟨"0x0000000000000000000000000000000000000000", "ETH", 18, "Wrapped Ether"⟩,
      ⟨"0xE41d2489571d322189246DaFA5ebDe1F4699F498", "ZRX", 18, "0x Protocol Token"⟩,
      "ETH-ZRX", "0xc6F348dd3B91a56D117ec0071C1e9b83C0996De4"⟩
    ⟨"0xdef", 1700000000,
      ⟨⟨"0x0000000000000000000000000000000000000000", "ETH", 18, "Wrapped Ether"⟩,
        ⟨"0xE41d2489571d322189246DaFA5ebDe1F4699F498", "ZRX", 18, "0x Protocol Token"⟩,
        "ETH-ZRX", "0xc6F348dd3B91a56D117ec0071C1e9b83C0996De4"⟩, 0, 1, 4096, 0⟩
    (by rw [hprice]; norm_num [Float64.isPos])
  rw [h.1 (Or.inr ⟨by decide, Or.inl rfl, rfl, by decide⟩), hprice]
  simp [rawTrade, getSwapData, finv, fdiv]


/-! ## The divisor of the price -/

/-- C29: the price of `getSwapData` is the quotient by `Amount0Out` when `Amount0In == 0` and
by `Amount0In` otherwise; that divisor is zero exactly when `Amount0In == 0` and
`Amount0Out == 0`, in which case the price is not finite; when one of the two is not zero
the price is the finite quotient; and for non-negative amounts the volume is negative
exactly when `Amount0In != 0`. -/
theorem getSwapData_divisor (swap : UniswapSwap) :
    (getSwapData swap).1
        = fdiv (if swap.Amount0In = 0 then swap.Amount1In else swap.Amount1Out)
            (if swap.Amount0In = 0 then swap.Amount0Out else swap.Amount0In)
    ∧ ((if swap.Amount0In = 0 then swap.Amount0Out else swap.Amount0In) = 0
        ↔ swap.Amount0In = 0 ∧ swap.Amount0Out = 0)
    ∧ (swap.Amount0In = 0 ∧ swap.Amount0Out = 0 →
        ∀ q : ℚ, (getSwapData swap).1 ≠ Float64.finite q)
    ∧ (swap.Amount0In ≠ 0 ∨ swap.Amount0Out ≠ 0 →
        (getSwapData swap).1
          = Float64.finite ((if swap.Amount0In = 0 then swap.Amount1In else swap.Amount1Out)
              / (if swap.Amount0In = 0 then swap.Amount0Out else swap.Amount0In)))
    ∧ (0 ≤ swap.Amount0In → 0 ≤ swap.Amount0Out →
        ((getSwapData swap).2 < 0 ↔ swap.Amount0In ≠ 0)) := by
  by_cases h : swap.Amount0In = 0
  · have hgs : getSwapData swap = (fdiv swap.Amount1In swap.Amount0Out, swap.Amount0Out) := by
      unfold getSwapData
      rw [if_pos h]
    rw [hgs, if_pos h, if_pos h]
    refine ⟨rfl, ⟨fun h0 => ⟨h, h0⟩, fun h0 => h0.2⟩, ?_, ?_, ?_⟩
    · rintro ⟨_, h0⟩ q
      show fdiv swap.Amount1In swap.Amount0Out ≠ Float64.finite q
      rw [h0]
      unfold fdiv
      rw [if_pos rfl]
      split_ifs <;> simp
    · intro hne
      have h0 : swap.Amount0Out ≠ 0 := by
        rcases hne with hne | hne
        · exact absurd h hne
        · exact hne
      exact fdiv_of_ne_zero _ _ h0
    · intro _ hout
      show swap.Amount0Out < 0 ↔ swap.Amount0In ≠ 0
      constructor
      · intro hlt
        exact absurd hlt (not_lt.2 hout)
      · intro hne
        exact absurd h hne
  · have hgs : getSwapData swap = (fdiv swap.Amount1Out swap.Amount0In, -swap.Amount0In) := by
      unfold getSwapData
      rw [if_neg h]
    rw [hgs, if_neg h, if_neg h]
    refine ⟨rfl, ⟨fun h0 => absurd h0 h, fun h0 => absurd h0.1 h⟩, ?_, ?_, ?_⟩
    · rintro ⟨h0, _⟩
      exact absurd h0 h
    · intro _
      exact fdiv_of_ne_zero _ _ h
    · intro hin _
      show -swap.Amount0In < 0 ↔ swap.Amount0In ≠ 0
      have hpos : 0 < swap.Amount0In := lt_of_le_of_ne hin (Ne.symm h)
      constructor
      · intro _; exact h
      · intro _; linarith

theorem getSwapData_divisor_witness :
    (getSwapData ⟨"0xabc", 1700000000,
        ⟨⟨"0x0000000000000000000000000000000000000000", "ETH", 18, "Ether"⟩,
          ⟨"0x6B175474E89094C44Da98b954EedeAC495271d0F", "DAI", 18, "Dai"⟩, "ETH-DAI",
          "0xA478c2975Ab1Ea89e8196811F51A7B7Ade33eB11"⟩, 2, 0, 0, 50⟩).1
      = Float64.finite ((if (2 : ℚ) = 0 then 0 else 50) / (if (2 : ℚ) = 0 then 0 else 2)) :=
  (getSwapData_divisor ⟨"0xabc", 1700000000,
      ⟨⟨"0x0000000000000000000000000000000000000000", "ETH", 18, "Ether"⟩,
        ⟨"0x6B175474E89094C44Da98b954EedeAC495271d0F", "DAI", 18, "Dai"⟩, "ETH-DAI",
        "0xA478c2975Ab1Ea89e8196811F51A7B7Ade33eB11"⟩, 2, 0, 0, 50⟩).2.2.2.1
    (Or.inl (by norm_num))


/-! ## Normalization and filtering of pairs -/

/-- C22: after `normalizeUniPair` each token whose address was the WETH address has the
all-zero address and the symbol `"ETH"`, no token has the WETH address, `ForeignName` is
`Token0.Symbol + "-" + Token1.Symbol` whenever a token was rewritten, a token with another
address and a pair without WETH token are unchanged, and the pool address and the decimals
and names of the tokens are unchanged. -/
theorem normalizeUniPair_spec (up : UniswapPair) :
    (up.Token0.Address = "0xC02aaA39b223FE8D0A0e5C4F27eAD9083C756Cc2" →
      (normalizeUniPair up).Token0.Address = "0x0000000000000000000000000000000000000000"
      ∧ (normalizeUniPair up).Token0.Symbol = "ETH")
    ∧ (up.Token1.Address = "0xC02aaA39b223FE8D0A0e5C4F27eAD9083C756Cc2" →
      (normalizeUniPair up).Token1.Address = "0x0000000000000000000000000000000000000000"
      ∧ (normalizeUniPair up).Token1.Symbol = "ETH")
    ∧ (normalizeUniPair up).Token0.Address ≠ "0xC02aaA39b223FE8D0A0e5C4F27eAD9083C756Cc2"
    ∧ (normalizeUniPair up).Token1.Address ≠ "0xC02aaA39b223FE8D0A0e5C4F27eAD9083C756Cc2"
    ∧ (up.Token0.Address = "0xC02aaA39b223FE8D0A0e5C4F27eAD9083C756Cc2"
        ∨ up.Token1.Address = "0xC02aaA39b223FE8D0A0e5C4F27eAD9083C756Cc2" →
      (normalizeUniPair up).ForeignName
        = (normalizeUniPair up).Token0.Symbol ++ "-" ++ (normalizeUniPair up).Token1.Symbol)
    ∧ (up.Token0.Address ≠ "0xC02aaA39b223FE8D0A0e5C4F27eAD9083C756Cc2" →
      (normalizeUniPair up).Token0 = up.Token0)
    ∧ (up.Token1.Address ≠ "0xC02aaA39b223FE8D0A0e5C4F27eAD9083C756Cc2" →
      (normalizeUniPair up).Token1 = up.Token1)
    ∧ (up.Token0.Address ≠ "0xC02aaA39b223FE8D0A0e5C4F27eAD9083C756Cc2" →
      up.Token1.Address ≠ "0xC02aaA39b223FE8D0A0e5C4F27eAD9083C756Cc2" →
      normalizeUniPair up = up)
    ∧ (normalizeUniPair up).Address = up.Address
    ∧ (normalizeUniPair up).Token0.Decimals = up.Token0.Decimals
    ∧ (normalizeUniPair up).Token0.Name = up.Token0.Name
    ∧ (normalizeUniPair up).Token1.Decimals = up.Token1.Decimals
    ∧ (normalizeUniPair up).Token1.Name = up.Token1.Name := by
  have hz : ("0x0000000000000000000000000000000000000000" : String)
      ≠ "0xC02aaA39b223FE8D0A0e5C4F27eAD9083C756Cc2" := by decide
  by_cases h0 : up.Token0.Address = "0xC02aaA39b223FE8D0A0e5C4F27eAD9083C756Cc2"
  · by_cases h1 : up.Token1.Address = "0xC02aaA39b223FE8D0A0e5C4F27eAD9083C756Cc2"
    · simp [normalizeUniPair, h0, h1, hz]
    · simp [normalizeUniPair, h0, h1, hz]
  · by_cases h1 : up.Token1.Address = "0xC02aaA39b223FE8D0A0e5C4F27eAD9083C756Cc2"
    · simp [normalizeUniPair, h0, h1, hz]
    · simp [normalizeUniPair, h0, h1, hz]

theorem normalizeUniPair_spec_witness :
    normalizeUniPair
        ⟨⟨"0x6B175474E89094C44Da98b954EedeAC495271d0F", "DAI", 18, "Dai"⟩,
          ⟨"0xC02aaA39b223FE8D0A0e5C4F27eAD9083C756Cc2", "WETH", 18, "Wrapped Ether"⟩,
          "DAI-WETH", "0xA478c2975Ab1Ea89e8196811F51A7B7Ade33eB11"⟩
      = ⟨⟨"0x6B175474E89094C44Da98b954EedeAC495271d0F", "DAI", 18, "Dai"⟩,
          ⟨"0x0000000000000000000000000000000000000000", "ETH", 18, "Wrapped Ether"⟩,
          "DAI-ETH", "0xA478c2975Ab1Ea89e8196811F51A7B7Ade33eB11"⟩
    ∧ (normalizeUniPair
        ⟨⟨"0x6B175474E89094C44Da98b954EedeAC495271d0F", "DAI", 18, "Dai"⟩,
          ⟨"0xC02aaA39b223FE8D0A0e5C4F27eAD9083C756Cc2", "WETH", 18, "Wrapped Ether"⟩,
          "DAI-WETH", "0xA478c2975Ab1Ea89e8196811F51A7B7Ade33eB11"⟩).Token1.Address
      = "0x0000000000000000000000000000000000000000" :=
  ⟨by decide,
    ((normalizeUniPair_spec
      ⟨⟨"0x6B175474E89094C44Da98b954EedeAC495271d0F", "DAI", 18, "Dai"⟩,
        ⟨"0xC02aaA39b223FE8D0A0e5C4F27eAD9083C756Cc2", "WETH", 18, "Wrapped Ether"⟩,
        "DAI-WETH", "0xA478c2975Ab1Ea89e8196811F51A7B7Ade33eB11"⟩).2.1 rfl).1⟩


/-- A string of ASCII characters has as many bytes as characters. -/
theorem utf8Len_of_ascii (l : List Char) (h : ∀ c ∈ l, c.toNat < 128) :
    String.utf8Len l = l.length := by
  induction l with
  | nil => rfl
  | cons c cs ih =>
    have hc : c.toNat < 128 := h c (List.mem_cons_self _ _)
    have hcs := ih (fun d hd => h d (List.mem_cons_of_mem _ hd))
    have h1 : c.utf8Size = 1 := by
      unfold Char.utf8Size
      have : c.val ≤ 127 := by
        have : c.val.toNat < 128 := hc
        exact UInt32.le_def.2 (by simpa using Nat.lt_succ_iff.1 this)
      simp [this]
    simp [hcs, h1]

theorem utf8ByteSize_of_ascii (s : String) (h : ∀ c ∈ s.toList, c.toNat < 128) :
    s.utf8ByteSize = s.length := by
  cases s with
  | mk l =>
    have := utf8Len_of_ascii l h
    simpa using this

/-- C21 as stated fails: with `"SCAM"` on the symbol blacklist, a pair whose Token0 has the
symbol `"SCAM"` and whose addresses are not blacklisted gets its swap subscription when the
two calls of `GetSwapsChannel` succeed; and so does a pair whose Token0 has the symbol `"Ω"`,
one character of two bytes. -/
theorem ListenToPairByIndexPair_ignores_symbol_blacklist :
    SymbolIsBlackListed ["SCAM"] "SCAM" = true
    ∧ ListenToPairByIndexPair [] false none none
        ⟨⟨"0x1111111111111111111111111111111111111111", "SCAM", 18, "Scam"⟩,
          ⟨"0xdAC17F958D2ee523a2206206994597C13D831ec7", "USDT", 6, "Tether"⟩, "SCAM-USDT",
          "0x2222222222222222222222222222222222222222"⟩
      = ListenOutcome.listening
          ⟨⟨"0x1111111111111111111111111111111111111111", "SCAM", 18, "Scam"⟩,
            ⟨"0xdAC17F958D2ee523a2206206994597C13D831ec7", "USDT", 6, "Tether"⟩, "SCAM-USDT",
            "0x2222222222222222222222222222222222222222"⟩ true
    ∧ ("Ω" : String).length = 1
    ∧ ListenToPairByIndexPair [] false none none
        ⟨⟨"0x1111111111111111111111111111111111111111", "Ω", 18, "Omega"⟩,
          ⟨"0xdAC17F958D2ee523a2206206994597C13D831ec7", "USDT", 6, "Tether"⟩, "Ω-USDT",
          "0x2222222222222222222222222222222222222222"⟩
      = ListenOutcome.listening
          ⟨⟨"0x1111111111111111111111111111111111111111", "Ω", 18, "Omega"⟩,
            ⟨"0xdAC17F958D2ee523a2206206994597C13D831ec7", "USDT", 6, "Tether"⟩, "Ω-USDT",
            "0x2222222222222222222222222222222222222222"⟩ true := by
  refine ⟨by decide, by decide, by decide, by decide⟩

/-- C21, amended: for a pair whose token symbols are ASCII, `ListenToPairByIndex` opens a swap
subscription only if both token symbols have at least 2 characters and neither token address
is on the address blacklist; a pair violating either condition is rejected without
subscribing: the method returns before `GetSwapsChannel` is called, whatever the two calls in
it would return. The first part holds of every run that reaches the consumer task, with the
subscription opened or not. -/
theorem ListenToPairByIndexPair_subscribes_only_if (addressBlacklist : List String)
    (isEthereum : Bool) (newFiltererErr watchSwapErr : Option String) (pair : UniswapPair)
    (hascii0 : ∀ c ∈ pair.Token0.Symbol.toList, c.toNat < 128)
    (hascii1 : ∀ c ∈ pair.Token1.Symbol.toList, c.toNat < 128) :
    (∀ p subscribed,
      ListenToPairByIndexPair addressBlacklist isEthereum newFiltererErr watchSwapErr pair
          = ListenOutcome.listening p subscribed →
        2 ≤ pair.Token0.Symbol.length ∧ 2 ≤ pair.Token1.Symbol.length
        ∧ AddressIsBlacklisted addressBlacklist pair.Token0.Address = false
        ∧ AddressIsBlacklisted addressBlacklist pair.Token1.Address = false)
    ∧ ((pair.Token0.Symbol.length < 2 ∨ pair.Token1.Symbol.length < 2
          ∨ AddressIsBlacklisted addressBlacklist pair.Token0.Address = true
          ∨ AddressIsBlacklisted addressBlacklist pair.Token1.Address = true) →
        ListenToPairByIndexPair addressBlacklist isEthereum newFiltererErr watchSwapErr pair
          = ListenOutcome.skipped) := by
  have h0 := utf8ByteSize_of_ascii pair.Token0.Symbol hascii0
  have h1 := utf8ByteSize_of_ascii pair.Token1.Symbol hascii1
  unfold ListenToPairByIndexPair
  rw [h0, h1]
  by_cases hlen : pair.Token0.Symbol.length < 2 ∨ pair.Token1.Symbol.length < 2
  · rw [if_pos hlen]
    exact ⟨fun p subscribed h => by simp at h, fun _ => rfl⟩
  · rw [if_neg hlen]
    have hlen' : 2 ≤ pair.Token0.Symbol.length ∧ 2 ≤ pair.Token1.Symbol.length := by
      constructor <;> omega
    by_cases hbl : AddressIsBlacklisted addressBlacklist pair.Token0.Address = true
        ∨ AddressIsBlacklisted addressBlacklist pair.Token1.Address = true
    · rw [if_pos hbl]
      exact ⟨fun p subscribed h => by simp at h, fun _ => rfl⟩
    · rw [if_neg hbl]
      constructor
      · intro p subscribed _
        refine ⟨hlen'.1, hlen'.2, ?_, ?_⟩
        · cases hb : AddressIsBlacklisted addressBlacklist pair.Token0.Address
          · rfl
          · exact absurd (Or.inl hb) hbl
        · cases hb : AddressIsBlacklisted addressBlacklist pair.Token1.Address
          · rfl
          · exact absurd (Or.inr hb) hbl
      · rintro (h | h | h | h)
        · exact absurd (Or.inl h) hlen
        · exact absurd (Or.inr h) hlen
        · exact absurd (Or.inl h) hbl
        · exact absurd (Or.inr h) hbl

theorem ListenToPairByIndexPair_subscribes_only_if_witness :
    ListenToPairByIndexPair ["0x3333333333333333333333333333333333333333"] true none none
        ⟨⟨"0x6B175474E89094C44Da98b954EedeAC495271d0F", "DAI", 18, "Dai Stablecoin"⟩,
          ⟨"0xC02aaA39b223FE8D0A0e5C4F27eAD9083C756Cc2", "WETH", 18, "Wrapped Ether"⟩,
          "DAI-WETH", "0xA478c2975Ab1Ea89e8196811F51A7B7Ade33eB11"⟩
      = ListenOutcome.listening
          ⟨⟨"0x6B175474E89094C44Da98b954EedeAC495271d0F", "DAI", 18, "Dai Stablecoin"⟩,
            ⟨"0x0000000000000000000000000000000000000000", "ETH", 18, "Wrapped Ether"⟩,
            "DAI-ETH", "0xA478c2975Ab1Ea89e8196811F51A7B7Ade33eB11"⟩ true
    ∧ (2 ≤ ("DAI" : String).length ∧ 2 ≤ ("WETH" : String).length
      ∧ AddressIsBlacklisted ["0x3333333333333333333333333333333333333333"]
          "0x6B175474E89094C44Da98b954EedeAC495271d0F" = false
      ∧ AddressIsBlacklisted ["0x3333333333333333333333333333333333333333"]
          "0xC02aaA39b223FE8D0A0e5C4F27eAD9083C756Cc2" = false)
    ∧ ListenToPairByIndexPair ["0x3333333333333333333333333333333333333333"] true none none
        ⟨⟨"0x3333333333333333333333333333333333333333", "BAD", 18, "Bad Token"⟩,
          ⟨"0xC02aaA39b223FE8D0A0e5C4F27eAD9083C756Cc2", "WETH", 18, "Wrapped Ether"⟩,
          "BAD-WETH", "0x4444444444444444444444444444444444444444"⟩
      = ListenOutcome.skipped :=
  ⟨by decide,
    (ListenToPairByIndexPair_subscribes_only_if
      ["0x3333333333333333333333333333333333333333"] true none none
      ⟨⟨"0x6B175474E89094C44Da98b954EedeAC495271d0F", "DAI", 18, "Dai Stablecoin"⟩,
        ⟨"0xC02aaA39b223FE8D0A0e5C4F27eAD9083C756Cc2", "WETH", 18, "Wrapped Ether"⟩,
        "DAI-WETH", "0xA478c2975Ab1Ea89e8196811F51A7B7Ade33eB11"⟩
      (by decide) (by decide)).1
      ⟨⟨"0x6B175474E89094C44Da98b954EedeAC495271d0F", "DAI", 18, "Dai Stablecoin"⟩,
        ⟨"0x0000000000000000000000000000000000000000", "ETH", 18, "Wrapped Ether"⟩,
        "DAI-ETH", "0xA478c2975Ab1Ea89e8196811F51A7B7Ade33eB11"⟩ true (by decide),
    (ListenToPairByIndexPair_subscribes_only_if
      ["0x3333333333333333333333333333333333333333"] true none none
      ⟨⟨"0x3333333333333333333333333333333333333333", "BAD", 18, "Bad Token"⟩,
        ⟨"0xC02aaA39b223FE8D0A0e5C4F27eAD9083C756Cc2", "WETH", 18, "Wrapped Ether"⟩,
        "BAD-WETH", "0x4444444444444444444444444444444444444444"⟩
      (by decide) (by decide)).2 (Or.inr (Or.inr (Or.inl (by decide))))⟩

/-- C23 fails on the code: `pairHealthCheck` returns true for the pair ETH-DAI whose Token0
has the all-zero address, with nothing blacklisted; the test of an address is a test of its
hex string against the empty string. -/
theorem pairHealthCheck_accepts_zero_address :
    (⟨"0x0000000000000000000000000000000000000000", "ETH", 18, "Ether"⟩ :
        UniswapToken).Address = "0x0000000000000000000000000000000000000000"
    ∧ pairHealthCheck [] []
        ⟨⟨"0x0000000000000000000000000000000000000000", "ETH", 18, "Ether"⟩,
          ⟨"0x6B175474E89094C44Da98b954EedeAC495271d0F", "DAI", 18, "Dai"⟩, "ETH-DAI",
          "0xA478c2975Ab1Ea89e8196811F51A7B7Ade33eB11"⟩ = true := by
  refine ⟨rfl, by decide⟩

/-- C25 fails on the code: `Close` never sets `closed`, whatever the state. On a new scraper
`Close` closes the clients and the shutdown channel and then blocks on `shutdownDone`; after
that call a second `Close` closes the clients again and panics on closing the shutdown
channel a second time, and `ScrapePair` returns a pair scraper with a nil error and
registers it. Were `shutdownDone` closed, `Close` would return and leave `closed` false all
the same. -/
theorem Close_does_not_mark_closed :
    (∀ s : UniswapScraper, (UniswapScraper.Close s).2.closed = s.closed)
    ∧ UniswapScraper.Close ⟨0, 0, false, false, none, false, []⟩
      = (CallResult.blocked, ⟨1, 1, true, false, none, false, []⟩)
    ∧ UniswapScraper.Close ⟨1, 1, true, false, none, false, []⟩
      = (CallResult.panicked, ⟨2, 2, true, false, none, false, []⟩)
    ∧ UniswapScraper.ScrapePair ⟨1, 1, true, false, none, false, []⟩
        ⟨"ETH", "ETH-DAI", "UniswapV2", true⟩
      = ((some ⟨⟨"ETH", "ETH-DAI", "UniswapV2", true⟩, false⟩, none),
          ⟨1, 1, true, false, none, false,
            [("ETH-DAI", ⟨⟨"ETH", "ETH-DAI", "UniswapV2", true⟩, false⟩)]⟩)
    ∧ UniswapScraper.Close ⟨0, 0, false, true, none, false, []⟩
      = (CallResult.returned none, ⟨1, 1, true, true, none, false, []⟩) := by
  refine ⟨?_, by decide, by decide, by decide, by decide⟩
  intro s
  simp only [UniswapScraper.Close]
  split_ifs <;> rfl

end UniswapV2Scraper
